import Mathlib

/-!
Verification development for the `sr` spaced-repetition engine.

This file gives a shallow embedding, in Lean 4, of the card-lifecycle core of
the repository: the catalog store schema (`src/sr/db.py`), the synchronizer
(`src/sr/sync.py`), the review-session state machine
(`src/sr/review_session.py` together with the HTTP operations of
`src/sr/server.py`, and the legacy variant in `src/sr/server_review.py`),
and the SM-2 scheduler (`src/example_sr_dir/schedulers/sm2/sm2.py`).

Modelling conventions:
* SQLite tables become Lean lists of row structures, ordered by insertion
  (SQLite returns rows of these simple queries in rowid order).
* Card content is its canonical-JSON serialization (a `String`); the SHA-256
  fingerprint is abstracted as an arbitrary function `hashFn : String → String`
  passed to the synchronizer, since no verified property depends on the
  concrete digest.
* Python `dict`s (scanned keys, the existing map, source-suspension flags)
  become association lists with first-insertion-order, replace-in-place
  semantics, exactly as Python 3.7+ dicts behave.
* Scheduler hooks are modelled as state-threading functions returning
  `Except String _`; an `Except.error` result models a raised exception,
  which the callers in `sync.py` / `review_session.py` catch and log.
* Timestamps are ISO-8601 strings compared lexicographically (the code
  compares them as SQLite TEXT); wall-clock reads (`time.time()`) are
  injected as explicit `Nat` arguments.
-/

namespace SR

/-- Card status, as constrained by the `card_state` CHECK constraint in
`src/sr/db.py`. -/
inductive Status where
  | active
  | inactive
  | deleted
deriving Repr, DecidableEq

/-- A row of the `cards` table (`src/sr/db.py`). `content` holds the
canonical-JSON serialization that `_insert_card` stores via
`json.dumps(card.content, sort_keys=True)`. -/
structure CardRow where
  id : Nat
  source_path : String
  card_key : String
  adapter : String
  content : String
  content_hash : String
  display_text : String
  gradable : Bool
  source_line : Nat
  created_at : String
deriving Repr, DecidableEq

/-- A row of the `card_state` table (one per card id). -/
structure StateRow where
  card_id : Nat
  status : Status
  updated_at : String
deriving Repr, DecidableEq

/-- A row of the `card_relations` table. -/
structure RelRow where
  upstream_card_id : Nat
  downstream_card_id : Nat
  relation_type : String
deriving Repr, DecidableEq

/-- A row of the `recommendations` table (primary key `(card_id, scheduler_id)`). -/
structure RecRow where
  card_id : Nat
  scheduler_id : String
  time : String
  precision_seconds : Int
deriving Repr, DecidableEq

/-- A row of the append-only `review_log` table. -/
structure ReviewRow where
  card_id : Nat
  session_id : String
  timestamp : String
  grade : Nat
  time_on_front_ms : Option Int
  time_on_card_ms : Option Int
  feedback : Option String
  response : Option String
deriving Repr, DecidableEq

/-- The catalog store: the SQLite database of `src/sr/db.py` as lists of rows
in rowid (insertion) order. `next_id` models the AUTOINCREMENT counter of the
`cards` table (ids are monotone and never reused). -/
structure Catalog where
  cards : List CardRow
  card_state : List StateRow
  card_tags : List (Nat × String)
  card_relations : List RelRow
  recommendations : List RecRow
  review_log : List ReviewRow
  card_flags : List (Nat × String)
  next_id : Nat
deriving Repr, DecidableEq

/-- A relation declared by an adapter on a scanned card
(`sr.models.Relation`). -/
structure RelDecl where
  target_key : String
  relation_type : String
  target_source : Option String
deriving Repr, DecidableEq

/-- A scanned card record (`sr.models.Card`); `content` is its canonical-JSON
serialization. -/
structure Card where
  key : String
  content : String
  display_text : String
  gradable : Bool
  source_line : Nat
  tags : List String
  relations : List RelDecl
deriving Repr, DecidableEq

/-- The slice of a per-source config that `sync_cards` reads:
`bool(config.get("suspended", False))`. -/
structure Config where
  suspended : Bool
deriving Repr, DecidableEq

/-- One entry of a scan result: `(source_path, adapter_name, cards, config)`. -/
abbrev ScanResult := String × String × List Card × Config

/-- A recommendation returned by a scheduler hook (`sr.models.Recommendation`). -/
structure Recommendation where
  card_id : Nat
  time : String
  precision_seconds : Int
deriving Repr, DecidableEq

/-- A review event passed to `Scheduler.on_review` (`sr.models.ReviewEvent`). -/
structure ReviewEvent where
  card_id : Nat
  timestamp : String
  grade : Nat
  time_on_front_ms : Int
  time_on_card_ms : Int
  feedback : Option String
  response : Option String
deriving Repr, DecidableEq

/-- The scheduler contract (§4.3): hooks thread the scheduler's private state
`σ` and may fail; `Except.error` models a raised exception, which every caller
in the core catches. -/
structure Scheduler (σ : Type) where
  scheduler_id : String
  on_card_created : σ → Nat → σ × Except String (Option Recommendation)
  on_card_replaced : σ → Nat → Nat → σ × Except String (Option Recommendation)
  on_card_status_changed : σ → Nat → String → σ × Except String Unit
  on_review : σ → Nat → ReviewEvent → σ × Except String (List Recommendation)

/-- The stats dict returned by `sync_cards`. -/
structure Stats where
  new : Nat
  updated : Nat
  deleted : Nat
  unchanged : Nat
deriving Repr, DecidableEq

/-! ### Association lists with Python-dict semantics

Python 3.7+ dicts preserve first-insertion order; assigning to an existing key
replaces the value in place, and `del` removes the entry. -/

/-- Dict assignment: replace in place if the key is present, else append. -/
def alInsert {K V : Type} [DecidableEq K] (k : K) (v : V) : List (K × V) → List (K × V)
  | [] => [(k, v)]
  | (k', v') :: rest => if k' = k then (k, v) :: rest else (k', v') :: alInsert k v rest

/-- Dict lookup. -/
def alLookup {K V : Type} [DecidableEq K] (k : K) : List (K × V) → Option V
  | [] => none
  | (k', v') :: rest => if k' = k then some v' else alLookup k rest

/-- Dict deletion (removes every entry with the key; entries are unique in a
dict). -/
def alErase {K V : Type} [DecidableEq K] (k : K) : List (K × V) → List (K × V)
  | [] => []
  | (k', v') :: rest => if k' = k then alErase k rest else (k', v') :: alErase k rest

/-- Keys of an association list. -/
def alKeys {K V : Type} (m : List (K × V)) : List K := m.map Prod.fst

/-! ### The synchronizer (`src/sr/sync.py`) -/

/-- The natural key of a card: `(source_path, card_key, adapter)`. -/
abbrev Triple := String × String × String

/-- The triple of a card row. -/
def tripleOf (c : CardRow) : Triple := (c.source_path, c.card_key, c.adapter)

/-- Status lookup: `SELECT status FROM card_state WHERE card_id = i`
(`card_id` is the primary key, so at most one row; `find?` takes the first). -/
def statusOf (D : Catalog) (i : Nat) : Option Status :=
  (D.card_state.find? (fun s => s.card_id == i)).map StateRow.status

/-- `scanned_sources` accumulated by the first loop of `sync_cards` (a Python
set; we keep the underlying list, membership is all that is consumed). -/
def scannedSourcesOf (R : List ScanResult) : List String := R.map Prod.fst

/-- The `source_suspended` dict of `sync_cards`. -/
def sourceSuspendedOf (R : List ScanResult) : List (String × Bool) :=
  R.foldl (fun m x =>
    match x with
    | (source_path, _adapter_name, _cards, config) =>
      alInsert source_path config.suspended m) []

/-- The `scanned_keys` dict of `sync_cards`: keyed by triple, the later
occurrence of a duplicated triple wins. -/
def scannedKeysOf (R : List ScanResult) : List (Triple × Card) :=
  R.foldl (fun m x =>
    match x with
    | (source_path, adapter_name, cards, _config) =>
      cards.foldl (fun m card => alInsert (source_path, card.key, adapter_name) card m) m) []

/-- The in-scope condition assembled from `existing_conditions`: the row's
source path equals a scanned source, or equals a scanned file path, or has a
scanned directory as a proper prefix (the SQL `LIKE '{dir}/%'`). A scanned
path is `(resolved path string, is_dir)`. -/
def inScope (scannedSources : List String) (scannedPaths : List (String × Bool))
    (p : String) : Bool :=
  scannedSources.contains p ||
    scannedPaths.any (fun sp => if sp.2 then (sp.1 ++ "/").isPrefixOf p else p == sp.1)

/-- A row of the `existing` query of `sync_cards` (cards joined with state,
restricted to status active/inactive and the in-scope condition). -/
structure ExistRow where
  id : Nat
  source_path : String
  card_key : String
  adapter : String
  content_hash : String
  status : Status
deriving Repr, DecidableEq

/-- The `existing` query result, in rowid order. When there are no conditions
at all the code skips the query; `inScope` is then everywhere false, giving
the same empty result. -/
def existingRows (ss : List String) (sp : List (String × Bool)) (D : Catalog) :
    List ExistRow :=
  D.cards.filterMap (fun c =>
    match statusOf D c.id with
    | none => none
    | some st =>
      if (st = Status.active ∨ st = Status.inactive) ∧ inScope ss sp c.source_path = true then
        some { id := c.id, source_path := c.source_path, card_key := c.card_key,
               adapter := c.adapter, content_hash := c.content_hash, status := st }
      else none)

/-- The `existing_map` dict, keyed by triple. -/
def existingMapOf (ss : List String) (sp : List (String × Bool)) (D : Catalog) :
    List (Triple × ExistRow) :=
  (existingRows ss sp D).foldl
    (fun m r => alInsert (r.source_path, r.card_key, r.adapter) r m) []

/-- `_sync_tags`: upsert the card's tag set — insert missing tags, delete
extras. The Python code iterates set differences; the resulting table is
order-insensitive in the set of rows, and we keep insertion order for the
added tags. -/
def sync_tags (D : Catalog) (card_id : Nat) (tags : List String) : Catalog :=
  let existing := (D.card_tags.filter (fun p => p.1 == card_id)).map Prod.snd
  let D1 := tags.foldl (fun acc t =>
      if existing.contains t || acc.card_tags.contains (card_id, t) then acc
      else { acc with card_tags := acc.card_tags ++ [(card_id, t)] }) D
  let keep := fun (p : Nat × String) =>
    !(p.1 == card_id && existing.contains p.2 && !tags.contains p.2)
  { D1 with card_tags := D1.card_tags.filter keep }

/-- `_insert_card`: insert card and state atomically, sync tags, return the new
id (`lastrowid`). -/
def insert_card (now : String) (D : Catalog) (source_path card_key adapter_name : String)
    (card : Card) (chash : String) (status : Status) : Catalog × Nat :=
  let card_id := D.next_id
  let row : CardRow :=
    { id := card_id, source_path := source_path, card_key := card_key,
      adapter := adapter_name, content := card.content, content_hash := chash,
      display_text := card.display_text, gradable := card.gradable,
      source_line := card.source_line, created_at := now }
  let D1 : Catalog :=
    { D with cards := D.cards ++ [row],
             card_state := D.card_state ++ [⟨card_id, status, now⟩],
             next_id := card_id + 1 }
  (sync_tags D1 card_id card.tags, card_id)

/-- `_upsert_recommendation`: `INSERT OR REPLACE` keyed by
`(card_id, scheduler_id)`. -/
def upsert_recommendation (D : Catalog) (rec : Recommendation) (sched_id : String) :
    Catalog :=
  let kept := D.recommendations.filter
    (fun r => !(r.card_id == rec.card_id && r.scheduler_id == sched_id))
  { D with recommendations :=
      kept ++ [⟨rec.card_id, sched_id, rec.time, rec.precision_seconds⟩] }

/-- Intermediate state of the per-card loop of `sync_cards`. -/
structure SyncSt (σ : Type) where
  db : Catalog
  stats : Stats
  emap : List (Triple × ExistRow)
  sched_st : σ

/-- The `unchanged` branch of the per-card decision: refresh `display_text`
and `source_line`, resync tags, count as unchanged, drop the map entry. -/
def processUnchanged {σ : Type} (st : SyncSt σ) (key_tuple : Triple) (card : Card)
    (row : ExistRow) : SyncSt σ :=
  let newCards := st.db.cards.map (fun c =>
    if c.id = row.id then
      { c with display_text := card.display_text, source_line := card.source_line }
    else c)
  let D : Catalog := { st.db with cards := newCards }
  let D := sync_tags D row.id card.tags
  { st with db := D,
            stats := { st.stats with unchanged := st.stats.unchanged + 1 },
            emap := alErase key_tuple st.emap }

/-- The `replace` branch of the per-card decision: mark the old row deleted,
rewrite its key to free the uniqueness slot, insert the new row (status
`inactive` iff the old one was), record the `is_replaced_by` relation, invoke
the replacement hook on active cards (exceptions caught), count as updated. -/
def processReplace {σ : Type} (now : String) (sched : Option (Scheduler σ))
    (st : SyncSt σ) (key_tuple : Triple) (card : Card) (chash : String)
    (row : ExistRow) : SyncSt σ :=
  let (source_path, card_key, adapter_name) := key_tuple
  let old_id := row.id
  let current_status := row.status
  let new_status := if current_status = Status.inactive then current_status else Status.active
  let newState := st.db.card_state.map (fun s =>
    if s.card_id = old_id then { s with status := Status.deleted, updated_at := now }
    else s)
  let D : Catalog := { st.db with card_state := newState }
  let newCards := D.cards.map (fun c =>
    if c.id = old_id then
      { c with card_key := c.card_key ++ "__replaced_" ++ toString c.id }
    else c)
  let D : Catalog := { D with cards := newCards }
  let p := insert_card now D source_path card_key adapter_name card chash new_status
  let D := p.1
  let new_id := p.2
  let newRels := D.card_relations ++ [⟨old_id, new_id, "is_replaced_by"⟩]
  let D : Catalog := { D with card_relations := newRels }
  let q : Catalog × σ :=
    match sched with
    | some S =>
      if new_status = Status.active then
        let r := S.on_card_replaced st.sched_st old_id new_id
        match r.2 with
        | Except.ok (some rec) => (upsert_recommendation D rec S.scheduler_id, r.1)
        | Except.ok none => (D, r.1)
        | Except.error _ => (D, r.1)
      else (D, st.sched_st)
    | none => (D, st.sched_st)
  { db := q.1,
    stats := { st.stats with updated := st.stats.updated + 1 },
    emap := alErase key_tuple st.emap,
    sched_st := q.2 }

/-- The `insert` branch of the per-card decision: new card with status from the
source's `suspended` config, creation hook on active cards (exceptions
caught), count as new. -/
def processInsert {σ : Type} (now : String) (sched : Option (Scheduler σ))
    (srcSusp : List (String × Bool)) (st : SyncSt σ) (key_tuple : Triple)
    (card : Card) (chash : String) : SyncSt σ :=
  let (source_path, card_key, adapter_name) := key_tuple
  let new_status :=
    if alLookup source_path srcSusp = some true then Status.inactive else Status.active
  let p := insert_card now st.db source_path card_key adapter_name card chash new_status
  let D := p.1
  let new_id := p.2
  let q : Catalog × σ :=
    match sched with
    | some S =>
      if new_status = Status.active then
        let r := S.on_card_created st.sched_st new_id
        match r.2 with
        | Except.ok (some rec) => (upsert_recommendation D rec S.scheduler_id, r.1)
        | Except.ok none => (D, r.1)
        | Except.error _ => (D, r.1)
      else (D, st.sched_st)
    | none => (D, st.sched_st)
  { db := q.1,
    stats := { st.stats with new := st.stats.new + 1 },
    emap := st.emap,
    sched_st := q.2 }

/-- The body of `for key_tuple, card in scanned_keys.items()` in `sync_cards`. -/
def processCard {σ : Type} (hashFn : String → String) (now : String)
    (sched : Option (Scheduler σ)) (srcSusp : List (String × Bool))
    (st : SyncSt σ) (kv : Triple × Card) : SyncSt σ :=
  let key_tuple := kv.1
  let card := kv.2
  let chash := hashFn card.content
  match alLookup key_tuple st.emap with
  | some row =>
    if row.content_hash = chash then processUnchanged st key_tuple card row
    else processReplace now sched st key_tuple card chash row
  | none => processInsert now sched srcSusp st key_tuple card chash

/-- The deletion sweep over the leftover `existing_map` entries: mark deleted,
remove recommendations, fire the status-change hook (exceptions caught), count
as deleted. -/
def sweepCard {σ : Type} (now : String) (sched : Option (Scheduler σ))
    (st : SyncSt σ) (kv : Triple × ExistRow) : SyncSt σ :=
  let row := kv.2
  let newState := st.db.card_state.map (fun s =>
    if s.card_id = row.id then { s with status := Status.deleted, updated_at := now }
    else s)
  let D : Catalog := { st.db with card_state := newState }
  let newRecs := D.recommendations.filter (fun r => !(r.card_id == row.id))
  let D : Catalog := { D with recommendations := newRecs }
  let sst :=
    match sched with
    | some S => (S.on_card_status_changed st.sched_st row.id "deleted").1
    | none => st.sched_st
  { db := D,
    stats := { st.stats with deleted := st.stats.deleted + 1 },
    emap := st.emap,
    sched_st := sst }

/-- Resolve the active row of a triple, as in `_sync_relations`'s first query
(`fetchone` without ORDER BY takes the first row in rowid order). -/
def resolveActive (D : Catalog) (source_path card_key adapter_name : String) :
    Option Nat :=
  (D.cards.find? (fun c =>
      c.source_path == source_path && c.card_key == card_key &&
      c.adapter == adapter_name &&
      decide (statusOf D c.id = some Status.active))).map CardRow.id

/-- Resolve a relation target: note the target query of `_sync_relations` does
not constrain the adapter. -/
def resolveActiveTarget (D : Catalog) (source_path card_key : String) : Option Nat :=
  (D.cards.find? (fun c =>
      c.source_path == source_path && c.card_key == card_key &&
      decide (statusOf D c.id = some Status.active))).map CardRow.id

/-- `_sync_relations`: insert adapter-declared relations idempotently where
both endpoints resolve to active cards (the `scheduler` parameter of the
Python function is unused). -/
def sync_relations (D0 : Catalog) (R : List ScanResult) : Catalog :=
  R.foldl (fun D x =>
    match x with
    | (source_path, adapter_name, cards, _config) =>
      cards.foldl (fun D card =>
        if card.relations.isEmpty then D
        else
          match resolveActive D source_path card.key adapter_name with
          | none => D
          | some card_id =>
            card.relations.foldl (fun D rel =>
              let target_source := rel.target_source.getD source_path
              match resolveActiveTarget D target_source rel.target_key with
              | some tid =>
                let r : RelRow := ⟨card_id, tid, rel.relation_type⟩
                if r ∈ D.card_relations then D
                else { D with card_relations := D.card_relations ++ [r] }
              | none => D) D) D) D0

/-- `sync_cards`: the top-level reconciliation of a scan output against the
catalog. Returns the new catalog, the stats dict, and the scheduler's state. -/
def sync_cards {σ : Type} (hashFn : String → String) (now : String) (D : Catalog)
    (R : List ScanResult) (sched : Option (Scheduler σ)) (sst : σ)
    (scannedPaths : List (String × Bool)) : Catalog × Stats × σ :=
  let ss := scannedSourcesOf R
  let susp := sourceSuspendedOf R
  let skeys := scannedKeysOf R
  let emap := existingMapOf ss scannedPaths D
  let st0 : SyncSt σ := ⟨D, ⟨0, 0, 0, 0⟩, emap, sst⟩
  let st1 := skeys.foldl (processCard hashFn now sched susp) st0
  let st2 := st1.emap.foldl (sweepCard now sched) { st1 with emap := ([] : List (Triple × ExistRow)) }
  (sync_relations st2.db R, st2.stats, st2.sched_st)

/-! ### The review session (`src/sr/review_session.py` + `src/sr/server.py`)

The `ReviewSession` class of `review_session.py` plus the session-mutating
endpoints of `server.py`'s `AppHandler` (skip, suspend, undo). The session's
`current_card` holds the row served by `get_next_card` (the query selects a
subset of columns; we keep the whole row, which carries the same fields).
Wall-clock reads (`time.time()`) are injected as `Nat` ticks; the review
timestamp (`datetime.now(...).strftime(...)`) is injected as a `String`. -/

structure SessionRS where
  session_id : String
  tag_filter : Option String
  path_filter : Option String
  flag_filter : Option String
  current_card : Option CardRow
  undo_stack : List (CardRow × List Nat)
  flip_time : Option Nat
  serve_time : Option Nat
  reviewed : Int
  reviewed_ids : List Nat
deriving Repr, DecidableEq

/-- The WHERE clauses shared by the card queries (`_filter_clause`): tag, path
prefix and flag filters plus the `NOT IN reviewed_ids` exclusion. A `none`
filter contributes no clause (Python also drops an empty-string filter, a case
the claims never exercise). -/
def passesFilters (D : Catalog) (s : SessionRS) (c : CardRow) : Bool :=
  (match s.tag_filter with
   | some t => D.card_tags.contains (c.id, t)
   | none => true) &&
  (match s.path_filter with
   | some p => p.isPrefixOf c.source_path
   | none => true) &&
  (match s.flag_filter with
   | some f => D.card_flags.contains (c.id, f)
   | none => true) &&
  !(s.reviewed_ids.contains c.id)

/-- The rows of `cards LEFT JOIN recommendations ON c.id = r.card_id`
(cards without a state row are dropped later by the join with `card_state`). -/
def joinRows (D : Catalog) : List (CardRow × Option RecRow) :=
  D.cards.flatMap (fun c =>
    match D.recommendations.filter (fun r => r.card_id == c.id) with
    | [] => [(c, none)]
    | recs => recs.map (fun r => (c, some r)))

/-- The full WHERE clause of `get_next_card`: active, gradable, due
(`r.time IS NULL OR r.time <= datetime('now')`), session filters. -/
def eligibleRow (now : String) (D : Catalog) (s : SessionRS)
    (p : CardRow × Option RecRow) : Bool :=
  decide (statusOf D p.1.id = some Status.active) && p.1.gradable &&
  (match p.2 with
   | none => true
   | some r => decide (r.time ≤ now)) &&
  passesFilters D s p.1

/-- The ORDER BY of `get_next_card` as a total Boolean order on join rows:
`CASE WHEN r.time IS NULL THEN 1 ELSE 0 END, r.time ASC, c.id ASC`. -/
def rowLe (a b : CardRow × Option RecRow) : Bool :=
  let na : Nat := if a.2.isSome then 0 else 1
  let nb : Nat := if b.2.isSome then 0 else 1
  if na = nb then
    let ta := (a.2.map RecRow.time).getD ""
    let tb := (b.2.map RecRow.time).getD ""
    if ta = tb then decide (a.1.id ≤ b.1.id) else decide (ta < tb)
  else decide (na < nb)

/-- One step of the running minimum behind `ORDER BY … LIMIT 1`. -/
def selStep {α : Type} (le : α → α → Bool) (acc : Option α) (x : α) : Option α :=
  match acc with
  | none => some x
  | some a => if le a x then some a else some x

/-- `ORDER BY … LIMIT 1`: the least row under `le` (ties keep the earlier
row, which is immaterial here since `rowLe` separates distinct rows by id). -/
def selectFirst {α : Type} (le : α → α → Bool) (l : List α) : Option α :=
  l.foldl (selStep le) none

/-- `ReviewSession.get_next_card`: run the next-card query; on a hit set the
current card and the serve time and clear the flip time (on a miss the session
is left untouched and `None` is returned). -/
def get_next_card (now : String) (t : Nat) (D : Catalog) (s : SessionRS) :
    SessionRS × Option CardRow :=
  match selectFirst rowLe ((joinRows D).filter (eligibleRow now D s)) with
  | none => (s, none)
  | some p =>
    ({ s with current_card := some p.1, serve_time := some t, flip_time := none },
     some p.1)

/-- `ReviewSession._exclude_mutually_exclusive`: add every card sharing a
`mutually_exclusive` relation with `card_id` (in either direction, via the SQL
UNION) to `reviewed_ids`; return the sibling ids that were newly excluded. -/
def siblingsOf (D : Catalog) (card_id : Nat) : List Nat :=
  ((D.card_relations.filter (fun r =>
      r.upstream_card_id == card_id && r.relation_type == "mutually_exclusive")).map
    RelRow.downstream_card_id) ++
  ((D.card_relations.filter (fun r =>
      r.downstream_card_id == card_id && r.relation_type == "mutually_exclusive")).map
    RelRow.upstream_card_id)

/-- One step of the exclusion loop: skip an already-excluded sibling,
otherwise add it to `reviewed_ids` and record it as newly excluded. -/
def excludeStep (acc : SessionRS × List Nat) (sid : Nat) : SessionRS × List Nat :=
  let s := acc.1
  let excluded := acc.2
  if s.reviewed_ids.contains sid then (s, excluded)
  else ({ s with reviewed_ids := s.reviewed_ids ++ [sid] },
        if excluded.contains sid then excluded else excluded ++ [sid])

def exclude_mutually_exclusive (D : Catalog) (s : SessionRS) (card_id : Nat) :
    SessionRS × List Nat :=
  (siblingsOf D card_id).foldl excludeStep (s, ([] : List Nat))

/-- Set-insertion into `reviewed_ids` (Python `set.add`). -/
def addReviewedId (s : SessionRS) (i : Nat) : SessionRS :=
  if s.reviewed_ids.contains i then s
  else { s with reviewed_ids := s.reviewed_ids ++ [i] }

/-- The `on_review` call with its try/except and recommendation upserts, as
performed by both `grade_current` variants: on success every returned
recommendation is upserted; an exception leaves the catalog untouched. -/
def applyOnReview {σ : Type} (sched : Option (Scheduler σ)) (sst : σ)
    (card_id : Nat) (ev : ReviewEvent) (D : Catalog) : Catalog × σ :=
  match sched with
  | some S =>
    let r := S.on_review sst card_id ev
    match r.2 with
    | Except.ok recs =>
      (recs.foldl (fun D2 rec => upsert_recommendation D2 rec S.scheduler_id) D, r.1)
    | Except.error _ => (D, r.1)
  | none => (D, sst)

/-- `ReviewSession.grade_current` (review_session.py): append the review
event, run `on_review` and upsert its recommendations (exceptions caught),
exclude the card and its mutually-exclusive siblings, push the undo entry,
bump the reviewed counter, clear the current card. Returns `none` when there
is no current card (the `ValueError` path, surfaced as HTTP 400 with the
session untouched). -/
def grade_current {σ : Type} (sched : Option (Scheduler σ)) (now : String) (t : Nat)
    (grade : Nat) (feedback : Option String) (response : Option String)
    (D : Catalog) (s : SessionRS) (sst : σ) : Option (Catalog × SessionRS × σ) :=
  match s.current_card with
  | none => none
  | some card =>
    let time_on_front_ms : Option Int :=
      match s.flip_time, s.serve_time with
      | some ft, some sv => some ((Int.ofNat ft - Int.ofNat sv) * 1000)
      | _, _ => none
    let time_on_card_ms : Option Int :=
      match s.serve_time with
      | some sv => some ((Int.ofNat t - Int.ofNat sv) * 1000)
      | none => none
    let card_id := card.id
    let ev : ReviewRow :=
      ⟨card_id, s.session_id, now, grade, time_on_front_ms, time_on_card_ms,
       feedback, response⟩
    let D : Catalog := { D with review_log := D.review_log ++ [ev] }
    let q : Catalog × σ := applyOnReview sched sst card_id
      ⟨card_id, now, grade, time_on_front_ms.getD 0, time_on_card_ms.getD 0,
       feedback, response⟩ D
    let D := q.1
    let s := addReviewedId s card_id
    let p := exclude_mutually_exclusive D s card_id
    let s := p.1
    let excluded := p.2
    let s : SessionRS :=
      { s with undo_stack := s.undo_stack ++ [(card, excluded)],
               reviewed := s.reviewed + 1,
               current_card := none }
    some (D, s, q.2)

/-- The `/api/review/skip` endpoint of `server.py`: exclude the current card
and its siblings, push the undo entry, bump the counter, clear the current
card; a no-op when there is no current card. -/
def skip_op (D : Catalog) (s : SessionRS) : SessionRS :=
  match s.current_card with
  | none => s
  | some card =>
    let s := addReviewedId s card.id
    let p := exclude_mutually_exclusive D s card.id
    let s := p.1
    { s with undo_stack := s.undo_stack ++ [(card, p.2)],
             reviewed := s.reviewed + 1,
             current_card := none }

/-- The `/api/review/suspend` endpoint of `server.py`: flip the card's state
to inactive, delete its recommendations, fire the status-change hook
(exceptions swallowed), then exclude the card and its siblings and push the
undo entry (the endpoint does not bump the reviewed counter). -/
def suspend_op {σ : Type} (sched : Option (Scheduler σ)) (now : String)
    (D : Catalog) (s : SessionRS) (sst : σ) : Catalog × SessionRS × σ :=
  match s.current_card with
  | none => (D, s, sst)
  | some card =>
    let card_id := card.id
    let newState := D.card_state.map (fun st =>
      if st.card_id = card_id then { st with status := Status.inactive, updated_at := now }
      else st)
    let D : Catalog := { D with card_state := newState }
    let newRecs := D.recommendations.filter (fun r => !(r.card_id == card_id))
    let D : Catalog := { D with recommendations := newRecs }
    let sst :=
      match sched with
      | some S => (S.on_card_status_changed sst card_id "inactive").1
      | none => sst
    let s := addReviewedId s card_id
    let p := exclude_mutually_exclusive D s card_id
    let s := p.1
    let s : SessionRS :=
      { s with undo_stack := s.undo_stack ++ [(card, p.2)], current_card := none }
    (D, s, sst)

/-- The `/api/review/undo` endpoint of `server.py`: pop the undo stack, remove
the popped card and the sibling exclusions it contributed from
`reviewed_ids`, decrement the reviewed counter, restore the popped card as
current with serve and flip times set; a 400 (no state change) on an empty
stack. -/
def undo_op (t : Nat) (s : SessionRS) : SessionRS :=
  match s.undo_stack.getLast? with
  | none => s
  | some entry =>
    let card := entry.1
    let excl := entry.2
    let rids := (s.reviewed_ids.filter (fun i => !(i == card.id))).filter
      (fun i => !(excl.contains i))
    { s with undo_stack := s.undo_stack.dropLast,
             reviewed_ids := rids,
             reviewed := s.reviewed - 1,
             current_card := some card,
             serve_time := some t,
             flip_time := some t }

/-! ### Session traces

A trace semantics over the session-mutating operations reachable through the
`server.py` endpoints, used for the temporal claims. Each operation carries
the clock values it reads. -/

/-- The combined catalog-plus-session state a trace acts on. -/
structure SysSt (σ : Type) where
  db : Catalog
  sess : SessionRS
  sched_st : σ
deriving Repr

/-- One session operation, with its injected clock readings. -/
inductive SOp where
  | getNext (now : String) (t : Nat)
  | grade (g : Nat) (fb : Option String) (resp : Option String) (now : String) (t : Nat)
  | skip
  | suspend (now : String)
  | undo (t : Nat)
deriving Repr, DecidableEq

/-- The effect of one endpoint call on the system state. A grade with no
current card is the `ValueError` / HTTP-400 path and leaves the state
untouched. -/
def stepOp {σ : Type} (sched : Option (Scheduler σ)) (st : SysSt σ) (op : SOp) :
    SysSt σ :=
  match op with
  | SOp.getNext now t => { st with sess := (get_next_card now t st.db st.sess).1 }
  | SOp.grade g fb resp now t =>
    match grade_current sched now t g fb resp st.db st.sess st.sched_st with
    | none => st
    | some r => { db := r.1, sess := r.2.1, sched_st := r.2.2 }
  | SOp.skip => { st with sess := skip_op st.db st.sess }
  | SOp.suspend now =>
    let r := suspend_op sched now st.db st.sess st.sched_st
    { db := r.1, sess := r.2.1, sched_st := r.2.2 }
  | SOp.undo t => { st with sess := undo_op t st.sess }

/-- Run a list of operations left to right. -/
def runOps {σ : Type} (sched : Option (Scheduler σ)) (st : SysSt σ)
    (ops : List SOp) : SysSt σ :=
  ops.foldl (stepOp sched) st

/-! ### The legacy review session (`src/sr/server_review.py`)

The variant served by `sr review`: no undo stack and no sibling exclusion;
undo restores the single `previous_card`. Only the state-mutating parts of
`grade_current` and the `/api/undo` handler are modelled (rendering is
side-effect-free on this state). -/

structure SessionSRV where
  session_id : String
  current_card : Option CardRow
  previous_card : Option CardRow
  flip_time : Option Nat
  serve_time : Option Nat
  reviewed : Int
  reviewed_ids : List Nat
deriving Repr, DecidableEq

/-- `ReviewSession.grade_current` of `server_review.py`: append the review
event, run `on_review` and upsert its recommendations (exceptions caught),
save the card as `previous_card`, add it to `reviewed_ids`, bump `reviewed`,
clear the current card. `none` models the `ValueError` on no current card. -/
def grade_srv {σ : Type} (sched : Option (Scheduler σ)) (now : String) (t : Nat)
    (grade : Nat) (feedback : Option String) (response : Option String)
    (D : Catalog) (s : SessionSRV) (sst : σ) : Option (Catalog × SessionSRV × σ) :=
  match s.current_card with
  | none => none
  | some card =>
    let time_on_front_ms : Option Int :=
      match s.flip_time, s.serve_time with
      | some ft, some sv => some ((Int.ofNat ft - Int.ofNat sv) * 1000)
      | _, _ => none
    let time_on_card_ms : Option Int :=
      match s.serve_time with
      | some sv => some ((Int.ofNat t - Int.ofNat sv) * 1000)
      | none => none
    let card_id := card.id
    let ev : ReviewRow :=
      ⟨card_id, s.session_id, now, grade, time_on_front_ms, time_on_card_ms,
       feedback, response⟩
    let D : Catalog := { D with review_log := D.review_log ++ [ev] }
    let q : Catalog × σ := applyOnReview sched sst card_id
      ⟨card_id, now, grade, time_on_front_ms.getD 0, time_on_card_ms.getD 0,
       feedback, response⟩ D
    let s : SessionSRV :=
      { s with previous_card := some card,
               reviewed_ids :=
                 if s.reviewed_ids.contains card_id then s.reviewed_ids
                 else s.reviewed_ids ++ [card_id],
               reviewed := s.reviewed + 1,
               current_card := none }
    some (q.1, s, q.2)

/-- The `/api/undo` handler of `server_review.py`: restore `previous_card` as
current with serve and flip times set, discard its id from `reviewed_ids`,
clear `previous_card`. The handler does not touch the `reviewed` counter.
`none` models the HTTP 400 on no previous card. -/
def undo_srv (t : Nat) (s : SessionSRV) : Option SessionSRV :=
  match s.previous_card with
  | none => none
  | some prev =>
    some { s with reviewed_ids := s.reviewed_ids.filter (fun i => !(i == prev.id)),
                  current_card := some prev,
                  serve_time := some t,
                  flip_time := some t,
                  previous_card := none }

/-! ### The SM-2 scheduler (`src/example_sr_dir/schedulers/sm2/sm2.py`)

Python floats are modelled as exact rationals (the constants involved are
short decimals). The `sm2_state` table is an association list keyed by card
id. The wall clock and the ISO formatting of `now + timedelta(days=interval)`
are abstracted into an injected `fmtTime : ℚ → String`. -/

structure Sm2Row where
  ease_factor : ℚ
  interval_days : ℚ
  repetitions : Nat
  last_review : Option String
  next_review : Option String
deriving Repr, DecidableEq

abbrev Sm2Db := List (Nat × Sm2Row)

/-- `Scheduler.on_review` of the SM-2 scheduler: the SuperMemo-2 recurrence,
the `INSERT OR REPLACE` of the per-card row, and the returned recommendation
with `precision = max(int(interval * 86400 * 0.1), 60)` (Python `int()`
truncates; the value is non-negative, so truncation is the floor). -/
def sm2_on_review (fmtTime : ℚ → String) (db : Sm2Db) (card_id : Nat)
    (event : ReviewEvent) : Sm2Db × List Recommendation :=
  let prior := alLookup card_id db
  let ef0 : ℚ := match prior with | some r => r.ease_factor | none => 5/2
  let interval0 : ℚ := match prior with | some r => r.interval_days | none => 0
  let reps0 : Nat := match prior with | some r => r.repetitions | none => 0
  let next : ℚ × ℚ × Nat :=
    if event.grade = 1 then
      let reps := reps0 + 1
      let interval : ℚ :=
        if reps = 1 then 1 else if reps = 2 then 6 else interval0 * ef0
      let ef : ℚ :=
        if event.feedback = some "too_easy" then min (ef0 + 3/20) 3
        else if event.feedback = some "too_hard" then max (ef0 - 3/20) (13/10)
        else ef0
      (ef, interval, reps)
    else
      (max (ef0 - 1/5) (13/10), 1/100, 0)
  let ef := next.1
  let interval := next.2.1
  let reps := next.2.2
  let next_review_str := fmtTime interval
  let db := alInsert card_id
    ⟨ef, interval, reps, some event.timestamp, some next_review_str⟩ db
  let precision : Int := max ⌊interval * 86400 * (1/10 : ℚ)⌋ 60
  (db, [⟨card_id, next_review_str, precision⟩])

/-! ### Basic lemmas on the dict model -/

@[simp] theorem alKeys_nil {K V : Type} : alKeys ([] : List (K × V)) = [] := rfl

@[simp] theorem alKeys_cons {K V : Type} (p : K × V) (m : List (K × V)) :
    alKeys (p :: m) = p.1 :: alKeys m := rfl

theorem alLookup_alInsert_self {K V : Type} [DecidableEq K] (k : K) (v : V)
    (m : List (K × V)) : alLookup k (alInsert k v m) = some v := by
  induction m with
  | nil => simp [alInsert, alLookup]
  | cons hd tl ih =>
    by_cases h : hd.1 = k
    · simp [alInsert, alLookup, h]
    · simpa [alInsert, alLookup, h] using ih

theorem alLookup_alInsert_ne {K V : Type} [DecidableEq K] {k k' : K} (v : V)
    (m : List (K × V)) (h : k' ≠ k) :
    alLookup k' (alInsert k v m) = alLookup k' m := by
  have hkk : ¬ (k = k') := fun hh => h hh.symm
  induction m with
  | nil => simp [alInsert, alLookup, hkk]
  | cons hd tl ih =>
    by_cases hh : hd.1 = k
    · have hne : ¬ (hd.1 = k') := by rw [hh]; exact hkk
      simp [alInsert, hh, alLookup, hkk, hne, h]
    · by_cases hk2 : hd.1 = k'
      · simp [alInsert, hh, alLookup, hk2, h, hkk]
      · simp [alInsert, hh, alLookup, hk2, ih, h, hkk]

theorem alLookup_alErase_self {K V : Type} [DecidableEq K] (k : K)
    (m : List (K × V)) : alLookup k (alErase k m) = none := by
  induction m with
  | nil => simp [alErase, alLookup]
  | cons hd tl ih =>
    by_cases h : hd.1 = k
    · simpa [alErase, h] using ih
    · simpa [alErase, alLookup, h] using ih

theorem alLookup_alErase_ne {K V : Type} [DecidableEq K] {k k' : K}
    (m : List (K × V)) (h : k' ≠ k) :
    alLookup k' (alErase k m) = alLookup k' m := by
  have hkk : ¬ (k = k') := fun hh => h hh.symm
  induction m with
  | nil => simp [alErase]
  | cons hd tl ih =>
    by_cases hh : hd.1 = k
    · have hne : ¬ (hd.1 = k') := by rw [hh]; exact hkk
      simp [alErase, hh, alLookup, hne, ih, h, hkk]
    · by_cases hk2 : hd.1 = k'
      · simp [alErase, hh, alLookup, hk2, h, hkk]
      · simp [alErase, hh, alLookup, hk2, ih, h, hkk]

theorem mem_alErase {K V : Type} [DecidableEq K] {k : K} {p : K × V}
    {m : List (K × V)} (hp : p ∈ alErase k m) : p ∈ m := by
  induction m with
  | nil => simp [alErase] at hp
  | cons hd tl ih =>
    by_cases h : hd.1 = k
    · simp only [alErase, h, if_pos rfl] at hp
      exact List.mem_cons_of_mem _ (ih hp)
    · simp only [alErase, if_neg h, List.mem_cons] at hp
      rcases hp with hp | hp
      · exact hp ▸ List.mem_cons_self _ _
      · exact List.mem_cons_of_mem _ (ih hp)

theorem mem_alErase_key_ne {K V : Type} [DecidableEq K] {k : K} {p : K × V}
    {m : List (K × V)} (hp : p ∈ alErase k m) : p.1 ≠ k := by
  induction m with
  | nil => simp [alErase] at hp
  | cons hd tl ih =>
    by_cases h : hd.1 = k
    · simp only [alErase, h, if_pos rfl] at hp
      exact ih hp
    · simp only [alErase, if_neg h, List.mem_cons] at hp
      rcases hp with hp | hp
      · exact hp ▸ h
      · exact ih hp

theorem mem_of_mem_alErase_ne {K V : Type} [DecidableEq K] {k : K} {p : K × V}
    {m : List (K × V)} (hp : p ∈ m) (hne : p.1 ≠ k) : p ∈ alErase k m := by
  induction m with
  | nil => simp at hp
  | cons hd tl ih =>
    rcases List.mem_cons.mp hp with hp | hp
    · subst hp
      simp [alErase, if_neg hne]
    · by_cases h : hd.1 = k
      · simpa [alErase, h] using ih hp
      · simp only [alErase, if_neg h, List.mem_cons]
        exact Or.inr (ih hp)

theorem alLookup_isSome_iff_mem_keys {K V : Type} [DecidableEq K] (k : K)
    (m : List (K × V)) : (alLookup k m).isSome = true ↔ k ∈ alKeys m := by
  induction m with
  | nil => simp [alLookup]
  | cons hd tl ih =>
    by_cases h : hd.1 = k
    · simp [alLookup, h]
    · simp only [alLookup, if_neg h, alKeys_cons, List.mem_cons]
      rw [ih]
      have : ¬ (k = hd.1) := fun hh => h hh.symm
      simp [this]

theorem alLookup_eq_some_of_mem_nodup {K V : Type} [DecidableEq K] {p : K × V}
    {m : List (K × V)} (hp : p ∈ m) (hn : (alKeys m).Nodup) :
    alLookup p.1 m = some p.2 := by
  induction m with
  | nil => simp at hp
  | cons hd tl ih =>
    simp only [alKeys_cons, List.nodup_cons] at hn
    rcases List.mem_cons.mp hp with hp | hp
    · subst hp
      simp [alLookup]
    · have hne : hd.1 ≠ p.1 := by
        intro h
        exact hn.1 (h ▸ List.mem_map_of_mem Prod.fst hp)
      simpa [alLookup, hne] using ih hp hn.2

theorem mem_of_alLookup_eq_some {K V : Type} [DecidableEq K] {k : K} {v : V}
    {m : List (K × V)} (h : alLookup k m = some v) : (k, v) ∈ m := by
  induction m with
  | nil => simp [alLookup] at h
  | cons hd tl ih =>
    by_cases hh : hd.1 = k
    · simp only [alLookup, if_pos hh] at h
      cases h
      obtain ⟨k0, v0⟩ := hd
      simp only at hh
      subst hh
      exact List.mem_cons_self _ _
    · simp only [alLookup, if_neg hh] at h
      exact List.mem_cons_of_mem _ (ih h)

theorem mem_alKeys_alInsert {K V : Type} [DecidableEq K] {x k : K} {v : V}
    {m : List (K × V)} (hx : x ∈ alKeys (alInsert k v m)) :
    x = k ∨ x ∈ alKeys m := by
  induction m with
  | nil => simpa [alInsert] using hx
  | cons hd tl ih =>
    by_cases h : hd.1 = k
    · simp only [alInsert, if_pos h, alKeys_cons, List.mem_cons] at hx
      rcases hx with hx | hx
      · exact Or.inl hx
      · exact Or.inr (by simp only [alKeys_cons, List.mem_cons]; exact Or.inr hx)
    · simp only [alInsert, if_neg h, alKeys_cons, List.mem_cons] at hx
      rcases hx with hx | hx
      · exact Or.inr (by simp only [alKeys_cons, List.mem_cons]; exact Or.inl hx)
      · rcases ih hx with h1 | h1
        · exact Or.inl h1
        · exact Or.inr (by simp only [alKeys_cons, List.mem_cons]; exact Or.inr h1)

theorem alKeys_alErase_nodup {K V : Type} [DecidableEq K] (k : K)
    {m : List (K × V)} (hn : (alKeys m).Nodup) : (alKeys (alErase k m)).Nodup := by
  induction m with
  | nil => simp [alErase]
  | cons hd tl ih =>
    simp only [alKeys_cons, List.nodup_cons] at hn
    by_cases h : hd.1 = k
    · simpa [alErase, h] using ih hn.2
    · simp only [alErase, if_neg h, alKeys_cons, List.nodup_cons]
      refine ⟨fun hmem => ?_, ih hn.2⟩
      rcases List.mem_map.mp hmem with ⟨p, hp, hpk⟩
      exact hn.1 (hpk ▸ List.mem_map_of_mem Prod.fst (mem_alErase hp))

theorem alKeys_alInsert_nodup {K V : Type} [DecidableEq K] (k : K) (v : V)
    {m : List (K × V)} (hn : (alKeys m).Nodup) : (alKeys (alInsert k v m)).Nodup := by
  induction m with
  | nil => simp [alInsert]
  | cons hd tl ih =>
    simp only [alKeys_cons, List.nodup_cons] at hn
    by_cases h : hd.1 = k
    · subst h
      simpa [alInsert, List.nodup_cons] using hn
    · simp only [alInsert, if_neg h, alKeys_cons, List.nodup_cons]
      refine ⟨fun hmem => ?_, ih hn.2⟩
      rcases mem_alKeys_alInsert hmem with h1 | h1
      · exact h h1
      · exact hn.1 h1


theorem alErase_eq_filter {K V : Type} [DecidableEq K] (k : K) (m : List (K × V)) :
    alErase k m = m.filter (fun kv => !(kv.1 == k)) := by
  induction m with
  | nil => rfl
  | cons hd tl ih =>
    by_cases h : hd.1 = k
    · simp [alErase, h, ih]
    · simp [alErase, h, ih]

theorem alLookup_eq_none_iff {K V : Type} [DecidableEq K] (k : K) (m : List (K × V)) :
    alLookup k m = none ↔ k ∉ m.map Prod.fst := by
  induction m with
  | nil => simp [alLookup]
  | cons hd tl ih =>
    rw [List.map_cons, List.mem_cons]
    by_cases h : hd.1 = k
    · simp only [alLookup, if_pos h]
      constructor
      · intro hc; exact Option.noConfusion hc
      · intro hc; exact absurd h.symm (fun hh => hc (Or.inl hh))
    · simp only [alLookup, if_neg h]
      rw [ih]
      constructor
      · intro hc hor
        rcases hor with hor | hor
        · exact h hor.symm
        · exact hc hor
      · intro hc hm
        exact hc (Or.inr hm)

theorem mem_alInsert {K V : Type} [DecidableEq K] {k : K} {v : V} {p : K × V}
    {m : List (K × V)} (hp : p ∈ alInsert k v m) : p = (k, v) ∨ p ∈ m := by
  induction m with
  | nil => simpa [alInsert] using hp
  | cons hd tl ih =>
    by_cases h : hd.1 = k
    · simp only [alInsert, if_pos h, List.mem_cons] at hp
      rcases hp with hp | hp
      · exact Or.inl hp
      · exact Or.inr (List.mem_cons_of_mem _ hp)
    · simp only [alInsert, if_neg h, List.mem_cons] at hp
      rcases hp with hp | hp
      · exact Or.inr (hp ▸ List.mem_cons_self _ _)
      · rcases ih hp with hh | hh
        · exact Or.inl hh
        · exact Or.inr (List.mem_cons_of_mem _ hh)

theorem alInsert_of_not_mem {K V : Type} [DecidableEq K] (k : K) (v : V)
    (m : List (K × V)) (h : k ∉ m.map Prod.fst) : alInsert k v m = m ++ [(k, v)] := by
  induction m with
  | nil => rfl
  | cons hd tl ih =>
    simp only [List.map_cons, List.mem_cons] at h
    push_neg at h
    simp only [alInsert]
    rw [if_neg (fun hh => h.1 hh.symm)]
    rw [ih h.2]
    rfl

theorem mapPair_lookup {V : Type} [DecidableEq V]
    {K : Type} [DecidableEq K] (keyOf : V → K) :
    ∀ (l : List V), ((l.map keyOf).Nodup) → ∀ (t : K),
      l.filter (fun r => keyOf r == t) =
        (alLookup t (l.map (fun r => (keyOf r, r)))).toList := by
  intro l
  induction l with
  | nil => intro _ t; rfl
  | cons r tl ih =>
    intro hnd t
    rw [List.map_cons, List.nodup_cons] at hnd
    by_cases h : keyOf r = t
    · rw [List.filter_cons_of_pos (by simpa using h)]
      simp only [List.map_cons, alLookup, if_pos h]
      have ht : tl.filter (fun x => keyOf x == t) = [] := by
        rw [List.filter_eq_nil_iff]
        intro a ha hc
        apply hnd.1
        rw [List.mem_map]
        exact ⟨a, ha, by rw [h]; simpa using hc⟩
      rw [ht]
      rfl
    · rw [List.filter_cons_of_neg (by simpa using h)]
      simp only [List.map_cons, alLookup, if_neg h]
      exact ih hnd.2 t

/-! ### Effect characterizations of the synchronizer steps -/

/-- The pure list transformation performed by `sync_tags` on `card_tags`. -/
def syncTagsList (ct0 : List (Nat × String)) (card_id : Nat) (tags : List String) :
    List (Nat × String) :=
  let existing := (ct0.filter (fun p => p.1 == card_id)).map Prod.snd
  let ct1 := tags.foldl (fun acc t =>
      if existing.contains t || acc.contains (card_id, t) then acc
      else acc ++ [(card_id, t)]) ct0
  ct1.filter (fun p => !(p.1 == card_id && existing.contains p.2 && !tags.contains p.2))

theorem sync_tags_eq (D : Catalog) (card_id : Nat) (tags : List String) :
    sync_tags D card_id tags = { D with card_tags := syncTagsList D.card_tags card_id tags } := by
  unfold sync_tags syncTagsList
  simp only
  have key : ∀ (tg : List String) (acc : List (Nat × String)),
      tg.foldl (fun acc2 t =>
        if ((D.card_tags.filter (fun p => p.1 == card_id)).map Prod.snd).contains t
            || acc2.card_tags.contains (card_id, t) then acc2
        else { acc2 with card_tags := acc2.card_tags ++ [(card_id, t)] })
        { D with card_tags := acc } =
      { D with card_tags :=
          tg.foldl (fun acc2 t =>
            if ((D.card_tags.filter (fun p => p.1 == card_id)).map Prod.snd).contains t
                || acc2.contains (card_id, t) then acc2
            else acc2 ++ [(card_id, t)]) acc } := by
    intro tg
    induction tg with
    | nil => intro acc; rfl
    | cons hd tl ih =>
      intro acc
      simp only [List.foldl_cons]
      by_cases h : ((D.card_tags.filter (fun p => p.1 == card_id)).map Prod.snd).contains hd
          || acc.contains (card_id, hd)
      · rw [if_pos h, if_pos h]
        exact ih acc
      · rw [if_neg h, if_neg h]
        exact ih (acc ++ [(card_id, hd)])
  have base : { D with card_tags := D.card_tags } = D := rfl
  rw [← base]
  rw [key tags D.card_tags]

/-- The pure list transformation performed by `upsert_recommendation`. -/
def upsertRecList (recs : List RecRow) (rec : Recommendation) (sched_id : String) :
    List RecRow :=
  recs.filter (fun r => !(r.card_id == rec.card_id && r.scheduler_id == sched_id)) ++
    [⟨rec.card_id, sched_id, rec.time, rec.precision_seconds⟩]

theorem upsert_recommendation_eq (D : Catalog) (rec : Recommendation) (sid : String) :
    upsert_recommendation D rec sid =
      { D with recommendations := upsertRecList D.recommendations rec sid } := rfl

/-- The card row inserted by `_insert_card` for a scanned card. -/
def newCardRow (now : String) (next_id : Nat) (t : Triple) (card : Card)
    (chash : String) : CardRow :=
  { id := next_id, source_path := t.1, card_key := t.2.1, adapter := t.2.2,
    content := card.content, content_hash := chash,
    display_text := card.display_text, gradable := card.gradable,
    source_line := card.source_line, created_at := now }

/-- Effect of the `unchanged` branch: only `display_text` / `source_line` of
the matched row, the card's tag set, the unchanged counter and the map entry
change. -/
theorem processUnchanged_spec {σ : Type} (st : SyncSt σ) (t : Triple) (card : Card)
    (row : ExistRow) :
    processUnchanged st t card row =
      { db := { st.db with
          cards := st.db.cards.map (fun c =>
            if c.id = row.id then
              { c with display_text := card.display_text, source_line := card.source_line }
            else c),
          card_tags := syncTagsList st.db.card_tags row.id card.tags },
        stats := { st.stats with unchanged := st.stats.unchanged + 1 },
        emap := alErase t st.emap,
        sched_st := st.sched_st } := by
  unfold processUnchanged
  simp only [sync_tags_eq]

/-- The status the `replace` branch gives the successor card. -/
def replStatus (s : Status) : Status :=
  if s = Status.inactive then s else Status.active

/-- Effect of the `replace` branch on every component other than the
recommendations table and the scheduler state (which depend on the
replacement hook). -/
theorem processReplace_spec {σ : Type} (now : String) (sched : Option (Scheduler σ))
    (st : SyncSt σ) (t : Triple) (card : Card) (chash : String) (row : ExistRow) :
    (processReplace now sched st t card chash row).db.cards =
      (st.db.cards.map (fun c =>
        if c.id = row.id then
          { c with card_key := c.card_key ++ "__replaced_" ++ toString c.id }
        else c)) ++ [newCardRow now st.db.next_id t card chash] ∧
    (processReplace now sched st t card chash row).db.card_state =
      (st.db.card_state.map (fun s =>
        if s.card_id = row.id then
          { s with status := Status.deleted, updated_at := now }
        else s)) ++ [⟨st.db.next_id, replStatus row.status, now⟩] ∧
    (processReplace now sched st t card chash row).db.card_tags =
      syncTagsList st.db.card_tags st.db.next_id card.tags ∧
    (processReplace now sched st t card chash row).db.card_relations =
      st.db.card_relations ++ [⟨row.id, st.db.next_id, "is_replaced_by"⟩] ∧
    (processReplace now sched st t card chash row).db.review_log = st.db.review_log ∧
    (processReplace now sched st t card chash row).db.card_flags = st.db.card_flags ∧
    (processReplace now sched st t card chash row).db.next_id = st.db.next_id + 1 ∧
    (processReplace now sched st t card chash row).stats =
      { st.stats with updated := st.stats.updated + 1 } ∧
    (processReplace now sched st t card chash row).emap = alErase t st.emap := by
  obtain ⟨sp, k, ad⟩ := t
  unfold processReplace insert_card
  simp only [sync_tags_eq, newCardRow, replStatus]
  refine ⟨?_, ?_, ?_, ?_, ?_, ?_, ?_, ?_, ?_⟩ <;>
    first
    | trivial
    | (cases sched with
       | none => rfl
       | some S =>
         simp only []
         by_cases hst : row.status = Status.inactive
         · simp only [if_pos hst, hst]
           rfl
         · simp only [if_neg hst]
           cases hres : (S.on_card_replaced st.sched_st row.id st.db.next_id).2 with
           | ok orec => cases orec <;> rfl
           | error e => rfl)

/-- Effect of the `insert` branch on every component other than the
recommendations table and the scheduler state. -/
theorem processInsert_spec {σ : Type} (now : String) (sched : Option (Scheduler σ))
    (srcSusp : List (String × Bool)) (st : SyncSt σ) (t : Triple) (card : Card)
    (chash : String) :
    (processInsert now sched srcSusp st t card chash).db.cards =
      st.db.cards ++ [newCardRow now st.db.next_id t card chash] ∧
    (processInsert now sched srcSusp st t card chash).db.card_state =
      st.db.card_state ++
        [⟨st.db.next_id,
          if alLookup t.1 srcSusp = some true then Status.inactive else Status.active,
          now⟩] ∧
    (processInsert now sched srcSusp st t card chash).db.card_tags =
      syncTagsList st.db.card_tags st.db.next_id card.tags ∧
    (processInsert now sched srcSusp st t card chash).db.card_relations =
      st.db.card_relations ∧
    (processInsert now sched srcSusp st t card chash).db.review_log = st.db.review_log ∧
    (processInsert now sched srcSusp st t card chash).db.card_flags = st.db.card_flags ∧
    (processInsert now sched srcSusp st t card chash).db.next_id = st.db.next_id + 1 ∧
    (processInsert now sched srcSusp st t card chash).stats =
      { st.stats with new := st.stats.new + 1 } ∧
    (processInsert now sched srcSusp st t card chash).emap = st.emap := by
  obtain ⟨sp, k, ad⟩ := t
  unfold processInsert insert_card
  simp only [sync_tags_eq, newCardRow]
  refine ⟨?_, ?_, ?_, ?_, ?_, ?_, ?_, ?_, ?_⟩ <;>
    first
    | trivial
    | (cases sched with
       | none => rfl
       | some S =>
         simp only []
         by_cases hsusp : alLookup sp srcSusp = some true
         · simp only [if_pos hsusp]
           rfl
         · simp only [if_neg hsusp]
           cases hres : (S.on_card_created st.sched_st st.db.next_id).2 with
           | ok orec => cases orec <;> rfl
           | error e => rfl)

/-- Effect of the deletion sweep on one leftover map entry, on every component
other than the scheduler state. -/
theorem sweepCard_spec {σ : Type} (now : String) (sched : Option (Scheduler σ))
    (st : SyncSt σ) (kv : Triple × ExistRow) :
    (sweepCard now sched st kv).db =
      { st.db with
        card_state := st.db.card_state.map (fun s =>
          if s.card_id = kv.2.id then
            { s with status := Status.deleted, updated_at := now }
          else s),
        recommendations := st.db.recommendations.filter
          (fun r => !(r.card_id == kv.2.id)) } ∧
    (sweepCard now sched st kv).stats =
      { st.stats with deleted := st.stats.deleted + 1 } ∧
    (sweepCard now sched st kv).emap = st.emap := by
  unfold sweepCard
  cases sched with
  | none => exact ⟨rfl, rfl, rfl⟩
  | some S => exact ⟨rfl, rfl, rfl⟩

/-! ### Status lookups over explicit state lists -/

/-- `statusOf` as a function of the `card_state` list alone. -/
def statusOfList (l : List StateRow) (i : Nat) : Option Status :=
  (l.find? (fun s => s.card_id == i)).map StateRow.status

theorem statusOf_eq_list (D : Catalog) (i : Nat) :
    statusOf D i = statusOfList D.card_state i := rfl

/-- Updating the status of card `j` does not change lookups of other cards. -/
theorem statusOfList_set_ne (l : List StateRow) (j : Nat) (nst : Status)
    (now : String) {i : Nat} (h : i ≠ j) :
    statusOfList (l.map (fun s =>
      if s.card_id = j then { s with status := nst, updated_at := now } else s)) i =
    statusOfList l i := by
  unfold statusOfList
  rw [List.find?_map]
  have hpf : ((fun s : StateRow => s.card_id == i) ∘ (fun s : StateRow =>
      if s.card_id = j then { s with status := nst, updated_at := now } else s)) =
      (fun s : StateRow => s.card_id == i) := by
    funext s
    by_cases hs : s.card_id = j <;> simp [hs]
  rw [hpf]
  cases hf : l.find? (fun s => s.card_id == i) with
  | none => rfl
  | some s0 =>
    have hs0 : s0.card_id = i := by simpa using List.find?_some hf
    have : ¬ (s0.card_id = j) := by rw [hs0]; exact h
    simp [this]

/-- Updating the status of card `j` rewrites its lookup (when a row exists). -/
theorem statusOfList_set_self (l : List StateRow) (j : Nat) (nst : Status)
    (now : String) :
    statusOfList (l.map (fun s =>
      if s.card_id = j then { s with status := nst, updated_at := now } else s)) j =
    (statusOfList l j).map (fun _ => nst) := by
  unfold statusOfList
  rw [List.find?_map]
  have hpf : ((fun s : StateRow => s.card_id == j) ∘ (fun s : StateRow =>
      if s.card_id = j then { s with status := nst, updated_at := now } else s)) =
      (fun s : StateRow => s.card_id == j) := by
    funext s
    by_cases hs : s.card_id = j <;> simp [hs]
  rw [hpf]
  cases hf : l.find? (fun s => s.card_id == j) with
  | none => rfl
  | some s0 =>
    have hs0 : s0.card_id = j := by simpa using List.find?_some hf
    simp [hs0]

/-- Appending state rows does not change a lookup that already resolves. -/
theorem statusOfList_append_of_isSome {l : List StateRow} (r : List StateRow)
    {i : Nat} (h : (statusOfList l i).isSome) :
    statusOfList (l ++ r) i = statusOfList l i := by
  unfold statusOfList at *
  rw [List.find?_append]
  cases hf : l.find? (fun s => s.card_id == i) with
  | none => rw [hf] at h; simp at h
  | some s0 => simp

/-- A lookup that does not resolve falls through to the appended rows. -/
theorem statusOfList_append_of_none {l : List StateRow} (r : List StateRow)
    {i : Nat} (h : statusOfList l i = none) :
    statusOfList (l ++ r) i = statusOfList r i := by
  unfold statusOfList at *
  rw [List.find?_append]
  cases hf : l.find? (fun s => s.card_id == i) with
  | none => simp
  | some s0 => rw [hf] at h; simp at h

/-! ### Membership in the synced tag set -/

theorem tagsFold_subset {i : Nat} {ex : List String} {tags : List String}
    {acc : List (Nat × String)} {x : Nat × String} (hx : x ∈ acc) :
    x ∈ tags.foldl (fun acc2 t =>
      if ex.contains t || acc2.contains (i, t) then acc2 else acc2 ++ [(i, t)]) acc := by
  induction tags generalizing acc with
  | nil => exact hx
  | cons hd tl ih =>
    simp only [List.foldl_cons]
    by_cases h : ex.contains hd || acc.contains (i, hd)
    · rw [if_pos h]; exact ih hx
    · rw [if_neg h]; exact ih (List.mem_append_left _ hx)

theorem mem_tagsFold {i : Nat} {ex : List String} {tags : List String}
    {acc : List (Nat × String)} {x : Nat × String}
    (hx : x ∈ tags.foldl (fun acc2 t =>
      if ex.contains t || acc2.contains (i, t) then acc2 else acc2 ++ [(i, t)]) acc) :
    x ∈ acc ∨ (x.1 = i ∧ x.2 ∈ tags) := by
  induction tags generalizing acc with
  | nil => exact Or.inl hx
  | cons hd tl ih =>
    simp only [List.foldl_cons] at hx
    by_cases h : ex.contains hd || acc.contains (i, hd)
    · rw [if_pos h] at hx
      rcases ih hx with h1 | h1
      · exact Or.inl h1
      · exact Or.inr ⟨h1.1, List.mem_cons_of_mem _ h1.2⟩
    · rw [if_neg h] at hx
      rcases ih hx with h1 | h1
      · rcases List.mem_append.mp h1 with h2 | h2
        · exact Or.inl h2
        · rcases List.mem_singleton.mp h2 with rfl
          exact Or.inr ⟨rfl, List.mem_cons_self _ _⟩
      · exact Or.inr ⟨h1.1, List.mem_cons_of_mem _ h1.2⟩

theorem tagsFold_adds {i : Nat} {ex : List String} {tags : List String}
    {acc : List (Nat × String)} {tg : String} (htg : tg ∈ tags)
    (hex : ex.contains tg = true → (i, tg) ∈ acc) :
    (i, tg) ∈ tags.foldl (fun acc2 t =>
      if ex.contains t || acc2.contains (i, t) then acc2 else acc2 ++ [(i, t)]) acc := by
  induction tags generalizing acc with
  | nil => simp at htg
  | cons hd tl ih =>
    simp only [List.foldl_cons]
    rcases List.mem_cons.mp htg with rfl | htl
    · by_cases h : ex.contains tg || acc.contains (i, tg)
      · rw [if_pos h]
        rcases Bool.or_eq_true_iff.mp h with h1 | h1
        · exact tagsFold_subset (hex h1)
        · exact tagsFold_subset (by simpa using h1)
      · rw [if_neg h]
        exact tagsFold_subset (List.mem_append_right _ (List.mem_singleton.mpr rfl))
    · by_cases h : ex.contains hd || acc.contains (i, hd)
      · rw [if_pos h]
        exact ih htl hex
      · rw [if_neg h]
        exact ih htl (fun h1 => List.mem_append_left _ (hex h1))

/-- Membership of the card's own rows in the synced tag set: after
`_sync_tags`, the card's tags are exactly the scanned tag list. -/
theorem mem_syncTagsList_self (ct0 : List (Nat × String)) (i : Nat)
    (tags : List String) (tg : String) :
    (i, tg) ∈ syncTagsList ct0 i tags ↔ tg ∈ tags := by
  unfold syncTagsList
  simp only [List.mem_filter]
  constructor
  · rintro ⟨hmem, hpred⟩
    simp at hpred
    rcases mem_tagsFold hmem with h1 | h1
    · rcases hpred with h2 | h2
      · exact absurd h1 h2
      · exact h2
    · exact h1.2
  · intro htg
    refine ⟨tagsFold_adds htg (fun h1 => ?_), by simp [htg]⟩
    simpa using h1

/-- Rows of other cards are untouched by `_sync_tags`. -/
theorem mem_syncTagsList_ne (ct0 : List (Nat × String)) (i : Nat)
    (tags : List String) {j : Nat} (tg : String) (h : j ≠ i) :
    (j, tg) ∈ syncTagsList ct0 i tags ↔ (j, tg) ∈ ct0 := by
  unfold syncTagsList
  simp only [List.mem_filter]
  constructor
  · rintro ⟨hmem, _⟩
    rcases mem_tagsFold hmem with h1 | h1
    · exact h1
    · exact absurd h1.1 h
  · intro hmem
    exact ⟨tagsFold_subset hmem, by simp [h]⟩

/-! ### Dispatch of the per-card decision -/

theorem processCard_unchanged_eq {σ : Type} (hashFn : String → String) (now : String)
    (sched : Option (Scheduler σ)) (susp : List (String × Bool)) (st : SyncSt σ)
    {t : Triple} (card : Card) {row : ExistRow}
    (hmap : alLookup t st.emap = some row)
    (heq : row.content_hash = hashFn card.content) :
    processCard hashFn now sched susp st (t, card) = processUnchanged st t card row := by
  unfold processCard
  simp only [hmap, heq, if_pos]

theorem processCard_replace_eq {σ : Type} (hashFn : String → String) (now : String)
    (sched : Option (Scheduler σ)) (susp : List (String × Bool)) (st : SyncSt σ)
    {t : Triple} (card : Card) {row : ExistRow}
    (hmap : alLookup t st.emap = some row)
    (hne : ¬ row.content_hash = hashFn card.content) :
    processCard hashFn now sched susp st (t, card) =
      processReplace now sched st t card (hashFn card.content) row := by
  unfold processCard
  simp only [hmap, hne, if_false]

theorem processCard_insert_eq {σ : Type} (hashFn : String → String) (now : String)
    (sched : Option (Scheduler σ)) (susp : List (String × Bool)) (st : SyncSt σ)
    {t : Triple} (card : Card)
    (hmap : alLookup t st.emap = none) :
    processCard hashFn now sched susp st (t, card) =
      processInsert now sched susp st t card (hashFn card.content) := by
  unfold processCard
  simp only [hmap]

/-- Upserting a list of recommendations only touches the recommendations
table. -/
theorem upsert_fold_eq (recs : List Recommendation) (sid : String) (D : Catalog) :
    recs.foldl (fun D2 r => upsert_recommendation D2 r sid) D =
      { D with recommendations :=
          recs.foldl (fun rs r => upsertRecList rs r sid) D.recommendations } := by
  induction recs generalizing D with
  | nil => rfl
  | cons hd tl ih =>
    simp only [List.foldl_cons]
    rw [ih]
    rfl

/-! ### Invariant N-1 -/

/-- Invariant N-1 of the spec: a card whose status is not `active` has no
recommendation rows. -/
def invariant_N1 (D : Catalog) : Prop :=
  ∀ c ∈ D.cards, statusOf D c.id ≠ some Status.active →
    ∀ r ∈ D.recommendations, r.card_id ≠ c.id

instance (D : Catalog) : Decidable (invariant_N1 D) := by
  unfold invariant_N1
  infer_instance

/-! ### Claim C3 -/

namespace C3ex

/-- A catalog with one active card that carries a recommendation. -/
def D0 : Catalog :=
  { cards := [{ id := 1, source_path := "/a.md", card_key := "q1", adapter := "qa",
                content := "v1", content_hash := "v1", display_text := "v1",
                gradable := true, source_line := 1, created_at := "2025-01-01 00:00:00" }],
    card_state := [⟨1, Status.active, "2025-01-01 00:00:00"⟩],
    card_tags := [], card_relations := [],
    recommendations := [⟨1, "sm2", "2025-01-02 00:00:00", 60⟩],
    review_log := [], card_flags := [], next_id := 2 }

/-- A scan of the same triple with changed content. -/
def R1 : List ScanResult :=
  [("/a.md", "qa",
    [{ key := "q1", content := "v2", display_text := "v2", gradable := true,
       source_line := 1, tags := [], relations := [] }], ⟨false⟩)]

/-- The sync of the changed scan (the content hash is modelled as the
identity on the already-canonical content strings). -/
def out : Catalog × Stats × Unit :=
  sync_cards id "2025-01-03 00:00:00" D0 R1 (none : Option (Scheduler Unit)) () []

end C3ex

/-- C3: invariant N-1 ("every card whose state status is not active has no
rows in the recommendations table") is broken by the sync replacement path.
Starting from a catalog satisfying N-1, with one active card carrying a
recommendation, a sync of the same triple with changed content takes the
replacement path (`updated = 1`), marks the old card deleted, but leaves the
old card's recommendation row in place — so N-1 fails afterwards. The
deletion sweep and the suspend operation do delete recommendation rows; the
replacement path of `sync_cards` (src/sr/sync.py lines 73–95) does not. -/
theorem c3_replacement_leaves_stale_recommendation :
    invariant_N1 C3ex.D0 ∧
    C3ex.out.2.1 = ⟨0, 1, 0, 0⟩ ∧
    statusOf C3ex.out.1 1 = some Status.deleted ∧
    (⟨1, "sm2", "2025-01-02 00:00:00", 60⟩ : RecRow) ∈ C3ex.out.1.recommendations ∧
    ¬ invariant_N1 C3ex.out.1 :=
  ⟨by decide, by decide, by decide, by decide, by decide⟩

/-! ### Claim C9 -/

/-- Modelled from the claim wording of C9 (the reference SM-2 recurrence):
on grade 1 increment repetitions and set the interval to 1, 6, or
interval × ease for repetitions 1, 2, ≥ 3, then adjust ease by ±0.15 on
too_easy / too_hard feedback clamped to [1.3, 3.0]; on grade 0 set
repetitions to 0, the interval to 0.01 days, and ease to
max(ease − 0.2, 1.3); a card with no prior state starts from ease 2.5,
interval 0, repetitions 0. The result is `(ease, interval, repetitions)`. -/
def sm2_claim_step (prior : Option (ℚ × ℚ × Nat)) (grade : Nat)
    (feedback : Option String) : ℚ × ℚ × Nat :=
  let ef := ((prior.map fun p => p.1).getD (5/2))
  let interval := ((prior.map fun p => p.2.1).getD 0)
  let reps := ((prior.map fun p => p.2.2).getD 0)
  if grade = 1 then
    let reps2 := reps + 1
    let interval2 : ℚ := if reps2 = 1 then 1 else if reps2 = 2 then 6 else interval * ef
    let ef2 : ℚ :=
      if feedback = some "too_easy" then min (ef + 3/20) 3
      else if feedback = some "too_hard" then max (ef - 3/20) (13/10)
      else ef
    (ef2, interval2, reps2)
  else (max (ef - 1/5) (13/10), 1/100, 0)

/-- C9 counterexample: the claim states the returned recommendation's
`precision_seconds` is `max(interval × 86400 × 0.1, 60)`; on grade 0 from a
fresh card the interval becomes 0.01 days, the code stores
`max(int(86.4), 60) = 86`, and `86 ≠ max(0.01 × 86400 × 0.1, 60) = 86.4` —
the claim omits the `int()` truncation. -/
theorem c9_precision_truncation_counterexample :
    (sm2_on_review (fun _ => "next") [] 1 ⟨1, "ts", 0, 0, 0, none, none⟩).2 =
      [⟨1, "next", 86⟩] ∧
    ((86 : ℚ) ≠ max ((1/100 : ℚ) * 86400 * (1/10)) 60) := by
  have hval : ((1:ℚ)/100 * 86400 * (1/10)) = 432/5 := by norm_num
  have hfl : ⌊((1:ℚ)/100 * 86400 * (1/10))⌋ = (86:ℤ) := by
    rw [hval, Int.floor_eq_iff]
    norm_num
  constructor
  · simp only [sm2_on_review, alLookup]
    norm_num [hfl]
  · rw [hval, max_eq_left (by norm_num)]
    norm_num

/-- C9 (amended): `sm2_on_review` realizes the reference SM-2 recurrence as
the claim states it — the per-card `(ease, interval, repetitions)` stored for
the card equals `sm2_claim_step` of its prior state (starting from ease 2.5,
interval 0, repetitions 0 when no prior state exists), and the single
returned recommendation targets the card with the new interval's time and
`precision_seconds = max(⌊interval × 86400 × 0.1⌋, 60)` (integer truncation,
which the original claim text omitted). -/
theorem c9_sm2_recurrence :
    ∀ (fmtTime : ℚ → String) (db : Sm2Db) (card_id : Nat) (event : ReviewEvent),
    (∃ row, alLookup card_id (sm2_on_review fmtTime db card_id event).1 = some row ∧
       (row.ease_factor, row.interval_days, row.repetitions) =
         sm2_claim_step ((alLookup card_id db).map
           (fun r => (r.ease_factor, r.interval_days, r.repetitions)))
           event.grade event.feedback) ∧
    (sm2_on_review fmtTime db card_id event).2 =
      [{ card_id := card_id,
         time := fmtTime (sm2_claim_step ((alLookup card_id db).map
           (fun r => (r.ease_factor, r.interval_days, r.repetitions)))
           event.grade event.feedback).2.1,
         precision_seconds := max ⌊(sm2_claim_step ((alLookup card_id db).map
           (fun r => (r.ease_factor, r.interval_days, r.repetitions)))
           event.grade event.feedback).2.1 * 86400 * (1/10 : ℚ)⌋ 60 }] := by
  intro fmtTime db card_id event
  cases h : alLookup card_id db with
  | none => simp [sm2_on_review, sm2_claim_step, h, alLookup_alInsert_self]
  | some r => simp [sm2_on_review, sm2_claim_step, h, alLookup_alInsert_self]

/-! ### Scheduler-independence of everything but recommendations -/

/-- Two catalogs that agree on every table except `recommendations`. -/
structure EqExceptRecs (A B : Catalog) : Prop where
  cards : A.cards = B.cards
  card_state : A.card_state = B.card_state
  card_tags : A.card_tags = B.card_tags
  card_relations : A.card_relations = B.card_relations
  review_log : A.review_log = B.review_log
  card_flags : A.card_flags = B.card_flags
  next_id : A.next_id = B.next_id

theorem eqExceptRecs_refl (A : Catalog) : EqExceptRecs A A :=
  ⟨rfl, rfl, rfl, rfl, rfl, rfl, rfl⟩

theorem statusOf_congr {A B : Catalog} (h : EqExceptRecs A B) (i : Nat) :
    statusOf A i = statusOf B i := by
  rw [statusOf_eq_list, statusOf_eq_list, h.card_state]

/-- A fold preserves a binary relation whose step functions do. -/
theorem foldl_rel {α β : Type} (f g : α → β → α) (R : α → α → Prop)
    (hstep : ∀ a b x, R a b → R (f a x) (g b x)) :
    ∀ (l : List β) (a b : α), R a b → R (l.foldl f a) (l.foldl g b) := by
  intro l
  induction l with
  | nil => intro a b h; exact h
  | cons hd tl ih => intro a b h; exact ih _ _ (hstep a b hd h)

theorem resolveActive_congr {A B : Catalog} (h : EqExceptRecs A B)
    (sp k ad : String) : resolveActive A sp k ad = resolveActive B sp k ad := by
  unfold resolveActive
  rw [h.cards]
  have : (fun c : CardRow =>
      c.source_path == sp && c.card_key == k && c.adapter == ad &&
        decide (statusOf A c.id = some Status.active)) =
      (fun c : CardRow =>
      c.source_path == sp && c.card_key == k && c.adapter == ad &&
        decide (statusOf B c.id = some Status.active)) := by
    funext c
    rw [statusOf_congr h]
  rw [this]

theorem resolveActiveTarget_congr {A B : Catalog} (h : EqExceptRecs A B)
    (sp k : String) : resolveActiveTarget A sp k = resolveActiveTarget B sp k := by
  unfold resolveActiveTarget
  rw [h.cards]
  have : (fun c : CardRow =>
      c.source_path == sp && c.card_key == k &&
        decide (statusOf A c.id = some Status.active)) =
      (fun c : CardRow =>
      c.source_path == sp && c.card_key == k &&
        decide (statusOf B c.id = some Status.active)) := by
    funext c
    rw [statusOf_congr h]
  rw [this]

theorem sync_relations_congr {A B : Catalog} (h : EqExceptRecs A B)
    (R : List ScanResult) : EqExceptRecs (sync_relations A R) (sync_relations B R) := by
  unfold sync_relations
  refine foldl_rel _ _ EqExceptRecs ?_ R A B h
  rintro A B ⟨sp, ad, cards, cfg⟩ hAB
  simp only
  refine foldl_rel _ _ EqExceptRecs ?_ cards A B hAB
  intro A B card hAB2
  by_cases hrel : card.relations.isEmpty
  · rw [if_pos hrel, if_pos hrel]
    exact hAB2
  · rw [if_neg hrel, if_neg hrel]
    rw [← resolveActive_congr hAB2 sp card.key ad]
    cases hres : resolveActive A sp card.key ad with
    | none => exact hAB2
    | some cid =>
      refine foldl_rel _ _ EqExceptRecs ?_ card.relations A B hAB2
      intro A B rel hAB3
      rw [← resolveActiveTarget_congr hAB3 (rel.target_source.getD sp) rel.target_key]
      cases ht : resolveActiveTarget A (rel.target_source.getD sp) rel.target_key with
      | none => exact hAB3
      | some tid =>
        show EqExceptRecs
          (if (⟨cid, tid, rel.relation_type⟩ : RelRow) ∈ A.card_relations then A
           else { A with card_relations :=
             A.card_relations ++ [⟨cid, tid, rel.relation_type⟩] })
          (if (⟨cid, tid, rel.relation_type⟩ : RelRow) ∈ B.card_relations then B
           else { B with card_relations :=
             B.card_relations ++ [⟨cid, tid, rel.relation_type⟩] })
        rw [← hAB3.card_relations]
        by_cases hmem : (⟨cid, tid, rel.relation_type⟩ : RelRow) ∈ A.card_relations
        · rw [if_pos hmem, if_pos hmem]
          exact hAB3
        · rw [if_neg hmem, if_neg hmem]
          exact ⟨hAB3.cards, hAB3.card_state, hAB3.card_tags, rfl,
            hAB3.review_log, hAB3.card_flags, hAB3.next_id⟩

/-- The relation carried along the per-card loop when comparing a run with a
scheduler against a run without one. -/
def SyncRel {σ : Type} (a b : SyncSt σ) : Prop :=
  EqExceptRecs a.db b.db ∧ a.stats = b.stats ∧ a.emap = b.emap

theorem processCard_syncRel {σ : Type} (hashFn : String → String) (now : String)
    (S : Scheduler σ) (susp : List (String × Bool)) :
    ∀ (a b : SyncSt σ) (kv : Triple × Card), SyncRel a b →
      SyncRel (processCard hashFn now (some S) susp a kv)
              (processCard hashFn now none susp b kv) := by
  rintro a b ⟨t, card⟩ ⟨hdb, hstats, hemap⟩
  cases hl : alLookup t a.emap with
  | some row =>
    have hlb : alLookup t b.emap = some row := by rw [← hemap]; exact hl
    by_cases hh : row.content_hash = hashFn card.content
    · rw [processCard_unchanged_eq hashFn now (some S) susp a card hl hh,
          processCard_unchanged_eq hashFn now none susp b card hlb hh,
          processUnchanged_spec, processUnchanged_spec]
      exact ⟨⟨by rw [hdb.cards], hdb.card_state, by rw [hdb.card_tags],
        hdb.card_relations, hdb.review_log, hdb.card_flags, hdb.next_id⟩,
        by rw [hstats], by rw [hemap]⟩
    · rw [processCard_replace_eq hashFn now (some S) susp a card hl hh,
          processCard_replace_eq hashFn now none susp b card hlb hh]
      obtain ⟨ha1, ha2, ha3, ha4, ha5, ha6, ha7, ha8, ha9⟩ :=
        processReplace_spec now (some S) a t card (hashFn card.content) row
      obtain ⟨hb1, hb2, hb3, hb4, hb5, hb6, hb7, hb8, hb9⟩ :=
        processReplace_spec now none b t card (hashFn card.content) row
      refine ⟨⟨?_, ?_, ?_, ?_, ?_, ?_, ?_⟩, ?_, ?_⟩
      · rw [ha1, hb1, hdb.cards, hdb.next_id]
      · rw [ha2, hb2, hdb.card_state, hdb.next_id]
      · rw [ha3, hb3, hdb.card_tags, hdb.next_id]
      · rw [ha4, hb4, hdb.card_relations, hdb.next_id]
      · rw [ha5, hb5, hdb.review_log]
      · rw [ha6, hb6, hdb.card_flags]
      · rw [ha7, hb7, hdb.next_id]
      · rw [ha8, hb8, hstats]
      · rw [ha9, hb9, hemap]
  | none =>
    have hlb : alLookup t b.emap = none := by rw [← hemap]; exact hl
    rw [processCard_insert_eq hashFn now (some S) susp a card hl,
        processCard_insert_eq hashFn now none susp b card hlb]
    obtain ⟨ha1, ha2, ha3, ha4, ha5, ha6, ha7, ha8, ha9⟩ :=
      processInsert_spec now (some S) susp a t card (hashFn card.content)
    obtain ⟨hb1, hb2, hb3, hb4, hb5, hb6, hb7, hb8, hb9⟩ :=
      processInsert_spec now none susp b t card (hashFn card.content)
    refine ⟨⟨?_, ?_, ?_, ?_, ?_, ?_, ?_⟩, ?_, ?_⟩
    · rw [ha1, hb1, hdb.cards, hdb.next_id]
    · rw [ha2, hb2, hdb.card_state, hdb.next_id]
    · rw [ha3, hb3, hdb.card_tags, hdb.next_id]
    · rw [ha4, hb4, hdb.card_relations]
    · rw [ha5, hb5, hdb.review_log]
    · rw [ha6, hb6, hdb.card_flags]
    · rw [ha7, hb7, hdb.next_id]
    · rw [ha8, hb8, hstats]
    · rw [ha9, hb9, hemap]

theorem sweepCard_syncRel {σ : Type} (now : String) (S : Scheduler σ) :
    ∀ (a b : SyncSt σ) (kv : Triple × ExistRow), SyncRel a b →
      SyncRel (sweepCard now (some S) a kv) (sweepCard now none b kv) := by
  intro a b kv ⟨hdb, hstats, hemap⟩
  obtain ⟨ha1, ha2, ha3⟩ := sweepCard_spec now (some S) a kv
  obtain ⟨hb1, hb2, hb3⟩ := sweepCard_spec now none b kv
  refine ⟨⟨?_, ?_, ?_, ?_, ?_, ?_, ?_⟩, ?_, ?_⟩
  · rw [ha1, hb1]; exact hdb.cards
  · rw [ha1, hb1]; simp only; rw [hdb.card_state]
  · rw [ha1, hb1]; exact hdb.card_tags
  · rw [ha1, hb1]; exact hdb.card_relations
  · rw [ha1, hb1]; exact hdb.review_log
  · rw [ha1, hb1]; exact hdb.card_flags
  · rw [ha1, hb1]; exact hdb.next_id
  · rw [ha2, hb2, hstats]
  · rw [ha3, hb3, hemap]

/-- With any scheduler, `sync_cards` produces the same cards, states, tags,
relations, log and id counter — and the same stats — as with no scheduler. -/
theorem sync_cards_scheduler_indep {σ : Type} (hashFn : String → String)
    (now : String) (D : Catalog) (R : List ScanResult) (S : Scheduler σ) (sst : σ)
    (sp : List (String × Bool)) :
    EqExceptRecs (sync_cards hashFn now D R (some S) sst sp).1
        (sync_cards hashFn now D R (none : Option (Scheduler σ)) sst sp).1 ∧
    (sync_cards hashFn now D R (some S) sst sp).2.1 =
        (sync_cards hashFn now D R (none : Option (Scheduler σ)) sst sp).2.1 := by
  unfold sync_cards
  simp only
  have h0 : SyncRel (σ := σ)
      ⟨D, ⟨0, 0, 0, 0⟩, existingMapOf (scannedSourcesOf R) sp D, sst⟩
      ⟨D, ⟨0, 0, 0, 0⟩, existingMapOf (scannedSourcesOf R) sp D, sst⟩ :=
    ⟨eqExceptRecs_refl D, rfl, rfl⟩
  have h1 := foldl_rel _ _ SyncRel
    (processCard_syncRel hashFn now S (sourceSuspendedOf R)) (scannedKeysOf R) _ _ h0
  set a1 := (scannedKeysOf R).foldl
    (processCard hashFn now (some S) (sourceSuspendedOf R))
    ⟨D, ⟨0, 0, 0, 0⟩, existingMapOf (scannedSourcesOf R) sp D, sst⟩ with ha1
  set b1 := (scannedKeysOf R).foldl
    (processCard hashFn now none (sourceSuspendedOf R))
    ⟨D, ⟨0, 0, 0, 0⟩, existingMapOf (scannedSourcesOf R) sp D, sst⟩ with hb1
  have hemap : a1.emap = b1.emap := h1.2.2
  have h2 : SyncRel { a1 with emap := ([] : List (Triple × ExistRow)) }
      { b1 with emap := ([] : List (Triple × ExistRow)) } :=
    ⟨h1.1, h1.2.1, rfl⟩
  have h3 := foldl_rel _ _ SyncRel (sweepCard_syncRel now S) a1.emap
    { a1 with emap := ([] : List (Triple × ExistRow)) }
    { b1 with emap := ([] : List (Triple × ExistRow)) } h2
  rw [show b1.emap = a1.emap from hemap.symm]
  exact ⟨sync_relations_congr h3.1 R, h3.2.1⟩

/-! ### Hook failures leave the catalog exactly as a missing scheduler would -/

/-- A scheduler whose every hook raises. -/
def AlwaysFails {σ : Type} (S : Scheduler σ) : Prop :=
  (∀ s i, ∃ e, (S.on_card_created s i).2 = Except.error e) ∧
  (∀ s i j, ∃ e, (S.on_card_replaced s i j).2 = Except.error e) ∧
  (∀ s i st, ∃ e, (S.on_card_status_changed s i st).2 = Except.error e) ∧
  (∀ s i ev, ∃ e, (S.on_review s i ev).2 = Except.error e)

theorem catalog_ext {A B : Catalog} (h : EqExceptRecs A B)
    (hrecs : A.recommendations = B.recommendations) : A = B := by
  obtain ⟨ac, as2, at2, ar, arec, alog, afl, an⟩ := A
  obtain ⟨bc, bs2, bt2, br, brec, blog, bfl, bn⟩ := B
  obtain ⟨h1, h2, h3, h4, h5, h6, h7⟩ := h
  simp only at h1 h2 h3 h4 h5 h6 h7 hrecs
  simp [h1, h2, h3, h4, h5, h6, h7, hrecs]

theorem processUnchanged_recs {σ : Type} (st : SyncSt σ) (t : Triple) (card : Card)
    (row : ExistRow) :
    (processUnchanged st t card row).db.recommendations = st.db.recommendations := by
  rw [processUnchanged_spec]

theorem processReplace_recs_none {σ : Type} (now : String) (st : SyncSt σ)
    (t : Triple) (card : Card) (chash : String) (row : ExistRow) :
    (processReplace now (none : Option (Scheduler σ)) st t card chash row).db.recommendations =
      st.db.recommendations := by
  obtain ⟨sp, k, ad⟩ := t
  unfold processReplace insert_card
  simp only [sync_tags_eq]

theorem processReplace_recs_fail {σ : Type} (now : String) (S : Scheduler σ)
    (st : SyncSt σ) (t : Triple) (card : Card) (chash : String) (row : ExistRow)
    (hf : ∀ s i j, ∃ e, (S.on_card_replaced s i j).2 = Except.error e) :
    (processReplace now (some S) st t card chash row).db.recommendations =
      st.db.recommendations := by
  obtain ⟨sp, k, ad⟩ := t
  unfold processReplace insert_card
  simp only [sync_tags_eq]
  by_cases hst : row.status = Status.inactive
  · simp only [if_pos hst, hst]
    rfl
  · simp only [if_neg hst]
    obtain ⟨e, he⟩ := hf st.sched_st row.id st.db.next_id
    rw [he]
    rfl

theorem processInsert_recs_none {σ : Type} (now : String)
    (srcSusp : List (String × Bool)) (st : SyncSt σ) (t : Triple) (card : Card)
    (chash : String) :
    (processInsert now (none : Option (Scheduler σ)) srcSusp st t card chash).db.recommendations =
      st.db.recommendations := by
  obtain ⟨sp, k, ad⟩ := t
  unfold processInsert insert_card
  simp only [sync_tags_eq]

theorem processInsert_recs_fail {σ : Type} (now : String) (S : Scheduler σ)
    (srcSusp : List (String × Bool)) (st : SyncSt σ) (t : Triple) (card : Card)
    (chash : String)
    (hf : ∀ s i, ∃ e, (S.on_card_created s i).2 = Except.error e) :
    (processInsert now (some S) srcSusp st t card chash).db.recommendations =
      st.db.recommendations := by
  obtain ⟨sp, k, ad⟩ := t
  unfold processInsert insert_card
  simp only [sync_tags_eq]
  by_cases hsusp : alLookup sp srcSusp = some true
  · simp only [if_pos hsusp]
    rfl
  · simp only [if_neg hsusp]
    obtain ⟨e, he⟩ := hf st.sched_st st.db.next_id
    rw [he]
    rfl

/-- A fold preserves a predicate whose step function does. -/
theorem foldl_preserve {α β : Type} (f : α → β → α) (P : α → Prop)
    (hstep : ∀ a x, P a → P (f a x)) :
    ∀ (l : List β) (a : α), P a → P (l.foldl f a) := by
  intro l
  induction l with
  | nil => intro a h; exact h
  | cons hd tl ih => intro a h; exact ih _ (hstep a hd h)

/-- `_sync_relations` only ever appends to the relations table. -/
theorem sync_relations_eq (D : Catalog) (R : List ScanResult) :
    ∃ rels, sync_relations D R = { D with card_relations := rels } := by
  unfold sync_relations
  refine foldl_preserve _ (fun D2 => ∃ rels, D2 = { D with card_relations := rels })
    ?_ R D ⟨D.card_relations, rfl⟩
  rintro A ⟨sp, ad, cards, cfg⟩ hA
  simp only
  refine foldl_preserve _ (fun D2 => ∃ rels, D2 = { D with card_relations := rels })
    ?_ cards A hA
  intro A card hA2
  by_cases hrel : card.relations.isEmpty
  · rw [if_pos hrel]
    exact hA2
  · rw [if_neg hrel]
    cases hres : resolveActive A sp card.key ad with
    | none => exact hA2
    | some cid =>
      refine foldl_preserve _ (fun D2 => ∃ rels, D2 = { D with card_relations := rels })
        ?_ card.relations A hA2
      intro A rel hA3
      cases ht : resolveActiveTarget A (rel.target_source.getD sp) rel.target_key with
      | none => exact hA3
      | some tid =>
        show ∃ rels,
          (if (⟨cid, tid, rel.relation_type⟩ : RelRow) ∈ A.card_relations then A
           else { A with card_relations :=
             A.card_relations ++ [⟨cid, tid, rel.relation_type⟩] }) =
          { D with card_relations := rels }
        obtain ⟨rels, hrels⟩ := hA3
        by_cases hmem : (⟨cid, tid, rel.relation_type⟩ : RelRow) ∈ A.card_relations
        · rw [if_pos hmem]
          exact ⟨rels, hrels⟩
        · rw [if_neg hmem]
          refine ⟨A.card_relations ++ [⟨cid, tid, rel.relation_type⟩], ?_⟩
          rw [hrels]

/-- With a scheduler whose hooks all fail, `sync_cards` writes the very same
catalog (recommendations included) and stats as with no scheduler. -/
theorem sync_cards_fail_eq_none {σ : Type} (hashFn : String → String)
    (now : String) (D : Catalog) (R : List ScanResult) (S : Scheduler σ) (sst : σ)
    (sp : List (String × Bool)) (hfail : AlwaysFails S) :
    (sync_cards hashFn now D R (some S) sst sp).1 =
      (sync_cards hashFn now D R (none : Option (Scheduler σ)) sst sp).1 ∧
    (sync_cards hashFn now D R (some S) sst sp).2.1 =
      (sync_cards hashFn now D R (none : Option (Scheduler σ)) sst sp).2.1 := by
  obtain ⟨her, hstats⟩ := sync_cards_scheduler_indep hashFn now D R S sst sp
  refine ⟨?_, hstats⟩
  -- it remains to show the recommendations agree
  unfold sync_cards
  simp only
  -- recommendations through the per-card loop: both runs keep them untouched
  have hrecA : ∀ (st : SyncSt σ),
      (((scannedKeysOf R).foldl
        (processCard hashFn now (some S) (sourceSuspendedOf R)) st).db.recommendations) =
      st.db.recommendations := by
    intro st
    refine foldl_preserve _
      (fun a => a.db.recommendations = st.db.recommendations) ?_ _ st rfl
    rintro a ⟨t, card⟩ ha
    cases hl : alLookup t a.emap with
    | some row =>
      by_cases hh : row.content_hash = hashFn card.content
      · rw [processCard_unchanged_eq hashFn now (some S) (sourceSuspendedOf R) a card hl hh,
            processUnchanged_recs, ha]
      · rw [processCard_replace_eq hashFn now (some S) (sourceSuspendedOf R) a card hl hh,
            processReplace_recs_fail now S a t card (hashFn card.content) row hfail.2.1, ha]
    | none =>
      rw [processCard_insert_eq hashFn now (some S) (sourceSuspendedOf R) a card hl,
          processInsert_recs_fail now S (sourceSuspendedOf R) a t card
            (hashFn card.content) hfail.1, ha]
  have hrecB : ∀ (st : SyncSt σ),
      (((scannedKeysOf R).foldl
        (processCard hashFn now (none : Option (Scheduler σ)) (sourceSuspendedOf R))
          st).db.recommendations) = st.db.recommendations := by
    intro st
    refine foldl_preserve _
      (fun a => a.db.recommendations = st.db.recommendations) ?_ _ st rfl
    rintro a ⟨t, card⟩ ha
    cases hl : alLookup t a.emap with
    | some row =>
      by_cases hh : row.content_hash = hashFn card.content
      · rw [processCard_unchanged_eq hashFn now none (sourceSuspendedOf R) a card hl hh,
            processUnchanged_recs, ha]
      · rw [processCard_replace_eq hashFn now none (sourceSuspendedOf R) a card hl hh,
            processReplace_recs_none now a t card (hashFn card.content) row, ha]
    | none =>
      rw [processCard_insert_eq hashFn now none (sourceSuspendedOf R) a card hl,
          processInsert_recs_none now (sourceSuspendedOf R) a t card (hashFn card.content),
          ha]
  -- recommendations through the sweep: a pure function of the prior table and
  -- the swept row ids, identical for any scheduler
  have hsweep : ∀ (sched : Option (Scheduler σ)) (l : List (Triple × ExistRow))
      (st : SyncSt σ),
      ((l.foldl (sweepCard now sched) st).db.recommendations) =
        l.foldl (fun rs kv => rs.filter (fun r => !(r.card_id == kv.2.id)))
          st.db.recommendations := by
    intro sched l
    induction l with
    | nil => intro st; rfl
    | cons hd tl ih =>
      intro st
      simp only [List.foldl_cons]
      rw [ih]
      obtain ⟨h1, _h2, _h3⟩ := sweepCard_spec now sched st hd
      rw [h1]
  -- assemble
  set a1 := (scannedKeysOf R).foldl
    (processCard hashFn now (some S) (sourceSuspendedOf R))
    ⟨D, ⟨0, 0, 0, 0⟩, existingMapOf (scannedSourcesOf R) sp D, sst⟩ with ha1
  set b1 := (scannedKeysOf R).foldl
    (processCard hashFn now (none : Option (Scheduler σ)) (sourceSuspendedOf R))
    ⟨D, ⟨0, 0, 0, 0⟩, existingMapOf (scannedSourcesOf R) sp D, sst⟩ with hb1
  have hemap : a1.emap = b1.emap := by
    have h0 : SyncRel (σ := σ)
        ⟨D, ⟨0, 0, 0, 0⟩, existingMapOf (scannedSourcesOf R) sp D, sst⟩
        ⟨D, ⟨0, 0, 0, 0⟩, existingMapOf (scannedSourcesOf R) sp D, sst⟩ :=
      ⟨eqExceptRecs_refl D, rfl, rfl⟩
    exact (foldl_rel _ _ SyncRel
      (processCard_syncRel hashFn now S (sourceSuspendedOf R)) (scannedKeysOf R)
      _ _ h0).2.2
  obtain ⟨relsA, hrelsA⟩ := sync_relations_eq
    ((a1.emap.foldl (sweepCard now (some S))
      { a1 with emap := ([] : List (Triple × ExistRow)) }).db) R
  obtain ⟨relsB, hrelsB⟩ := sync_relations_eq
    ((b1.emap.foldl (sweepCard now (none : Option (Scheduler σ)))
      { b1 with emap := ([] : List (Triple × ExistRow)) }).db) R
  -- the recommendations of the two final catalogs coincide
  apply catalog_ext
  · -- EqExceptRecs of the two sides, as already established
    exact her
  · show (sync_cards hashFn now D R (some S) sst sp).1.recommendations =
      (sync_cards hashFn now D R (none : Option (Scheduler σ)) sst sp).1.recommendations
    unfold sync_cards
    simp only
    rw [← ha1, ← hb1, hrelsA, hrelsB]
    simp only
    rw [hsweep (some S) a1.emap _, hsweep (none : Option (Scheduler σ)) b1.emap _]
    simp only
    rw [hrecA, hrecB, hemap]

theorem upsertFold_eqExceptRecs (recs : List Recommendation) (sid : String)
    (D : Catalog) :
    EqExceptRecs (recs.foldl (fun D2 r => upsert_recommendation D2 r sid) D) D := by
  rw [upsert_fold_eq]
  exact ⟨rfl, rfl, rfl, rfl, rfl, rfl, rfl⟩

theorem applyOnReview_none {σ : Type} (sst : σ) (cid : Nat) (ev : ReviewEvent)
    (D : Catalog) : applyOnReview (none : Option (Scheduler σ)) sst cid ev D = (D, sst) := rfl

theorem applyOnReview_eqExceptRecs {σ : Type} (sched : Option (Scheduler σ)) (sst : σ)
    (cid : Nat) (ev : ReviewEvent) (D : Catalog) :
    EqExceptRecs (applyOnReview sched sst cid ev D).1 D := by
  unfold applyOnReview
  cases sched with
  | none => exact eqExceptRecs_refl D
  | some S =>
    simp only
    cases hres : (S.on_review sst cid ev).2 with
    | ok recs => exact upsertFold_eqExceptRecs recs S.scheduler_id D
    | error e => exact eqExceptRecs_refl D

theorem applyOnReview_fail {σ : Type} (S : Scheduler σ) (sst : σ) (cid : Nat)
    (ev : ReviewEvent) (D : Catalog)
    (hf : ∃ e, (S.on_review sst cid ev).2 = Except.error e) :
    applyOnReview (some S) sst cid ev D = (D, (S.on_review sst cid ev).1) := by
  unfold applyOnReview
  obtain ⟨e, he⟩ := hf
  simp only [he]

theorem exclude_congr {A B : Catalog} (h : A.card_relations = B.card_relations)
    (s : SessionRS) (i : Nat) :
    exclude_mutually_exclusive A s i = exclude_mutually_exclusive B s i := by
  unfold exclude_mutually_exclusive siblingsOf
  rw [h]

/-- Grading with any scheduler appends the same review event, produces the
same session, and touches the catalog identically except for recommendation
upserts; with a failing `on_review` the catalog is exactly as with no
scheduler. -/
theorem grade_current_scheduler_indep {σ : Type} (S : Scheduler σ) (sst : σ)
    (now : String) (t : Nat) (g : Nat) (fb : Option String) (resp : Option String)
    (D : Catalog) (s : SessionRS) (card : CardRow)
    (hcur : s.current_card = some card) :
    ∃ outS outN,
      grade_current (some S) now t g fb resp D s sst = some outS ∧
      grade_current (none : Option (Scheduler σ)) now t g fb resp D s sst = some outN ∧
      outS.2.1 = outN.2.1 ∧
      EqExceptRecs outS.1 outN.1 ∧
      ((∀ s2 i ev, ∃ e, (S.on_review s2 i ev).2 = Except.error e) →
        outS.1 = outN.1) := by
  unfold grade_current
  rw [hcur]
  simp only
  refine ⟨_, _, rfl, rfl, ?_, ?_, ?_⟩
  · rw [exclude_congr ((applyOnReview_eqExceptRecs (some S) sst card.id _ _).card_relations),
       applyOnReview_none]
  · rw [applyOnReview_none]
    exact applyOnReview_eqExceptRecs (some S) sst card.id _ _
  · intro hfb
    rw [applyOnReview_fail S sst card.id _ _ (hfb sst card.id _), applyOnReview_none]

/-! ### The `ORDER BY … LIMIT 1` selection -/

theorem selectFirst_eq_none_iff {α : Type} (le : α → α → Bool) (l : List α) :
    selectFirst le l = none ↔ l = [] := by
  cases l with
  | nil => simp [selectFirst]
  | cons hd tl =>
    simp only [selectFirst, List.foldl_cons]
    constructor
    · intro h
      exfalso
      have : ∀ (tl2 : List α) (a : α), tl2.foldl (selStep le) (some a) ≠ none := by
        intro tl2
        induction tl2 with
        | nil => intro a h2; exact Option.noConfusion h2
        | cons h2 t2 ih =>
          intro a h3
          simp only [List.foldl_cons, selStep] at h3
          by_cases hle : le a h2
          · rw [if_pos hle] at h3; exact ih _ h3
          · rw [if_neg hle] at h3; exact ih _ h3
      exact this tl hd (by simpa [selStep] using h)
    · intro h
      exact absurd h (List.cons_ne_nil hd tl)

theorem selectFirst_min {α : Type} (le : α → α → Bool)
    (htot : ∀ a b, le a b = true ∨ le b a = true)
    (htrans : ∀ a b c, le a b = true → le b c = true → le a c = true) :
    ∀ (l : List α) (acc : Option α) (m : α),
      l.foldl (selStep le) acc = some m →
      ((m ∈ l ∨ acc = some m) ∧ (∀ b ∈ l, le m b = true) ∧
        (∀ a0, acc = some a0 → le m a0 = true)) := by
  have hrefl : ∀ a, le a a = true := fun a => (htot a a).elim id id
  intro l
  induction l with
  | nil =>
    intro acc m h
    simp only [List.foldl_nil] at h
    refine ⟨Or.inr h, by intro b hb; simp at hb, fun a0 ha0 => ?_⟩
    rw [h] at ha0
    rw [← Option.some.inj ha0]
    exact hrefl m
  | cons hd tl ih =>
    intro acc m h
    simp only [List.foldl_cons] at h
    cases acc with
    | none =>
      rw [show selStep le none hd = some hd from rfl] at h
      obtain ⟨hmem, hmin, hacc⟩ := ih (some hd) m h
      have hmhd : le m hd = true := hacc hd rfl
      refine ⟨?_, ?_, ?_⟩
      · rcases hmem with hm | hm
        · exact Or.inl (List.mem_cons_of_mem _ hm)
        · exact Or.inl (Option.some.inj hm ▸ List.mem_cons_self _ _)
      · intro b hb
        rcases List.mem_cons.mp hb with rfl | hb
        · exact hmhd
        · exact hmin b hb
      · intro a0 ha0
        exact Option.noConfusion ha0
    | some a =>
      rw [show selStep le (some a) hd = if le a hd then some a else some hd from rfl] at h
      by_cases hle : le a hd
      · rw [if_pos hle] at h
        obtain ⟨hmem, hmin, hacc⟩ := ih (some a) m h
        have hma : le m a = true := hacc a rfl
        refine ⟨?_, ?_, ?_⟩
        · rcases hmem with hm | hm
          · exact Or.inl (List.mem_cons_of_mem _ hm)
          · exact Or.inr hm
        · intro b hb
          rcases List.mem_cons.mp hb with rfl | hb
          · exact htrans m a b hma hle
          · exact hmin b hb
        · intro a0 ha0
          cases Option.some.inj ha0
          exact hma
      · rw [if_neg hle] at h
        obtain ⟨hmem, hmin, hacc⟩ := ih (some hd) m h
        have hmhd : le m hd = true := hacc hd rfl
        have hhda : le hd a = true := by
          rcases htot a hd with h1 | h1
          · exact absurd h1 hle
          · exact h1
        refine ⟨?_, ?_, ?_⟩
        · rcases hmem with hm | hm
          · exact Or.inl (List.mem_cons_of_mem _ hm)
          · exact Or.inl (Option.some.inj hm ▸ List.mem_cons_self _ _)
        · intro b hb
          rcases List.mem_cons.mp hb with rfl | hb
          · exact hmhd
          · exact hmin b hb
        · intro a0 ha0
          cases Option.some.inj ha0
          exact htrans m hd a hmhd hhda

/-- Normal form of the ORDER BY comparison. -/
theorem rowLe_iff (a b : CardRow × Option RecRow) :
    rowLe a b = true ↔
      ((if a.2.isSome then (0:Nat) else 1) < (if b.2.isSome then (0:Nat) else 1) ∨
       ((if a.2.isSome then (0:Nat) else 1) = (if b.2.isSome then (0:Nat) else 1) ∧
        (((a.2.map RecRow.time).getD "") < ((b.2.map RecRow.time).getD "") ∨
         (((a.2.map RecRow.time).getD "") = ((b.2.map RecRow.time).getD "") ∧
          a.1.id ≤ b.1.id)))) := by
  unfold rowLe
  by_cases h1 : (if a.2.isSome then (0:Nat) else 1) = (if b.2.isSome then (0:Nat) else 1)
  · rw [if_pos h1]
    by_cases h2 : ((a.2.map RecRow.time).getD "") = ((b.2.map RecRow.time).getD "")
    · rw [if_pos h2]
      simp only [decide_eq_true_eq]
      constructor
      · intro h
        exact Or.inr ⟨h1, Or.inr ⟨h2, h⟩⟩
      · rintro (h | ⟨_, (h | ⟨_, h⟩)⟩)
        · exact absurd h (by rw [h1]; exact lt_irrefl _)
        · exact absurd h (by rw [h2]; exact lt_irrefl _)
        · exact h
    · rw [if_neg h2]
      simp only [decide_eq_true_eq]
      constructor
      · intro h
        exact Or.inr ⟨h1, Or.inl h⟩
      · rintro (h | ⟨_, (h | ⟨heq, _⟩)⟩)
        · exact absurd h (by rw [h1]; exact lt_irrefl _)
        · exact h
        · exact absurd heq h2
  · rw [if_neg h1]
    simp only [decide_eq_true_eq]
    constructor
    · intro h
      exact Or.inl h
    · rintro (h | ⟨heq, _⟩)
      · exact h
      · exact absurd heq h1

theorem rowLe_total (a b : CardRow × Option RecRow) :
    rowLe a b = true ∨ rowLe b a = true := by
  rw [rowLe_iff, rowLe_iff]
  rcases lt_trichotomy (if a.2.isSome then (0:Nat) else 1)
      (if b.2.isSome then (0:Nat) else 1) with h1 | h1 | h1
  · exact Or.inl (Or.inl h1)
  · rcases lt_trichotomy ((a.2.map RecRow.time).getD "")
        ((b.2.map RecRow.time).getD "") with h2 | h2 | h2
    · exact Or.inl (Or.inr ⟨h1, Or.inl h2⟩)
    · rcases Nat.le_total a.1.id b.1.id with h3 | h3
      · exact Or.inl (Or.inr ⟨h1, Or.inr ⟨h2, h3⟩⟩)
      · exact Or.inr (Or.inr ⟨h1.symm, Or.inr ⟨h2.symm, h3⟩⟩)
    · exact Or.inr (Or.inr ⟨h1.symm, Or.inl h2⟩)
  · exact Or.inr (Or.inl h1)

theorem rowLe_trans (a b c : CardRow × Option RecRow)
    (hab : rowLe a b = true) (hbc : rowLe b c = true) : rowLe a c = true := by
  rw [rowLe_iff] at hab hbc ⊢
  rcases hab with h1 | ⟨e1, hab2⟩
  · rcases hbc with h2 | ⟨e2, _⟩
    · exact Or.inl (lt_trans h1 h2)
    · exact Or.inl (e2 ▸ h1)
  · rcases hbc with h2 | ⟨e2, hbc2⟩
    · exact Or.inl (e1 ▸ h2)
    · refine Or.inr ⟨e1.trans e2, ?_⟩
      rcases hab2 with h3 | ⟨f1, hab3⟩
      · rcases hbc2 with h4 | ⟨f2, _⟩
        · exact Or.inl (lt_trans h3 h4)
        · exact Or.inl (f2 ▸ h3)
      · rcases hbc2 with h4 | ⟨f2, hbc3⟩
        · exact Or.inl (f1 ▸ h4)
        · exact Or.inr ⟨f1.trans f2, Nat.le_trans hab3 hbc3⟩

/-! ### The existing-rows view of the catalog

The synchronizer's behaviour on a catalog is driven entirely by the result of
its `existing` query. The lemmas below compute how each branch of the per-card
loop and the deletion sweep transform `existingRows`, which supports the
idempotence and suspension-preservation claims. -/

/-- The triple key of an existing-query row. -/
def eKey (r : ExistRow) : Triple := (r.source_path, r.card_key, r.adapter)

/-- The status the `insert` branch gives a new card. -/
def statusSusp (susp : List (String × Bool)) (src : String) : Status :=
  if alLookup src susp = some true then Status.inactive else Status.active

/-- The live in-scope row of a triple (unique when the UNIQUE constraint of
the cards table holds). -/
def matchRow (E : List ExistRow) (t : Triple) : Option ExistRow :=
  (E.filter (fun r => eKey r == t)).head?

/-- The per-card projection underlying `existingRows`. -/
def eProj (ss : List String) (sp : List (String × Bool)) (l : List StateRow)
    (c : CardRow) : Option ExistRow :=
  match statusOfList l c.id with
  | none => none
  | some st =>
    if (st = Status.active ∨ st = Status.inactive) ∧ inScope ss sp c.source_path = true then
      some { id := c.id, source_path := c.source_path, card_key := c.card_key,
             adapter := c.adapter, content_hash := c.content_hash, status := st }
    else none

theorem existingRows_eq_filterMap (ss : List String) (sp : List (String × Bool))
    (D : Catalog) :
    existingRows ss sp D = D.cards.filterMap (eProj ss sp D.card_state) := rfl

theorem mem_existingRows {ss : List String} {sp : List (String × Bool)}
    {D : Catalog} {r : ExistRow} (h : r ∈ existingRows ss sp D) :
    statusOf D r.id = some r.status ∧ r.id ∈ D.cards.map CardRow.id ∧
    (r.status = Status.active ∨ r.status = Status.inactive) ∧
    inScope ss sp r.source_path = true := by
  rw [existingRows_eq_filterMap, List.mem_filterMap] at h
  obtain ⟨c, hc, hpc⟩ := h
  unfold eProj at hpc
  cases hst : statusOfList D.card_state c.id with
  | none => rw [hst] at hpc; exact Option.noConfusion hpc
  | some st =>
    rw [hst] at hpc
    simp only at hpc
    by_cases hcond : (st = Status.active ∨ st = Status.inactive) ∧
        inScope ss sp c.source_path = true
    · rw [if_pos hcond] at hpc
      cases Option.some.inj hpc
      refine ⟨?_, ?_, hcond.1, hcond.2⟩
      · rw [statusOf_eq_list]
        exact hst
      · exact List.mem_map.mpr ⟨c, hc, rfl⟩
    · rw [if_neg hcond] at hpc; exact Option.noConfusion hpc

theorem filterMap_map_sublist {α β γ : Type} (f : α → Option β) (g : β → γ)
    (h : α → γ) (hpres : ∀ a b, f a = some b → g b = h a) :
    ∀ l : List α, ((l.filterMap f).map g).Sublist (l.map h) := by
  intro l
  induction l with
  | nil => simp
  | cons a t ih =>
    rw [List.filterMap_cons]
    cases hf : f a with
    | none => rw [List.map_cons]; exact ih.cons _
    | some b =>
      rw [List.map_cons, List.map_cons, hpres a b hf]
      exact ih.cons₂ _

theorem existingRows_ids_sublist (ss : List String) (sp : List (String × Bool))
    (D : Catalog) :
    ((existingRows ss sp D).map ExistRow.id).Sublist (D.cards.map CardRow.id) := by
  rw [existingRows_eq_filterMap]
  apply filterMap_map_sublist
  intro c r hcr
  unfold eProj at hcr
  cases hst : statusOfList D.card_state c.id with
  | none => rw [hst] at hcr; exact Option.noConfusion hcr
  | some st =>
    rw [hst] at hcr
    simp only at hcr
    by_cases hcond : (st = Status.active ∨ st = Status.inactive) ∧
        inScope ss sp c.source_path = true
    · rw [if_pos hcond] at hcr
      cases Option.some.inj hcr
      rfl
    · rw [if_neg hcond] at hcr; exact Option.noConfusion hcr

theorem statusOfList_eq_none (l : List StateRow) (i : Nat)
    (h : ∀ s ∈ l, s.card_id ≠ i) : statusOfList l i = none := by
  unfold statusOfList
  rw [List.find?_eq_none.mpr]
  · rfl
  · intro s hs hc
    exact h s hs (by simpa using hc)

theorem E_unchanged {σ : Type} (ss : List String) (sp : List (String × Bool))
    (st : SyncSt σ) (t : Triple) (card : Card) (row : ExistRow) :
    existingRows ss sp (processUnchanged st t card row).db =
      existingRows ss sp st.db := by
  rw [processUnchanged_spec]
  rw [existingRows_eq_filterMap, existingRows_eq_filterMap]
  simp only
  rw [List.filterMap_map]
  apply List.filterMap_congr
  intro c _
  simp only [Function.comp]
  by_cases h : c.id = row.id
  · rw [if_pos h]
    rfl
  · rw [if_neg h]

theorem replStatus_live (s : Status) :
    replStatus s = Status.active ∨ replStatus s = Status.inactive := by
  unfold replStatus
  by_cases h : s = Status.inactive
  · rw [if_pos h]; exact Or.inr h
  · rw [if_neg h]; exact Or.inl rfl

theorem statusSusp_live (susp : List (String × Bool)) (src : String) :
    statusSusp susp src = Status.active ∨ statusSusp susp src = Status.inactive := by
  unfold statusSusp
  by_cases h : alLookup src susp = some true
  · rw [if_pos h]; exact Or.inr rfl
  · rw [if_neg h]; exact Or.inl rfl

theorem E_replace {σ : Type} (now : String) (sched : Option (Scheduler σ))
    (ss : List String) (sp : List (String × Bool)) (st : SyncSt σ) (t : Triple)
    (card : Card) (chash : String) (row : ExistRow)
    (hW2 : ∀ c ∈ st.db.cards, c.id < st.db.next_id)
    (hW4 : ∀ s ∈ st.db.card_state, s.card_id < st.db.next_id)
    (hscope : inScope ss sp t.1 = true) :
    existingRows ss sp (processReplace now sched st t card chash row).db =
      (existingRows ss sp st.db).filter (fun r => !(r.id == row.id)) ++
        [⟨st.db.next_id, t.1, t.2.1, t.2.2, chash, replStatus row.status⟩] := by
  obtain ⟨hcards, hstate, _, _, _, _, _, _, _⟩ :=
    processReplace_spec now sched st t card chash row
  rw [existingRows_eq_filterMap, hcards, hstate]
  rw [List.filterMap_append]
  have hstate2 : ∀ i : Nat, i < st.db.next_id →
      statusOfList ((st.db.card_state.map (fun s =>
        if s.card_id = row.id then { s with status := Status.deleted, updated_at := now }
        else s)) ++ [⟨st.db.next_id, replStatus row.status, now⟩]) i =
      (if i = row.id then (statusOfList st.db.card_state i).map (fun _ => Status.deleted)
       else statusOfList st.db.card_state i) := by
    intro i hi
    by_cases hir : i = row.id
    · rw [if_pos hir, hir]
      cases hs : statusOfList st.db.card_state row.id with
      | none =>
        rw [statusOfList_append_of_none]
        · show _ = (none : Option Status)
          apply statusOfList_eq_none
          intro s hs2
          rw [List.mem_singleton] at hs2
          subst hs2
          intro hc
          exact absurd hc.symm (Nat.ne_of_lt (hir ▸ hi))
        · rw [statusOfList_set_self, hs]
          rfl
      | some s0 =>
        rw [statusOfList_append_of_isSome]
        · rw [statusOfList_set_self, hs]
        · rw [statusOfList_set_self, hs]
          rfl
    · rw [if_neg hir]
      cases hs : statusOfList st.db.card_state i with
      | none =>
        rw [statusOfList_append_of_none]
        · apply statusOfList_eq_none
          intro s hs2
          rw [List.mem_singleton] at hs2
          subst hs2
          intro hc
          exact absurd hc.symm (Nat.ne_of_lt hi)
        · rw [statusOfList_set_ne _ _ _ _ hir, hs]
      | some s0 =>
        rw [statusOfList_append_of_isSome]
        · rw [statusOfList_set_ne _ _ _ _ hir, hs]
        · rw [statusOfList_set_ne _ _ _ _ hir, hs]
          rfl
  congr 1
  · rw [List.filterMap_map, existingRows_eq_filterMap, List.filter_filterMap]
    apply List.filterMap_congr
    intro c hc
    simp only [Function.comp]
    by_cases h : c.id = row.id
    · rw [if_pos h]
      unfold eProj
      rw [show ({ c with card_key := c.card_key ++ "__replaced_" ++ toString c.id } :
            CardRow).id = c.id from rfl]
      rw [hstate2 c.id (hW2 c hc), if_pos h]
      cases hs : statusOfList st.db.card_state c.id with
      | none => rfl
      | some s0 =>
        by_cases hcond2 : (s0 = Status.active ∨ s0 = Status.inactive) ∧
            inScope ss sp c.source_path = true
        · simp [Option.filter, hcond2, h]
        · simp [Option.filter, hcond2]
    · rw [if_neg h]
      unfold eProj
      rw [hstate2 c.id (hW2 c hc), if_neg h]
      cases hs : statusOfList st.db.card_state c.id with
      | none => rfl
      | some s0 =>
        by_cases hcond2 : (s0 = Status.active ∨ s0 = Status.inactive) ∧
            inScope ss sp c.source_path = true
        · simp [Option.filter, hcond2, h]
        · simp [Option.filter, hcond2]
  · rw [List.filterMap_cons]
    have hst3 : statusOfList ((st.db.card_state.map (fun s =>
          if s.card_id = row.id then { s with status := Status.deleted, updated_at := now }
          else s)) ++ [⟨st.db.next_id, replStatus row.status, now⟩])
        (newCardRow now st.db.next_id t card chash).id = some (replStatus row.status) := by
      rw [show (newCardRow now st.db.next_id t card chash).id = st.db.next_id from rfl]
      rw [statusOfList_append_of_none]
      · unfold statusOfList
        simp [List.find?]
      · apply statusOfList_eq_none
        intro s hs
        rw [List.mem_map] at hs
        obtain ⟨s0, hs0, hseq⟩ := hs
        have hid : s.card_id = s0.card_id := by
          rw [← hseq]
          by_cases hh : s0.card_id = row.id
          · rw [if_pos hh]
          · rw [if_neg hh]
        rw [hid]
        exact Nat.ne_of_lt (hW4 s0 hs0)
    unfold eProj
    rw [hst3]
    simp [replStatus_live row.status, hscope, newCardRow]

theorem statusOfList_append_fresh (l r : List StateRow) (i : Nat)
    (h : ∀ s ∈ r, s.card_id ≠ i) : statusOfList (l ++ r) i = statusOfList l i := by
  unfold statusOfList
  rw [List.find?_append]
  cases hf : l.find? (fun s => s.card_id == i) with
  | none =>
    simp only [Option.none_or]
    rw [List.find?_eq_none.mpr (by
      intro s hs hc
      exact h s hs (by simpa using hc))]
  | some s => rfl

theorem E_insert {σ : Type} (now : String) (sched : Option (Scheduler σ))
    (susp : List (String × Bool)) (ss : List String) (sp : List (String × Bool))
    (st : SyncSt σ) (t : Triple) (card : Card) (chash : String)
    (hW2 : ∀ c ∈ st.db.cards, c.id < st.db.next_id)
    (hW4 : ∀ s ∈ st.db.card_state, s.card_id < st.db.next_id)
    (hscope : inScope ss sp t.1 = true) :
    existingRows ss sp (processInsert now sched susp st t card chash).db =
      existingRows ss sp st.db ++
        [⟨st.db.next_id, t.1, t.2.1, t.2.2, chash, statusSusp susp t.1⟩] := by
  obtain ⟨hcards, hstate, _, _, _, _, _, _, _⟩ :=
    processInsert_spec now sched susp st t card chash
  rw [existingRows_eq_filterMap, hcards, hstate]
  rw [List.filterMap_append]
  congr 1
  · rw [existingRows_eq_filterMap]
    apply List.filterMap_congr
    intro c hc
    unfold eProj
    rw [statusOfList_append_fresh]
    intro s hs
    rw [List.mem_singleton] at hs
    subst hs
    intro hh
    exact absurd hh.symm (Nat.ne_of_lt (hW2 c hc))
  · rw [List.filterMap_cons]
    have hst3 : statusOfList (st.db.card_state ++
          [⟨st.db.next_id,
            if alLookup t.1 susp = some true then Status.inactive else Status.active,
            now⟩])
        (newCardRow now st.db.next_id t card chash).id =
        some (statusSusp susp t.1) := by
      rw [show (newCardRow now st.db.next_id t card chash).id = st.db.next_id from rfl]
      rw [statusOfList_append_of_none]
      · unfold statusOfList statusSusp
        simp [List.find?]
      · apply statusOfList_eq_none
        intro s hs
        exact Nat.ne_of_lt (hW4 s hs)
    unfold eProj
    rw [hst3]
    simp [statusSusp_live susp t.1, hscope, newCardRow]

theorem E_sweep {σ : Type} (now : String) (sched : Option (Scheduler σ))
    (ss : List String) (sp : List (String × Bool)) (st : SyncSt σ)
    (kv : Triple × ExistRow) :
    existingRows ss sp (sweepCard now sched st kv).db =
      (existingRows ss sp st.db).filter (fun r => !(r.id == kv.2.id)) := by
  obtain ⟨hdb, _, _⟩ := sweepCard_spec now sched st kv
  have hcardsw : (sweepCard now sched st kv).db.cards = st.db.cards := by rw [hdb]
  have hstatew : (sweepCard now sched st kv).db.card_state =
      st.db.card_state.map (fun s =>
        if s.card_id = kv.2.id then { s with status := Status.deleted, updated_at := now }
        else s) := by rw [hdb]
  rw [existingRows_eq_filterMap, hcardsw, hstatew]
  rw [existingRows_eq_filterMap, List.filter_filterMap]
  apply List.filterMap_congr
  intro c hc
  by_cases h : c.id = kv.2.id
  · unfold eProj
    rw [h, statusOfList_set_self]
    cases hs : statusOfList st.db.card_state kv.2.id with
    | none => rfl
    | some s0 =>
      by_cases hcond2 : (s0 = Status.active ∨ s0 = Status.inactive) ∧
          inScope ss sp c.source_path = true
      · simp [Option.filter, hcond2, h]
      · simp [Option.filter, hcond2]
  · unfold eProj
    rw [statusOfList_set_ne _ _ _ _ h]
    cases hs : statusOfList st.db.card_state c.id with
    | none => rfl
    | some s0 =>
      by_cases hcond2 : (s0 = Status.active ∨ s0 = Status.inactive) ∧
          inScope ss sp c.source_path = true
      · simp [Option.filter, hcond2, h]
      · simp [Option.filter, hcond2]

/-! ### Claims C2 and C4: the synchronizer characterization

The per-key outcome of one `sync_cards` run, proved by induction over the
per-card loop and the deletion sweep, under the well-formedness the database
schema enforces (AUTOINCREMENT ids, `card_state` primary key, the UNIQUE
constraint on `(source_path, card_key, adapter)` restricted to the live
in-scope rows the synchronizer queries). -/

def unKey (hashFn : String → String) (E : List ExistRow) (kv : Triple × Card) : Bool :=
  match matchRow E kv.1 with
  | some r0 => r0.content_hash == hashFn kv.2.content
  | none => false

def repKey (hashFn : String → String) (E : List ExistRow) (kv : Triple × Card) : Bool :=
  match matchRow E kv.1 with
  | some r0 => !(r0.content_hash == hashFn kv.2.content)
  | none => false

def newKey (E : List ExistRow) (kv : Triple × Card) : Bool :=
  (matchRow E kv.1).isNone

theorem E_ids_nodup (ss : List String) (sp : List (String × Bool)) {D : Catalog}
    (hW1 : (D.cards.map CardRow.id).Nodup) :
    ((existingRows ss sp D).map ExistRow.id).Nodup :=
  (existingRows_ids_sublist ss sp D).nodup hW1

theorem processFold_char {σ : Type} (hashFn : String → String) (now : String)
    (sched : Option (Scheduler σ)) (susp : List (String × Bool))
    (ss : List String) (sp : List (String × Bool)) :
    ∀ (ks : List (Triple × Card)) (st : SyncSt σ),
      (ks.map Prod.fst).Nodup →
      (∀ kv ∈ ks, inScope ss sp kv.1.1 = true) →
      (∀ kv ∈ ks, (existingRows ss sp st.db).filter (fun r => eKey r == kv.1) =
        (alLookup kv.1 st.emap).toList) →
      ((st.db.cards.map CardRow.id).Nodup) →
      (∀ c ∈ st.db.cards, c.id < st.db.next_id) →
      (∀ s ∈ st.db.card_state, s.card_id < st.db.next_id) →
      (((ks.foldl (processCard hashFn now sched susp) st).db.cards.map CardRow.id).Nodup ∧
       (∀ c ∈ (ks.foldl (processCard hashFn now sched susp) st).db.cards,
          c.id < (ks.foldl (processCard hashFn now sched susp) st).db.next_id) ∧
       (∀ s ∈ (ks.foldl (processCard hashFn now sched susp) st).db.card_state,
          s.card_id < (ks.foldl (processCard hashFn now sched susp) st).db.next_id) ∧
       st.db.next_id ≤ (ks.foldl (processCard hashFn now sched susp) st).db.next_id ∧
       (∀ t : Triple, t ∉ ks.map Prod.fst →
         (existingRows ss sp (ks.foldl (processCard hashFn now sched susp) st).db).filter
             (fun r => eKey r == t) =
           (existingRows ss sp st.db).filter (fun r => eKey r == t)) ∧
       ((ks.foldl (processCard hashFn now sched susp) st).emap =
         st.emap.filter (fun kv => decide (kv.1 ∉ ks.map Prod.fst))) ∧
       (∀ kv ∈ ks,
         match matchRow (existingRows ss sp st.db) kv.1 with
         | some r0 =>
           if r0.content_hash = hashFn kv.2.content then
             (existingRows ss sp (ks.foldl (processCard hashFn now sched susp) st).db).filter
                 (fun r => eKey r == kv.1) = [r0]
           else ∃ i, st.db.next_id ≤ i ∧
             (existingRows ss sp (ks.foldl (processCard hashFn now sched susp) st).db).filter
                 (fun r => eKey r == kv.1) =
               [⟨i, kv.1.1, kv.1.2.1, kv.1.2.2, hashFn kv.2.content, replStatus r0.status⟩]
         | none => ∃ i, st.db.next_id ≤ i ∧
             (existingRows ss sp (ks.foldl (processCard hashFn now sched susp) st).db).filter
                 (fun r => eKey r == kv.1) =
               [⟨i, kv.1.1, kv.1.2.1, kv.1.2.2, hashFn kv.2.content,
                 statusSusp susp kv.1.1⟩]) ∧
       ((ks.foldl (processCard hashFn now sched susp) st).stats =
         { new := st.stats.new +
             (ks.filter (newKey (existingRows ss sp st.db))).length,
           updated := st.stats.updated +
             (ks.filter (repKey hashFn (existingRows ss sp st.db))).length,
           deleted := st.stats.deleted,
           unchanged := st.stats.unchanged +
             (ks.filter (unKey hashFn (existingRows ss sp st.db))).length })) := by
  intro ks
  induction ks with
  | nil =>
    intro st _ _ _ hW1 hW2 hW4
    refine ⟨hW1, hW2, hW4, Nat.le_refl _, ?_, ?_, ?_, ?_⟩
    · intro t _; rfl
    · simp
    · intro kv hkv; exact absurd hkv (List.not_mem_nil kv)
    · simp [unKey, repKey, newKey]
  | cons kv0 ktl ih =>
    intro st hK hsrc hACC hW1 hW2 hW4
    obtain ⟨t0, card0⟩ := kv0
    rw [List.map_cons, List.nodup_cons] at hK
    have hsrc0 : inScope ss sp t0.1 = true := hsrc (t0, card0) (List.mem_cons_self _ _)
    have hACC0 := hACC (t0, card0) (List.mem_cons_self _ _)
    rw [List.foldl_cons]
    cases hlk : alLookup t0 st.emap with
    | some row =>
      have hrowE : (existingRows ss sp st.db).filter (fun r => eKey r == t0) = [row] := by
        rw [hACC0, hlk]
        rfl
      have hrowmem : row ∈ existingRows ss sp st.db := by
        have hm : row ∈ (existingRows ss sp st.db).filter (fun r => eKey r == t0) := by
          rw [hrowE]
          exact List.mem_singleton.mpr rfl
        exact List.mem_of_mem_filter hm
      have hrowkey : eKey row = t0 := by
        have hm : row ∈ (existingRows ss sp st.db).filter (fun r => eKey r == t0) := by
          rw [hrowE]
          exact List.mem_singleton.mpr rfl
        simpa using List.of_mem_filter hm
      have hrowid_lt : row.id < st.db.next_id := by
        obtain ⟨_, hmem, _, _⟩ := mem_existingRows hrowmem
        rw [List.mem_map] at hmem
        obtain ⟨c, hc, hcid⟩ := hmem
        rw [← hcid]
        exact hW2 c hc
      have hmatch0 : matchRow (existingRows ss sp st.db) t0 = some row := by
        unfold matchRow
        rw [hrowE]
        rfl
      by_cases hhash : row.content_hash = hashFn card0.content
      · -- unchanged branch
        rw [processCard_unchanged_eq hashFn now sched susp st card0 hlk hhash]
        have hspec := processUnchanged_spec st t0 card0 row
        have hE' : existingRows ss sp (processUnchanged st t0 card0 row).db =
            existingRows ss sp st.db := E_unchanged ss sp st t0 card0 row
        have hcards' : (processUnchanged st t0 card0 row).db.cards.map CardRow.id =
            st.db.cards.map CardRow.id := by
          rw [hspec]
          simp only
          rw [List.map_map]
          apply List.map_congr_left
          intro c _
          by_cases h : c.id = row.id
          · simp [Function.comp, h]
          · simp [Function.comp, h]
        have hnext' : (processUnchanged st t0 card0 row).db.next_id = st.db.next_id := by
          rw [hspec]
        have hstate' : (processUnchanged st t0 card0 row).db.card_state =
            st.db.card_state := by
          rw [hspec]
        have hemap' : (processUnchanged st t0 card0 row).emap = alErase t0 st.emap := by
          rw [hspec]
        have hstats' : (processUnchanged st t0 card0 row).stats =
            { st.stats with unchanged := st.stats.unchanged + 1 } := by
          rw [hspec]
        have hACCtl : ∀ kv ∈ ktl,
            (existingRows ss sp (processUnchanged st t0 card0 row).db).filter
                (fun r => eKey r == kv.1) =
              (alLookup kv.1 (processUnchanged st t0 card0 row).emap).toList := by
          intro kv hkv
          have hne : kv.1 ≠ t0 := fun hh =>
            hK.1 (hh ▸ (List.mem_map.mpr ⟨kv, hkv, rfl⟩))
          rw [hE', hemap', alLookup_alErase_ne st.emap hne]
          exact hACC kv (List.mem_cons_of_mem _ hkv)
        obtain ⟨iW1, iW2, iW4, inext, iframe, iemap, ioutcome, istats⟩ :=
          ih (processUnchanged st t0 card0 row) hK.2
            (fun kv hkv => hsrc kv (List.mem_cons_of_mem _ hkv)) hACCtl
            (by rw [hcards']; exact hW1)
            (by
              intro c hc
              rw [hnext']
              have hid : c.id ∈ st.db.cards.map CardRow.id := by
                rw [← hcards']
                exact List.mem_map.mpr ⟨c, hc, rfl⟩
              rw [List.mem_map] at hid
              obtain ⟨c0, hc0, he⟩ := hid
              rw [← he]
              exact hW2 c0 hc0)
            (by
              intro s2 hs2
              rw [hnext']
              rw [hstate'] at hs2
              exact hW4 s2 hs2)
        refine ⟨iW1, iW2, iW4, ?_, ?_, ?_, ?_, ?_⟩
        · rw [← hnext']
          exact inext
        · intro t ht
          rw [List.map_cons, List.mem_cons] at ht
          push_neg at ht
          rw [iframe t ht.2, hE']
        · rw [iemap, hemap', alErase_eq_filter, List.filter_filter]
          apply List.filter_congr
          intro kv _
          by_cases h1 : kv.1 = t0
          · by_cases h2 : kv.1 ∈ ktl.map Prod.fst <;> simp [h1, h2, beq_self_eq_true']
          · by_cases h2 : kv.1 ∈ ktl.map Prod.fst <;>
              (simp [h1, h2]; try exact decide_eq_false h1)
        · intro kv hkv
          rcases List.mem_cons.mp hkv with rfl | hkv
          · rw [hmatch0]
            simp only [if_pos hhash]
            rw [iframe t0 hK.1, hE']
            exact hrowE
          · have := ioutcome kv hkv
            rw [hE', hnext'] at this
            exact this
        · rw [istats, hstats', hE']
          have hun : unKey hashFn (existingRows ss sp st.db) (t0, card0) = true := by
            unfold unKey
            rw [hmatch0]
            simpa using hhash
          have hrep : repKey hashFn (existingRows ss sp st.db) (t0, card0) = false := by
            unfold repKey
            rw [hmatch0]
            simpa using hhash
          have hnew : newKey (existingRows ss sp st.db) (t0, card0) = false := by
            unfold newKey
            rw [hmatch0]
            rfl
          rw [List.filter_cons, List.filter_cons, List.filter_cons, hun, hrep, hnew]
          simp only [if_true, if_false, List.length_cons]
          simp only [Stats.mk.injEq]
          and_intros <;> first | trivial | omega
      · -- replace branch
        rw [processCard_replace_eq hashFn now sched susp st card0 hlk hhash]
        have hEids := E_ids_nodup ss sp hW1
        have hE' := E_replace now sched ss sp st t0 card0 (hashFn card0.content) row
          hW2 hW4 hsrc0
        obtain ⟨hcards, hstate, _, _, _, _, hnext', hstats', hemap'⟩ :=
          processReplace_spec now sched st t0 card0 (hashFn card0.content) row
        have hcards' : (processReplace now sched st t0 card0 (hashFn card0.content)
            row).db.cards.map CardRow.id = st.db.cards.map CardRow.id ++ [st.db.next_id] := by
          rw [hcards, List.map_append, List.map_map]
          congr 1
          apply List.map_congr_left
          intro c _
          by_cases h : c.id = row.id
          · simp [Function.comp, h]
          · simp [Function.comp, h]
        have hekeynew : eKey ⟨st.db.next_id, t0.1, t0.2.1, t0.2.2,
            hashFn card0.content, replStatus row.status⟩ = t0 := rfl
        have hframe0 : ∀ t' : Triple, t' ≠ t0 →
            (existingRows ss sp (processReplace now sched st t0 card0
                (hashFn card0.content) row).db).filter (fun r => eKey r == t') =
              (existingRows ss sp st.db).filter (fun r => eKey r == t') := by
          intro t' hne
          rw [hE', List.filter_append]
          have h2 : ([(⟨st.db.next_id, t0.1, t0.2.1, t0.2.2, hashFn card0.content,
              replStatus row.status⟩ : ExistRow)].filter (fun r => eKey r == t')) = [] := by
            rw [List.filter_eq_nil_iff]
            intro a ha hc
            rw [List.mem_singleton] at ha
            subst ha
            rw [hekeynew] at hc
            exact hne (Eq.symm (by simpa using hc))
          rw [h2, List.append_nil, List.filter_comm]
          apply List.filter_eq_self.mpr
          intro r hr
          have hrk : eKey r = t' := by simpa using List.of_mem_filter hr
          have hrE : r ∈ existingRows ss sp st.db := List.mem_of_mem_filter hr
          have hrne : ¬ (r.id = row.id) := by
            intro hid
            have : r = row := List.inj_on_of_nodup_map hEids hrE hrowmem hid
            exact hne (by rw [← hrk, this, hrowkey])
          simpa using hrne
        have hcur' : (existingRows ss sp (processReplace now sched st t0 card0
            (hashFn card0.content) row).db).filter (fun r => eKey r == t0) =
            [⟨st.db.next_id, t0.1, t0.2.1, t0.2.2, hashFn card0.content,
              replStatus row.status⟩] := by
          rw [hE', List.filter_append]
          have h2 : ([(⟨st.db.next_id, t0.1, t0.2.1, t0.2.2, hashFn card0.content,
              replStatus row.status⟩ : ExistRow)].filter (fun r => eKey r == t0)) =
              [⟨st.db.next_id, t0.1, t0.2.1, t0.2.2, hashFn card0.content,
                replStatus row.status⟩] := by
            rw [List.filter_eq_self]
            intro a ha
            rw [List.mem_singleton] at ha
            subst ha
            rw [hekeynew]
            simp
          rw [h2, List.filter_comm, hrowE]
          rw [show ([row].filter (fun r => !(r.id == row.id))) = [] from by simp]
          rfl
        have hACCtl : ∀ kv ∈ ktl,
            (existingRows ss sp (processReplace now sched st t0 card0
                (hashFn card0.content) row).db).filter (fun r => eKey r == kv.1) =
              (alLookup kv.1 (processReplace now sched st t0 card0
                (hashFn card0.content) row).emap).toList := by
          intro kv hkv
          have hne : kv.1 ≠ t0 := fun hh =>
            hK.1 (hh ▸ (List.mem_map.mpr ⟨kv, hkv, rfl⟩))
          rw [hframe0 kv.1 hne, hemap', alLookup_alErase_ne st.emap hne]
          exact hACC kv (List.mem_cons_of_mem _ hkv)
        obtain ⟨iW1, iW2, iW4, inext, iframe, iemap, ioutcome, istats⟩ :=
          ih (processReplace now sched st t0 card0 (hashFn card0.content) row) hK.2
            (fun kv hkv => hsrc kv (List.mem_cons_of_mem _ hkv)) hACCtl
            (by
              rw [hcards', List.nodup_append]
              refine ⟨hW1, List.nodup_singleton _, ?_⟩
              intro a ha hb
              rw [List.mem_singleton] at hb
              subst hb
              rw [List.mem_map] at ha
              obtain ⟨c, hc, he⟩ := ha
              exact absurd he (Nat.ne_of_lt (hW2 c hc)))
            (by
              intro c hc
              rw [hnext']
              have hid : c.id ∈ st.db.cards.map CardRow.id ++ [st.db.next_id] := by
                rw [← hcards']
                exact List.mem_map.mpr ⟨c, hc, rfl⟩
              rw [List.mem_append] at hid
              rcases hid with hid | hid
              · rw [List.mem_map] at hid
                obtain ⟨c0, hc0, he⟩ := hid
                rw [← he]
                exact Nat.lt_succ_of_lt (hW2 c0 hc0)
              · rw [List.mem_singleton] at hid
                rw [hid]
                exact Nat.lt_succ_self _)
            (by
              intro s2 hs2
              rw [hnext']
              rw [hstate, List.mem_append] at hs2
              rcases hs2 with hs2 | hs2
              · rw [List.mem_map] at hs2
                obtain ⟨s0, hs0, he⟩ := hs2
                have : s2.card_id = s0.card_id := by
                  rw [← he]
                  by_cases hh : s0.card_id = row.id
                  · rw [if_pos hh]
                  · rw [if_neg hh]
                rw [this]
                exact Nat.lt_succ_of_lt (hW4 s0 hs0)
              · rw [List.mem_singleton] at hs2
                rw [hs2]
                exact Nat.lt_succ_self _)
        refine ⟨iW1, iW2, iW4, ?_, ?_, ?_, ?_, ?_⟩
        · refine Nat.le_trans ?_ inext
          rw [hnext']
          exact Nat.le_succ _
        · intro t ht
          rw [List.map_cons, List.mem_cons] at ht
          push_neg at ht
          rw [iframe t ht.2, hframe0 t ht.1]
        · rw [iemap, hemap', alErase_eq_filter, List.filter_filter]
          apply List.filter_congr
          intro kv _
          by_cases h1 : kv.1 = t0
          · by_cases h2 : kv.1 ∈ ktl.map Prod.fst <;> simp [h1, h2, beq_self_eq_true']
          · by_cases h2 : kv.1 ∈ ktl.map Prod.fst <;>
              (simp [h1, h2]; try exact decide_eq_false h1)
        · intro kv hkv
          rcases List.mem_cons.mp hkv with rfl | hkv
          · rw [hmatch0]
            simp only [if_neg hhash]
            refine ⟨st.db.next_id, Nat.le_refl _, ?_⟩
            rw [iframe t0 hK.1]
            exact hcur'
          · have := ioutcome kv hkv
            have hne : kv.1 ≠ t0 := fun hh =>
              hK.1 (hh ▸ (List.mem_map.mpr ⟨kv, hkv, rfl⟩))
            have hmr : matchRow (existingRows ss sp (processReplace now sched st t0
                card0 (hashFn card0.content) row).db) kv.1 =
                matchRow (existingRows ss sp st.db) kv.1 := by
              unfold matchRow
              rw [hframe0 kv.1 hne]
            rw [hmr, hnext'] at this
            cases hmc : matchRow (existingRows ss sp st.db) kv.1 with
            | some r0 =>
              rw [hmc] at this
              simp only at this ⊢
              by_cases hh : r0.content_hash = hashFn kv.2.content
              · rw [if_pos hh] at this ⊢
                exact this
              · rw [if_neg hh] at this ⊢
                obtain ⟨i, hi, he⟩ := this
                exact ⟨i, Nat.le_trans (Nat.le_succ _) hi, he⟩
            | none =>
              rw [hmc] at this
              simp only at this ⊢
              obtain ⟨i, hi, he⟩ := this
              exact ⟨i, Nat.le_trans (Nat.le_succ _) hi, he⟩
        · rw [istats, hstats']
          have hun : unKey hashFn (existingRows ss sp st.db) (t0, card0) = false := by
            unfold unKey
            rw [hmatch0]
            simpa using hhash
          have hrep : repKey hashFn (existingRows ss sp st.db) (t0, card0) = true := by
            unfold repKey
            rw [hmatch0]
            simpa using hhash
          have hnew : newKey (existingRows ss sp st.db) (t0, card0) = false := by
            unfold newKey
            rw [hmatch0]
            rfl
          have hcong : ∀ f : (Triple × Card) → Bool,
              (∀ kv ∈ ktl, f kv = true ↔ unKey hashFn (existingRows ss sp st.db) kv) →
              True := fun _ _ => trivial
          have hfilters : ∀ kv ∈ ktl,
              (unKey hashFn (existingRows ss sp (processReplace now sched st t0 card0
                (hashFn card0.content) row).db) kv =
                unKey hashFn (existingRows ss sp st.db) kv) ∧
              (repKey hashFn (existingRows ss sp (processReplace now sched st t0 card0
                (hashFn card0.content) row).db) kv =
                repKey hashFn (existingRows ss sp st.db) kv) ∧
              (newKey (existingRows ss sp (processReplace now sched st t0 card0
                (hashFn card0.content) row).db) kv =
                newKey (existingRows ss sp st.db) kv) := by
            intro kv hkv
            have hne : kv.1 ≠ t0 := fun hh =>
              hK.1 (hh ▸ (List.mem_map.mpr ⟨kv, hkv, rfl⟩))
            have hmr : matchRow (existingRows ss sp (processReplace now sched st t0
                card0 (hashFn card0.content) row).db) kv.1 =
                matchRow (existingRows ss sp st.db) kv.1 := by
              unfold matchRow
              rw [hframe0 kv.1 hne]
            unfold unKey repKey newKey
            rw [hmr]
            exact ⟨rfl, rfl, rfl⟩
          rw [List.filter_congr (fun kv hkv => (hfilters kv hkv).1),
            List.filter_congr (fun kv hkv => (hfilters kv hkv).2.1),
            List.filter_congr (fun kv hkv => (hfilters kv hkv).2.2)]
          rw [List.filter_cons, List.filter_cons, List.filter_cons, hun, hrep, hnew]
          simp only [if_true, if_false, List.length_cons]
          simp only [Stats.mk.injEq]
          and_intros <;> first | trivial | omega
    | none =>
      have hE0 : (existingRows ss sp st.db).filter (fun r => eKey r == t0) = [] := by
        rw [hACC0, hlk]
        rfl
      have hmatch0 : matchRow (existingRows ss sp st.db) t0 = none := by
        unfold matchRow
        rw [hE0]
        rfl
      rw [processCard_insert_eq hashFn now sched susp st card0 hlk]
      have hE' := E_insert now sched susp ss sp st t0 card0 (hashFn card0.content)
        hW2 hW4 hsrc0
      obtain ⟨hcards, hstate, _, _, _, _, hnext', hstats', hemap'⟩ :=
        processInsert_spec now sched susp st t0 card0 (hashFn card0.content)
      have hcards' : (processInsert now sched susp st t0 card0
          (hashFn card0.content)).db.cards.map CardRow.id =
          st.db.cards.map CardRow.id ++ [st.db.next_id] := by
        rw [hcards, List.map_append]
        rfl
      have hekeynew : eKey ⟨st.db.next_id, t0.1, t0.2.1, t0.2.2,
          hashFn card0.content, statusSusp susp t0.1⟩ = t0 := rfl
      have hframe0 : ∀ t' : Triple, t' ≠ t0 →
          (existingRows ss sp (processInsert now sched susp st t0 card0
              (hashFn card0.content)).db).filter (fun r => eKey r == t') =
            (existingRows ss sp st.db).filter (fun r => eKey r == t') := by
        intro t' hne
        rw [hE', List.filter_append]
        have h2 : ([(⟨st.db.next_id, t0.1, t0.2.1, t0.2.2, hashFn card0.content,
            statusSusp susp t0.1⟩ : ExistRow)].filter (fun r => eKey r == t')) = [] := by
          rw [List.filter_eq_nil_iff]
          intro a ha hc
          rw [List.mem_singleton] at ha
          subst ha
          rw [hekeynew] at hc
          exact hne (Eq.symm (by simpa using hc))
        rw [h2, List.append_nil]
      have hcur' : (existingRows ss sp (processInsert now sched susp st t0 card0
          (hashFn card0.content)).db).filter (fun r => eKey r == t0) =
          [⟨st.db.next_id, t0.1, t0.2.1, t0.2.2, hashFn card0.content,
            statusSusp susp t0.1⟩] := by
        rw [hE', List.filter_append, hE0]
        rw [show ([(⟨st.db.next_id, t0.1, t0.2.1, t0.2.2, hashFn card0.content,
            statusSusp susp t0.1⟩ : ExistRow)].filter (fun r => eKey r == t0)) =
            [⟨st.db.next_id, t0.1, t0.2.1, t0.2.2, hashFn card0.content,
              statusSusp susp t0.1⟩] from by
          rw [List.filter_eq_self]
          intro a ha
          rw [List.mem_singleton] at ha
          subst ha
          rw [hekeynew]
          simp]
        rfl
      have hACCtl : ∀ kv ∈ ktl,
          (existingRows ss sp (processInsert now sched susp st t0 card0
              (hashFn card0.content)).db).filter (fun r => eKey r == kv.1) =
            (alLookup kv.1 (processInsert now sched susp st t0 card0
              (hashFn card0.content)).emap).toList := by
        intro kv hkv
        have hne : kv.1 ≠ t0 := fun hh =>
          hK.1 (hh ▸ (List.mem_map.mpr ⟨kv, hkv, rfl⟩))
        rw [hframe0 kv.1 hne, hemap']
        exact hACC kv (List.mem_cons_of_mem _ hkv)
      obtain ⟨iW1, iW2, iW4, inext, iframe, iemap, ioutcome, istats⟩ :=
        ih (processInsert now sched susp st t0 card0 (hashFn card0.content)) hK.2
          (fun kv hkv => hsrc kv (List.mem_cons_of_mem _ hkv)) hACCtl
          (by
            rw [hcards', List.nodup_append]
            refine ⟨hW1, List.nodup_singleton _, ?_⟩
            intro a ha hb
            rw [List.mem_singleton] at hb
            subst hb
            rw [List.mem_map] at ha
            obtain ⟨c, hc, he⟩ := ha
            exact absurd he (Nat.ne_of_lt (hW2 c hc)))
          (by
            intro c hc
            rw [hnext']
            have hid : c.id ∈ st.db.cards.map CardRow.id ++ [st.db.next_id] := by
              rw [← hcards']
              exact List.mem_map.mpr ⟨c, hc, rfl⟩
            rw [List.mem_append] at hid
            rcases hid with hid | hid
            · rw [List.mem_map] at hid
              obtain ⟨c0, hc0, he⟩ := hid
              rw [← he]
              exact Nat.lt_succ_of_lt (hW2 c0 hc0)
            · rw [List.mem_singleton] at hid
              rw [hid]
              exact Nat.lt_succ_self _)
          (by
            intro s2 hs2
            rw [hnext']
            rw [hstate, List.mem_append] at hs2
            rcases hs2 with hs2 | hs2
            · exact Nat.lt_succ_of_lt (hW4 s2 hs2)
            · rw [List.mem_singleton] at hs2
              rw [hs2]
              exact Nat.lt_succ_self _)
      refine ⟨iW1, iW2, iW4, ?_, ?_, ?_, ?_, ?_⟩
      · refine Nat.le_trans ?_ inext
        rw [hnext']
        exact Nat.le_succ _
      · intro t ht
        rw [List.map_cons, List.mem_cons] at ht
        push_neg at ht
        rw [iframe t ht.2, hframe0 t ht.1]
      · rw [iemap, hemap']
        apply List.filter_congr
        intro kv hkv
        have hknot : kv.1 ≠ t0 := by
          intro hh
          have := (alLookup_eq_none_iff t0 st.emap).mp hlk
          exact this (hh ▸ List.mem_map.mpr ⟨kv, hkv, rfl⟩)
        by_cases h2 : kv.1 ∈ ktl.map Prod.fst <;> simp [hknot, h2]
      · intro kv hkv
        rcases List.mem_cons.mp hkv with rfl | hkv
        · rw [hmatch0]
          simp only
          refine ⟨st.db.next_id, Nat.le_refl _, ?_⟩
          rw [iframe t0 hK.1]
          exact hcur'
        · have := ioutcome kv hkv
          have hne : kv.1 ≠ t0 := fun hh =>
            hK.1 (hh ▸ (List.mem_map.mpr ⟨kv, hkv, rfl⟩))
          have hmr : matchRow (existingRows ss sp (processInsert now sched susp st t0
              card0 (hashFn card0.content)).db) kv.1 =
              matchRow (existingRows ss sp st.db) kv.1 := by
            unfold matchRow
            rw [hframe0 kv.1 hne]
          rw [hmr, hnext'] at this
          cases hmc : matchRow (existingRows ss sp st.db) kv.1 with
          | some r0 =>
            rw [hmc] at this
            simp only at this ⊢
            by_cases hh : r0.content_hash = hashFn kv.2.content
            · rw [if_pos hh] at this ⊢
              exact this
            · rw [if_neg hh] at this ⊢
              obtain ⟨i, hi, he⟩ := this
              exact ⟨i, Nat.le_trans (Nat.le_succ _) hi, he⟩
          | none =>
            rw [hmc] at this
            simp only at this ⊢
            obtain ⟨i, hi, he⟩ := this
            exact ⟨i, Nat.le_trans (Nat.le_succ _) hi, he⟩
      · rw [istats, hstats']
        have hun : unKey hashFn (existingRows ss sp st.db) (t0, card0) = false := by
          unfold unKey
          rw [hmatch0]
        have hrep : repKey hashFn (existingRows ss sp st.db) (t0, card0) = false := by
          unfold repKey
          rw [hmatch0]
        have hnew : newKey (existingRows ss sp st.db) (t0, card0) = true := by
          unfold newKey
          rw [hmatch0]
          rfl
        have hfilters : ∀ kv ∈ ktl,
            (unKey hashFn (existingRows ss sp (processInsert now sched susp st t0 card0
              (hashFn card0.content)).db) kv =
              unKey hashFn (existingRows ss sp st.db) kv) ∧
            (repKey hashFn (existingRows ss sp (processInsert now sched susp st t0 card0
              (hashFn card0.content)).db) kv =
              repKey hashFn (existingRows ss sp st.db) kv) ∧
            (newKey (existingRows ss sp (processInsert now sched susp st t0 card0
              (hashFn card0.content)).db) kv =
              newKey (existingRows ss sp st.db) kv) := by
          intro kv hkv
          have hne : kv.1 ≠ t0 := fun hh =>
            hK.1 (hh ▸ (List.mem_map.mpr ⟨kv, hkv, rfl⟩))
          have hmr : matchRow (existingRows ss sp (processInsert now sched susp st t0
              card0 (hashFn card0.content)).db) kv.1 =
              matchRow (existingRows ss sp st.db) kv.1 := by
            unfold matchRow
            rw [hframe0 kv.1 hne]
          unfold unKey repKey newKey
          rw [hmr]
          exact ⟨rfl, rfl, rfl⟩
        rw [List.filter_congr (fun kv hkv => (hfilters kv hkv).1),
          List.filter_congr (fun kv hkv => (hfilters kv hkv).2.1),
          List.filter_congr (fun kv hkv => (hfilters kv hkv).2.2)]
        rw [List.filter_cons, List.filter_cons, List.filter_cons, hun, hrep, hnew]
        simp only [if_true, if_false, List.length_cons]
        simp only [Stats.mk.injEq]
        and_intros <;> first | trivial | omega

theorem sweepFold_char {σ : Type} (now : String) (sched : Option (Scheduler σ))
    (ss : List String) (sp : List (String × Bool)) :
    ∀ (entries : List (Triple × ExistRow)) (st : SyncSt σ),
      (existingRows ss sp (entries.foldl (sweepCard now sched) st).db =
        (existingRows ss sp st.db).filter
          (fun r => decide (r.id ∉ entries.map (fun kv => kv.2.id)))) ∧
      (entries.foldl (sweepCard now sched) st).db.cards = st.db.cards ∧
      (entries.foldl (sweepCard now sched) st).db.next_id = st.db.next_id ∧
      ((entries.foldl (sweepCard now sched) st).db.card_state.map StateRow.card_id =
        st.db.card_state.map StateRow.card_id) ∧
      (entries.foldl (sweepCard now sched) st).stats =
        { st.stats with deleted := st.stats.deleted + entries.length } ∧
      (entries.foldl (sweepCard now sched) st).emap = st.emap := by
  intro entries
  induction entries with
  | nil =>
    intro st
    refine ⟨?_, rfl, rfl, rfl, ?_, rfl⟩
    · exact (List.filter_eq_self.mpr (fun r _ => by simp)).symm
    · show st.stats = _
      simp only [Stats.mk.injEq, List.length_nil]
      trivial
  | cons kv tl ih =>
    intro st
    rw [List.foldl_cons]
    obtain ⟨iE, icards, inext, istate, istats, iemap⟩ := ih (sweepCard now sched st kv)
    obtain ⟨hdb, hstats, hemap⟩ := sweepCard_spec now sched st kv
    have hcards : (sweepCard now sched st kv).db.cards = st.db.cards := by rw [hdb]
    have hnext : (sweepCard now sched st kv).db.next_id = st.db.next_id := by rw [hdb]
    have hstate : (sweepCard now sched st kv).db.card_state.map StateRow.card_id =
        st.db.card_state.map StateRow.card_id := by
      rw [hdb]
      simp only
      rw [List.map_map]
      apply List.map_congr_left
      intro s _
      by_cases h : s.card_id = kv.2.id
      · simp [Function.comp, h]
      · simp [Function.comp, h]
    refine ⟨?_, by rw [icards, hcards], by rw [inext, hnext],
      by rw [istate, hstate], ?_, by rw [iemap, hemap]⟩
    · rw [iE, E_sweep now sched ss sp st kv, List.filter_filter]
      apply List.filter_congr
      intro r _
      by_cases h1 : r.id = kv.2.id
      · simp [h1]
      · by_cases h2 : r.id ∈ tl.map (fun kv => kv.2.id) <;> simp [h1, h2]
    · rw [istats, hstats]
      simp only [Stats.mk.injEq, List.length_cons]
      and_intros <;> first | trivial | omega

theorem foldl_alInsert_eq_map {V K : Type} [DecidableEq K] (keyOf : V → K) :
    ∀ (l : List V) (m : List (K × V)),
      (∀ r ∈ l, keyOf r ∉ m.map Prod.fst) → ((l.map keyOf).Nodup) →
      l.foldl (fun m r => alInsert (keyOf r) r m) m =
        m ++ l.map (fun r => (keyOf r, r)) := by
  intro l
  induction l with
  | nil => intro m _ _; simp
  | cons r tl ih =>
    intro m hfresh hnd
    rw [List.map_cons, List.nodup_cons] at hnd
    rw [List.foldl_cons]
    rw [alInsert_of_not_mem _ _ _ (hfresh r (List.mem_cons_self _ _))]
    rw [ih (m ++ [(keyOf r, r)]) ?_ hnd.2]
    · rw [List.map_cons, List.append_assoc]
      rfl
    · intro r2 hr2
      rw [List.map_append, List.mem_append]
      push_neg
      constructor
      · exact hfresh r2 (List.mem_cons_of_mem _ hr2)
      · intro hc
        simp only [List.map_cons, List.map_nil, List.mem_singleton] at hc
        exact hnd.1 (hc ▸ List.mem_map.mpr ⟨r2, hr2, rfl⟩)

theorem existingMapOf_eq (ss : List String) (sp : List (String × Bool)) (D : Catalog)
    (hPS : ((existingRows ss sp D).map eKey).Nodup) :
    existingMapOf ss sp D = (existingRows ss sp D).map (fun r => (eKey r, r)) := by
  unfold existingMapOf
  exact foldl_alInsert_eq_map eKey (existingRows ss sp D) [] (by simp) hPS

theorem eKey_filter_lookup :
    ∀ (l : List ExistRow), ((l.map eKey).Nodup) → ∀ (t : Triple),
      l.filter (fun r => eKey r == t) =
        (alLookup t (l.map (fun r => (eKey r, r)))).toList := by
  intro l
  induction l with
  | nil => intro _ t; rfl
  | cons r tl ih =>
    intro hnd t
    rw [List.map_cons, List.nodup_cons] at hnd
    by_cases h : eKey r = t
    · rw [List.filter_cons_of_pos (by simpa using h)]
      simp only [List.map_cons, alLookup, if_pos h]
      have ht : tl.filter (fun x => eKey x == t) = [] := by
        rw [List.filter_eq_nil_iff]
        intro a ha hc
        apply hnd.1
        rw [List.mem_map]
        exact ⟨a, ha, by rw [h]; simpa using hc⟩
      rw [ht]
      rfl
    · rw [List.filter_cons_of_neg (by simpa using h)]
      simp only [List.map_cons, alLookup, if_neg h]
      exact ih hnd.2 t

theorem emap0_ACC (ss : List String) (sp : List (String × Bool)) (D : Catalog)
    (hPS : ((existingRows ss sp D).map eKey).Nodup) (t : Triple) :
    (existingRows ss sp D).filter (fun r => eKey r == t) =
      (alLookup t (existingMapOf ss sp D)).toList := by
  rw [existingMapOf_eq ss sp D hPS]
  exact eKey_filter_lookup (existingRows ss sp D) hPS t

theorem scannedKeysOf_inner_nodup (sp2 ad : String) :
    ∀ (cards : List Card) (m : List (Triple × Card)), (alKeys m).Nodup →
      (alKeys (cards.foldl (fun m card => alInsert (sp2, card.key, ad) card m) m)).Nodup := by
  intro cards
  induction cards with
  | nil => intro m h; exact h
  | cons c tl ih =>
    intro m h
    rw [List.foldl_cons]
    exact ih _ (alKeys_alInsert_nodup _ _ h)

theorem scannedKeysOf_keys_nodup (R : List ScanResult) :
    (alKeys (scannedKeysOf R)).Nodup := by
  unfold scannedKeysOf
  have : ∀ (R2 : List ScanResult) (m : List (Triple × Card)), (alKeys m).Nodup →
      (alKeys (R2.foldl (fun m x =>
        match x with
        | (source_path, adapter_name, cards, _config) =>
          cards.foldl (fun m card =>
            alInsert (source_path, card.key, adapter_name) card m) m) m)).Nodup := by
    intro R2
    induction R2 with
    | nil => intro m h; exact h
    | cons x tl ih =>
      intro m h
      obtain ⟨sp2, ad, cards, cfg⟩ := x
      rw [List.foldl_cons]
      exact ih _ (scannedKeysOf_inner_nodup sp2 ad cards m h)
  exact this R [] (by simp [alKeys])

theorem scannedKeysOf_inner_src (sp2 ad : String) (S : List String) (hs : sp2 ∈ S) :
    ∀ (cards : List Card) (m : List (Triple × Card)), (∀ kv ∈ m, kv.1.1 ∈ S) →
      ∀ kv ∈ cards.foldl (fun m card => alInsert (sp2, card.key, ad) card m) m,
        kv.1.1 ∈ S := by
  intro cards
  induction cards with
  | nil => intro m h; exact h
  | cons c tl ih =>
    intro m h
    rw [List.foldl_cons]
    apply ih
    intro kv hkv
    rcases mem_alInsert hkv with hh | hh
    · rw [hh]
      exact hs
    · exact h kv hh

theorem scannedKeysOf_src (R : List ScanResult) :
    ∀ kv ∈ scannedKeysOf R, kv.1.1 ∈ scannedSourcesOf R := by
  unfold scannedKeysOf
  have : ∀ (R2 : List ScanResult) (S : List String) (m : List (Triple × Card)),
      (∀ x ∈ R2, x.1 ∈ S) → (∀ kv ∈ m, kv.1.1 ∈ S) →
      ∀ kv ∈ (R2.foldl (fun m x =>
        match x with
        | (source_path, adapter_name, cards, _config) =>
          cards.foldl (fun m card =>
            alInsert (source_path, card.key, adapter_name) card m) m) m),
        kv.1.1 ∈ S := by
    intro R2
    induction R2 with
    | nil => intro S m _ h; exact h
    | cons x tl ih =>
      intro S m hR h
      obtain ⟨sp2, ad, cards, cfg⟩ := x
      rw [List.foldl_cons]
      apply ih
      · intro y hy
        exact hR y (List.mem_cons_of_mem _ hy)
      · exact scannedKeysOf_inner_src sp2 ad S (hR _ (List.mem_cons_self _ _)) cards m h
  intro kv hkv
  refine this R (scannedSourcesOf R) [] ?_ (by simp) kv hkv
  intro x hx
  exact List.mem_map.mpr ⟨x, hx, rfl⟩

theorem inScope_of_mem_sources {ss : List String} (sp : List (String × Bool))
    {p : String} (h : p ∈ ss) : inScope ss sp p = true := by
  unfold inScope
  rw [Bool.or_eq_true]
  left
  simpa using h

theorem eKey_nodup_of_filter :
    ∀ (l : List ExistRow),
      (∀ t : Triple, (l.filter (fun r => eKey r == t)).length ≤ 1) →
      (l.map eKey).Nodup := by
  intro l
  induction l with
  | nil => intro _; simp
  | cons r tl ih =>
    intro h
    rw [List.map_cons, List.nodup_cons]
    constructor
    · intro hc
      rw [List.mem_map] at hc
      obtain ⟨a, ha, hae⟩ := hc
      have h1 := h (eKey r)
      rw [List.filter_cons_of_pos (by simp)] at h1
      have : a ∈ tl.filter (fun x => eKey x == eKey r) :=
        List.mem_filter.mpr ⟨ha, by simp [hae]⟩
      have h2 : 1 ≤ (tl.filter (fun x => eKey x == eKey r)).length :=
        List.length_pos.mpr (List.ne_nil_of_mem this)
      simp only [List.length_cons] at h1
      omega
    · apply ih
      intro t
      have h1 := h t
      rw [List.filter_cons] at h1
      by_cases hp : (eKey r == t) = true
      · rw [if_pos hp] at h1
        simp only [List.length_cons] at h1
        omega
      · rw [if_neg hp] at h1
        exact h1

theorem matchRow_mem {E : List ExistRow} {t : Triple} {r0 : ExistRow}
    (h : matchRow E t = some r0) : r0 ∈ E ∧ eKey r0 = t := by
  unfold matchRow at h
  have hmem : r0 ∈ E.filter (fun r => eKey r == t) :=
    List.mem_of_mem_head? (Option.mem_def.mpr h)
  exact ⟨List.mem_of_mem_filter hmem, by simpa using List.of_mem_filter hmem⟩

theorem sync_cards_char {σ : Type} (hashFn : String → String) (now : String)
    (sched : Option (Scheduler σ)) (sst : σ) (sp : List (String × Bool))
    (D : Catalog) (R : List ScanResult)
    (hW1 : (D.cards.map CardRow.id).Nodup)
    (hW2 : ∀ c ∈ D.cards, c.id < D.next_id)
    (hW4 : ∀ s ∈ D.card_state, s.card_id < D.next_id)
    (hPS : ((existingRows (scannedSourcesOf R) sp D).map eKey).Nodup) :
    (((sync_cards hashFn now D R sched sst sp).1.cards.map CardRow.id).Nodup ∧
     (∀ c ∈ (sync_cards hashFn now D R sched sst sp).1.cards,
        c.id < (sync_cards hashFn now D R sched sst sp).1.next_id) ∧
     (∀ s ∈ (sync_cards hashFn now D R sched sst sp).1.card_state,
        s.card_id < (sync_cards hashFn now D R sched sst sp).1.next_id) ∧
     (((existingRows (scannedSourcesOf R) sp
         (sync_cards hashFn now D R sched sst sp).1).map eKey).Nodup) ∧
     D.next_id ≤ (sync_cards hashFn now D R sched sst sp).1.next_id) ∧
    (∀ kv ∈ scannedKeysOf R,
      match matchRow (existingRows (scannedSourcesOf R) sp D) kv.1 with
      | some r0 =>
        if r0.content_hash = hashFn kv.2.content then
          (existingRows (scannedSourcesOf R) sp
              (sync_cards hashFn now D R sched sst sp).1).filter
              (fun r => eKey r == kv.1) = [r0]
        else ∃ i, D.next_id ≤ i ∧
          (existingRows (scannedSourcesOf R) sp
              (sync_cards hashFn now D R sched sst sp).1).filter
              (fun r => eKey r == kv.1) =
            [⟨i, kv.1.1, kv.1.2.1, kv.1.2.2, hashFn kv.2.content, replStatus r0.status⟩]
      | none => ∃ i, D.next_id ≤ i ∧
          (existingRows (scannedSourcesOf R) sp
              (sync_cards hashFn now D R sched sst sp).1).filter
              (fun r => eKey r == kv.1) =
            [⟨i, kv.1.1, kv.1.2.1, kv.1.2.2, hashFn kv.2.content,
              statusSusp (sourceSuspendedOf R) kv.1.1⟩]) ∧
    (∀ t : Triple, t ∉ (scannedKeysOf R).map Prod.fst →
      (existingRows (scannedSourcesOf R) sp
          (sync_cards hashFn now D R sched sst sp).1).filter
          (fun r => eKey r == t) = []) ∧
    ((sync_cards hashFn now D R sched sst sp).2.1 =
      { new := ((scannedKeysOf R).filter
            (newKey (existingRows (scannedSourcesOf R) sp D))).length,
        updated := ((scannedKeysOf R).filter
            (repKey hashFn (existingRows (scannedSourcesOf R) sp D))).length,
        deleted := ((existingRows (scannedSourcesOf R) sp D).filter
            (fun r => decide (eKey r ∉ (scannedKeysOf R).map Prod.fst))).length,
        unchanged := ((scannedKeysOf R).filter
            (unKey hashFn (existingRows (scannedSourcesOf R) sp D))).length }) := by
  have hEids := E_ids_nodup (scannedSourcesOf R) sp hW1
  obtain ⟨f1, f2, f4, fnext, fframe, femap, fout, fstats⟩ :=
    processFold_char hashFn now sched (sourceSuspendedOf R) (scannedSourcesOf R) sp
      (scannedKeysOf R)
      ⟨D, ⟨0, 0, 0, 0⟩, existingMapOf (scannedSourcesOf R) sp D, sst⟩
      (scannedKeysOf_keys_nodup R)
      (fun kv hkv => inScope_of_mem_sources sp (scannedKeysOf_src R kv hkv))
      (fun kv _ => emap0_ACC (scannedSourcesOf R) sp D hPS kv.1)
      hW1 hW2 hW4
  obtain ⟨sE, scards, snext, sstate, sstats, semap⟩ :=
    sweepFold_char now sched (scannedSourcesOf R) sp
      ((scannedKeysOf R).foldl (processCard hashFn now sched (sourceSuspendedOf R)) ⟨D, ⟨0, 0, 0, 0⟩, existingMapOf (scannedSourcesOf R) sp D, sst⟩).emap
      (⟨((scannedKeysOf R).foldl (processCard hashFn now sched (sourceSuspendedOf R)) ⟨D, ⟨0, 0, 0, 0⟩, existingMapOf (scannedSourcesOf R) sp D, sst⟩).db, ((scannedKeysOf R).foldl (processCard hashFn now sched (sourceSuspendedOf R)) ⟨D, ⟨0, 0, 0, 0⟩, existingMapOf (scannedSourcesOf R) sp D, sst⟩).stats, ([] : List (Triple × ExistRow)), ((scannedKeysOf R).foldl (processCard hashFn now sched (sourceSuspendedOf R)) ⟨D, ⟨0, 0, 0, 0⟩, existingMapOf (scannedSourcesOf R) sp D, sst⟩).sched_st⟩ : SyncSt σ)
  obtain ⟨rels, hrels⟩ := sync_relations_eq
    (((scannedKeysOf R).foldl (processCard hashFn now sched (sourceSuspendedOf R)) ⟨D, ⟨0, 0, 0, 0⟩, existingMapOf (scannedSourcesOf R) sp D, sst⟩).emap.foldl (sweepCard now sched)
      (⟨((scannedKeysOf R).foldl (processCard hashFn now sched (sourceSuspendedOf R)) ⟨D, ⟨0, 0, 0, 0⟩, existingMapOf (scannedSourcesOf R) sp D, sst⟩).db, ((scannedKeysOf R).foldl (processCard hashFn now sched (sourceSuspendedOf R)) ⟨D, ⟨0, 0, 0, 0⟩, existingMapOf (scannedSourcesOf R) sp D, sst⟩).stats, ([] : List (Triple × ExistRow)), ((scannedKeysOf R).foldl (processCard hashFn now sched (sourceSuspendedOf R)) ⟨D, ⟨0, 0, 0, 0⟩, existingMapOf (scannedSourcesOf R) sp D, sst⟩).sched_st⟩ : SyncSt σ)).db R
  simp only at f1 f2 f4 fnext fframe femap fout fstats
  simp only at sE scards snext sstate sstats
  have hres : sync_cards hashFn now D R sched sst sp =
      (sync_relations
        (((scannedKeysOf R).foldl (processCard hashFn now sched (sourceSuspendedOf R)) ⟨D, ⟨0, 0, 0, 0⟩, existingMapOf (scannedSourcesOf R) sp D, sst⟩).emap.foldl (sweepCard now sched)
          (⟨((scannedKeysOf R).foldl (processCard hashFn now sched (sourceSuspendedOf R)) ⟨D, ⟨0, 0, 0, 0⟩, existingMapOf (scannedSourcesOf R) sp D, sst⟩).db, ((scannedKeysOf R).foldl (processCard hashFn now sched (sourceSuspendedOf R)) ⟨D, ⟨0, 0, 0, 0⟩, existingMapOf (scannedSourcesOf R) sp D, sst⟩).stats, ([] : List (Triple × ExistRow)), ((scannedKeysOf R).foldl (processCard hashFn now sched (sourceSuspendedOf R)) ⟨D, ⟨0, 0, 0, 0⟩, existingMapOf (scannedSourcesOf R) sp D, sst⟩).sched_st⟩ : SyncSt σ)).db R,
       (((scannedKeysOf R).foldl (processCard hashFn now sched (sourceSuspendedOf R)) ⟨D, ⟨0, 0, 0, 0⟩, existingMapOf (scannedSourcesOf R) sp D, sst⟩).emap.foldl (sweepCard now sched)
          (⟨((scannedKeysOf R).foldl (processCard hashFn now sched (sourceSuspendedOf R)) ⟨D, ⟨0, 0, 0, 0⟩, existingMapOf (scannedSourcesOf R) sp D, sst⟩).db, ((scannedKeysOf R).foldl (processCard hashFn now sched (sourceSuspendedOf R)) ⟨D, ⟨0, 0, 0, 0⟩, existingMapOf (scannedSourcesOf R) sp D, sst⟩).stats, ([] : List (Triple × ExistRow)), ((scannedKeysOf R).foldl (processCard hashFn now sched (sourceSuspendedOf R)) ⟨D, ⟨0, 0, 0, 0⟩, existingMapOf (scannedSourcesOf R) sp D, sst⟩).sched_st⟩ : SyncSt σ)).stats,
       (((scannedKeysOf R).foldl (processCard hashFn now sched (sourceSuspendedOf R)) ⟨D, ⟨0, 0, 0, 0⟩, existingMapOf (scannedSourcesOf R) sp D, sst⟩).emap.foldl (sweepCard now sched)
          (⟨((scannedKeysOf R).foldl (processCard hashFn now sched (sourceSuspendedOf R)) ⟨D, ⟨0, 0, 0, 0⟩, existingMapOf (scannedSourcesOf R) sp D, sst⟩).db, ((scannedKeysOf R).foldl (processCard hashFn now sched (sourceSuspendedOf R)) ⟨D, ⟨0, 0, 0, 0⟩, existingMapOf (scannedSourcesOf R) sp D, sst⟩).stats, ([] : List (Triple × ExistRow)), ((scannedKeysOf R).foldl (processCard hashFn now sched (sourceSuspendedOf R)) ⟨D, ⟨0, 0, 0, 0⟩, existingMapOf (scannedSourcesOf R) sp D, sst⟩).sched_st⟩ : SyncSt σ)).sched_st) := rfl
  have hD1cards : (sync_cards hashFn now D R sched sst sp).1.cards =
      ((scannedKeysOf R).foldl (processCard hashFn now sched (sourceSuspendedOf R)) ⟨D, ⟨0, 0, 0, 0⟩, existingMapOf (scannedSourcesOf R) sp D, sst⟩).db.cards := by
    rw [hres, hrels]
    exact scards
  have hD1next : (sync_cards hashFn now D R sched sst sp).1.next_id =
      ((scannedKeysOf R).foldl (processCard hashFn now sched (sourceSuspendedOf R)) ⟨D, ⟨0, 0, 0, 0⟩, existingMapOf (scannedSourcesOf R) sp D, sst⟩).db.next_id := by
    rw [hres, hrels]
    exact snext
  have hD1state : (sync_cards hashFn now D R sched sst sp).1.card_state.map
      StateRow.card_id = ((scannedKeysOf R).foldl (processCard hashFn now sched (sourceSuspendedOf R)) ⟨D, ⟨0, 0, 0, 0⟩, existingMapOf (scannedSourcesOf R) sp D, sst⟩).db.card_state.map StateRow.card_id := by
    rw [hres, hrels]
    exact sstate
  have hE1 : existingRows (scannedSourcesOf R) sp
      (sync_cards hashFn now D R sched sst sp).1 =
      (existingRows (scannedSourcesOf R) sp ((scannedKeysOf R).foldl (processCard hashFn now sched (sourceSuspendedOf R)) ⟨D, ⟨0, 0, 0, 0⟩, existingMapOf (scannedSourcesOf R) sp D, sst⟩).db).filter
        (fun r => decide (r.id ∉ ((scannedKeysOf R).foldl (processCard hashFn now sched (sourceSuspendedOf R)) ⟨D, ⟨0, 0, 0, 0⟩, existingMapOf (scannedSourcesOf R) sp D, sst⟩).emap.map (fun kv => kv.2.id))) := by
    rw [hres, hrels]
    exact sE
  have hemap1 : ((scannedKeysOf R).foldl (processCard hashFn now sched (sourceSuspendedOf R)) ⟨D, ⟨0, 0, 0, 0⟩, existingMapOf (scannedSourcesOf R) sp D, sst⟩).emap =
      ((existingRows (scannedSourcesOf R) sp D).filter
        (fun r => decide (eKey r ∉ (scannedKeysOf R).map Prod.fst))).map
          (fun r => (eKey r, r)) := by
    rw [femap, existingMapOf_eq (scannedSourcesOf R) sp D hPS, List.filter_map]
    exact congrArg (List.map _) (List.filter_congr (fun x _ => rfl))
  have hswept : ((scannedKeysOf R).foldl (processCard hashFn now sched (sourceSuspendedOf R)) ⟨D, ⟨0, 0, 0, 0⟩, existingMapOf (scannedSourcesOf R) sp D, sst⟩).emap.map (fun kv => kv.2.id) =
      ((existingRows (scannedSourcesOf R) sp D).filter
        (fun r => decide (eKey r ∉ (scannedKeysOf R).map Prod.fst))).map
          ExistRow.id := by
    rw [hemap1, List.map_map]
    exact List.map_congr_left (fun x _ => rfl)
  have hswept_lt : ∀ i ∈ ((scannedKeysOf R).foldl (processCard hashFn now sched (sourceSuspendedOf R)) ⟨D, ⟨0, 0, 0, 0⟩, existingMapOf (scannedSourcesOf R) sp D, sst⟩).emap.map (fun kv => kv.2.id), i < D.next_id := by
    intro i hi
    rw [hswept, List.mem_map] at hi
    obtain ⟨r, hr, hid⟩ := hi
    have hrE : r ∈ existingRows (scannedSourcesOf R) sp D := List.mem_of_mem_filter hr
    obtain ⟨_, hmem, _, _⟩ := mem_existingRows hrE
    rw [List.mem_map] at hmem
    obtain ⟨c, hc, hcid⟩ := hmem
    rw [← hid, ← hcid]
    exact hW2 c hc
  have hF : ∀ kv ∈ scannedKeysOf R,
      match matchRow (existingRows (scannedSourcesOf R) sp D) kv.1 with
      | some r0 =>
        if r0.content_hash = hashFn kv.2.content then
          (existingRows (scannedSourcesOf R) sp
              (sync_cards hashFn now D R sched sst sp).1).filter
              (fun r => eKey r == kv.1) = [r0]
        else ∃ i, D.next_id ≤ i ∧
          (existingRows (scannedSourcesOf R) sp
              (sync_cards hashFn now D R sched sst sp).1).filter
              (fun r => eKey r == kv.1) =
            [⟨i, kv.1.1, kv.1.2.1, kv.1.2.2, hashFn kv.2.content, replStatus r0.status⟩]
      | none => ∃ i, D.next_id ≤ i ∧
          (existingRows (scannedSourcesOf R) sp
              (sync_cards hashFn now D R sched sst sp).1).filter
              (fun r => eKey r == kv.1) =
            [⟨i, kv.1.1, kv.1.2.1, kv.1.2.2, hashFn kv.2.content,
              statusSusp (sourceSuspendedOf R) kv.1.1⟩] := by
    intro kv hkv
    have hkeymem : kv.1 ∈ (scannedKeysOf R).map Prod.fst :=
      List.mem_map.mpr ⟨kv, hkv, rfl⟩
    have hfo := fout kv hkv
    cases hmc : matchRow (existingRows (scannedSourcesOf R) sp D) kv.1 with
    | some r0 =>
      rw [hmc] at hfo
      obtain ⟨hr0E, hr0key⟩ := matchRow_mem hmc
      simp only at hfo ⊢
      by_cases hh : r0.content_hash = hashFn kv.2.content
      · rw [if_pos hh] at hfo ⊢
        rw [hE1, List.filter_comm, hfo, List.filter_eq_self]
        intro a ha
        rw [List.mem_singleton] at ha
        subst ha
        rw [decide_eq_true_eq]
        intro hcon
        rw [hswept, List.mem_map] at hcon
        obtain ⟨e, he, heid⟩ := hcon
        have heE : e ∈ existingRows (scannedSourcesOf R) sp D :=
          List.mem_of_mem_filter he
        have heq : e = a := List.inj_on_of_nodup_map hEids heE hr0E heid
        have hq := List.of_mem_filter he
        rw [heq, decide_eq_true_eq] at hq
        exact hq (hr0key ▸ hkeymem)
      · rw [if_neg hh] at hfo ⊢
        obtain ⟨i, hi, hfilter⟩ := hfo
        refine ⟨i, hi, ?_⟩
        rw [hE1, List.filter_comm, hfilter, List.filter_eq_self]
        intro a ha
        rw [List.mem_singleton] at ha
        subst ha
        rw [decide_eq_true_eq]
        intro hcon
        have := hswept_lt _ hcon
        simp only at this
        omega
    | none =>
      rw [hmc] at hfo
      simp only at hfo ⊢
      obtain ⟨i, hi, hfilter⟩ := hfo
      refine ⟨i, hi, ?_⟩
      rw [hE1, List.filter_comm, hfilter, List.filter_eq_self]
      intro a ha
      rw [List.mem_singleton] at ha
      subst ha
      rw [decide_eq_true_eq]
      intro hcon
      have := hswept_lt _ hcon
      simp only at this
      omega
  have hG : ∀ t : Triple, t ∉ (scannedKeysOf R).map Prod.fst →
      (existingRows (scannedSourcesOf R) sp
          (sync_cards hashFn now D R sched sst sp).1).filter
          (fun r => eKey r == t) = [] := by
    intro t ht
    rw [hE1, List.filter_comm, fframe t ht, List.filter_eq_nil_iff]
    intro a ha hpa
    have haE : a ∈ existingRows (scannedSourcesOf R) sp D := List.mem_of_mem_filter ha
    have hak : eKey a = t := by simpa using List.of_mem_filter ha
    rw [decide_eq_true_eq] at hpa
    apply hpa
    rw [hswept, List.mem_map]
    refine ⟨a, ?_, rfl⟩
    rw [List.mem_filter]
    refine ⟨haE, ?_⟩
    rw [decide_eq_true_eq]
    rw [hak]
    exact ht
  refine ⟨⟨?_, ?_, ?_, ?_, ?_⟩, hF, hG, ?_⟩
  · rw [hD1cards]
    exact f1
  · intro c hc
    rw [hD1cards] at hc
    rw [hD1next]
    exact f2 c hc
  · intro s hs
    rw [hD1next]
    have hsid : s.card_id ∈ ((scannedKeysOf R).foldl (processCard hashFn now sched (sourceSuspendedOf R)) ⟨D, ⟨0, 0, 0, 0⟩, existingMapOf (scannedSourcesOf R) sp D, sst⟩).db.card_state.map StateRow.card_id := by
      rw [← hD1state]
      exact List.mem_map.mpr ⟨s, hs, rfl⟩
    rw [List.mem_map] at hsid
    obtain ⟨s0, hs0, he⟩ := hsid
    rw [← he]
    exact f4 s0 hs0
  · apply eKey_nodup_of_filter
    intro t
    by_cases ht : t ∈ (scannedKeysOf R).map Prod.fst
    · rw [List.mem_map] at ht
      obtain ⟨kv, hkv, hkvt⟩ := ht
      have := hF kv hkv
      cases hmc : matchRow (existingRows (scannedSourcesOf R) sp D) kv.1 with
      | some r0 =>
        rw [hmc] at this
        simp only at this
        by_cases hh : r0.content_hash = hashFn kv.2.content
        · rw [if_pos hh] at this
          rw [← hkvt, this]
          simp
        · rw [if_neg hh] at this
          obtain ⟨i, _, hfil⟩ := this
          rw [← hkvt, hfil]
          simp
      | none =>
        rw [hmc] at this
        simp only at this
        obtain ⟨i, _, hfil⟩ := this
        rw [← hkvt, hfil]
        simp
    · rw [hG t ht]
      simp
  · rw [hD1next]
    exact fnext
  · rw [hres]
    try simp only
    rw [sstats]
    try simp only
    rw [fstats]
    have hlen : ((scannedKeysOf R).foldl (processCard hashFn now sched (sourceSuspendedOf R)) ⟨D, ⟨0, 0, 0, 0⟩, existingMapOf (scannedSourcesOf R) sp D, sst⟩).emap.length =
        ((existingRows (scannedSourcesOf R) sp D).filter
          (fun r => decide (eKey r ∉ (scannedKeysOf R).map Prod.fst))).length := by
      rw [hemap1, List.length_map]
    rw [hlen]
    simp only [Stats.mk.injEq]
    and_intros <;> first | trivial | omega

/-- C2 (amended): over a catalog satisfying the schema well-formedness the
database enforces (unique card ids below the id counter, state rows keyed
below the counter, unique triples among the live in-scope rows), a second
`sync_cards` run on the same scan result returns `unchanged` equal to the
number of distinct scanned triples and zero for the other counters — the
distinct-triple count, not the raw card count of the scan result, since a
duplicated triple collapses in `scanned_keys` (later occurrence wins). -/
theorem c2_second_sync_all_unchanged {σ τ : Type} (hashFn : String → String) (now1 now2 : String)
    (sched1 : Option (Scheduler σ)) (sched2 : Option (Scheduler τ))
    (sst1 : σ) (sst2 : τ) (sp : List (String × Bool)) (D : Catalog)
    (R : List ScanResult)
    (hW1 : (D.cards.map CardRow.id).Nodup)
    (hW2 : ∀ c ∈ D.cards, c.id < D.next_id)
    (hW4 : ∀ s ∈ D.card_state, s.card_id < D.next_id)
    (hPS : ((existingRows (scannedSourcesOf R) sp D).map eKey).Nodup) :
    (sync_cards hashFn now2 (sync_cards hashFn now1 D R sched1 sst1 sp).1 R
      sched2 sst2 sp).2.1 =
      ⟨0, 0, 0, (scannedKeysOf R).length⟩ := by
  obtain ⟨⟨w1, w2, w4, wPS, _⟩, hout, hG, _⟩ :=
    sync_cards_char hashFn now1 sched1 sst1 sp D R hW1 hW2 hW4 hPS
  obtain ⟨_, _, _, hstats2⟩ :=
    sync_cards_char hashFn now2 sched2 sst2 sp
      (sync_cards hashFn now1 D R sched1 sst1 sp).1 R w1 w2 w4 wPS
  rw [hstats2]
  have hall : ∀ kv ∈ scannedKeysOf R,
      ∃ r', matchRow (existingRows (scannedSourcesOf R) sp
          (sync_cards hashFn now1 D R sched1 sst1 sp).1) kv.1 = some r' ∧
        r'.content_hash = hashFn kv.2.content := by
    intro kv hkv
    have := hout kv hkv
    cases hmc : matchRow (existingRows (scannedSourcesOf R) sp D) kv.1 with
    | some r0 =>
      rw [hmc] at this
      simp only at this
      by_cases hh : r0.content_hash = hashFn kv.2.content
      · rw [if_pos hh] at this
        refine ⟨r0, ?_, hh⟩
        unfold matchRow
        rw [this]
        rfl
      · rw [if_neg hh] at this
        obtain ⟨i, _, hfil⟩ := this
        refine ⟨⟨i, kv.1.1, kv.1.2.1, kv.1.2.2, hashFn kv.2.content,
          replStatus r0.status⟩, ?_, rfl⟩
        unfold matchRow
        rw [hfil]
        rfl
    | none =>
      rw [hmc] at this
      simp only at this
      obtain ⟨i, _, hfil⟩ := this
      refine ⟨⟨i, kv.1.1, kv.1.2.1, kv.1.2.2, hashFn kv.2.content,
        statusSusp (sourceSuspendedOf R) kv.1.1⟩, ?_, rfl⟩
      unfold matchRow
      rw [hfil]
      rfl
  have hnew : (scannedKeysOf R).filter
      (newKey (existingRows (scannedSourcesOf R) sp
        (sync_cards hashFn now1 D R sched1 sst1 sp).1)) = [] := by
    rw [List.filter_eq_nil_iff]
    intro kv hkv
    obtain ⟨r', hmr, _⟩ := hall kv hkv
    unfold newKey
    rw [hmr]
    simp
  have hrep : (scannedKeysOf R).filter
      (repKey hashFn (existingRows (scannedSourcesOf R) sp
        (sync_cards hashFn now1 D R sched1 sst1 sp).1)) = [] := by
    rw [List.filter_eq_nil_iff]
    intro kv hkv
    obtain ⟨r', hmr, hh⟩ := hall kv hkv
    unfold repKey
    rw [hmr]
    simp [hh]
  have hun : (scannedKeysOf R).filter
      (unKey hashFn (existingRows (scannedSourcesOf R) sp
        (sync_cards hashFn now1 D R sched1 sst1 sp).1)) = scannedKeysOf R := by
    rw [List.filter_eq_self]
    intro kv hkv
    obtain ⟨r', hmr, hh⟩ := hall kv hkv
    unfold unKey
    rw [hmr]
    simp [hh]
  have hdel : (existingRows (scannedSourcesOf R) sp
      (sync_cards hashFn now1 D R sched1 sst1 sp).1).filter
      (fun r => decide (eKey r ∉ (scannedKeysOf R).map Prod.fst)) = [] := by
    rw [List.filter_eq_nil_iff]
    intro r hr hc
    rw [decide_eq_true_eq] at hc
    have := hG (eKey r) hc
    have hmem : r ∈ (existingRows (scannedSourcesOf R) sp
        (sync_cards hashFn now1 D R sched1 sst1 sp).1).filter
        (fun x => eKey x == eKey r) := List.mem_filter.mpr ⟨hr, by simp⟩
    rw [this] at hmem
    exact absurd hmem (List.not_mem_nil r)
  rw [hnew, hrep, hun, hdel]
  rfl

def syncStep {σ : Type} (hashFn : String → String) (R : List ScanResult)
    (sched : Option (Scheduler σ)) (sp : List (String × Bool))
    (p : Catalog × σ) (now : String) : Catalog × σ :=
  ((sync_cards hashFn now p.1 R sched p.2 sp).1,
   (sync_cards hashFn now p.1 R sched p.2 sp).2.2)

def syncSeq {σ : Type} (hashFn : String → String) (R : List ScanResult)
    (sched : Option (Scheduler σ)) (sp : List (String × Bool))
    (p : Catalog × σ) (nows : List String) : Catalog × σ :=
  nows.foldl (syncStep hashFn R sched sp) p

theorem key_filter_len_le_one (l : List ExistRow)
    (hnd : (l.map eKey).Nodup) (t : Triple) :
    (l.filter (fun r => eKey r == t)).length ≤ 1 := by
  have hsub : ((l.filter (fun r => eKey r == t)).map eKey).Nodup :=
    ((List.filter_sublist l).map eKey).nodup hnd
  cases hfil : l.filter (fun r => eKey r == t) with
  | nil => simp
  | cons a tl2 =>
    cases tl2 with
    | nil => simp
    | cons b tl3 =>
      exfalso
      rw [hfil] at hsub
      have ha : eKey a = t := by
        have : a ∈ l.filter (fun r => eKey r == t) := by
          rw [hfil]; exact List.mem_cons_self _ _
        simpa using List.of_mem_filter this
      have hb : eKey b = t := by
        have : b ∈ l.filter (fun r => eKey r == t) := by
          rw [hfil]; exact List.mem_cons_of_mem _ (List.mem_cons_self _ _)
        simpa using List.of_mem_filter this
      rw [List.map_cons, List.nodup_cons] at hsub
      apply hsub.1
      rw [List.map_cons, List.mem_cons]
      left
      rw [ha, hb]

theorem filter_singleton_of_head? {α : Type} (l : List α) (r : α)
    (hd : l.head? = some r) (hle : l.length ≤ 1) : l = [r] := by
  cases l with
  | nil => exact Option.noConfusion hd
  | cons a tl =>
    cases tl with
    | nil =>
      rw [Option.some.inj hd]
    | cons b tl2 => simp at hle

/-- C4: suspension is preserved across syncs. If the live in-scope row of a
scanned triple is `inactive` and the scanned content hash equals the row's,
any number of `sync_cards` runs leaves that card's state `inactive`; if the
hash differs, the single replacement card `sync_cards` creates carries
status `inactive` as well. -/
theorem c4_suspension_preserved {σ : Type} (hashFn : String → String) (sched : Option (Scheduler σ))
    (sst : σ) (sp : List (String × Bool)) (D : Catalog) (R : List ScanResult)
    (t : Triple) (card : Card) (r0 : ExistRow)
    (hW1 : (D.cards.map CardRow.id).Nodup)
    (hW2 : ∀ c ∈ D.cards, c.id < D.next_id)
    (hW4 : ∀ s ∈ D.card_state, s.card_id < D.next_id)
    (hPS : ((existingRows (scannedSourcesOf R) sp D).map eKey).Nodup)
    (hscan : alLookup t (scannedKeysOf R) = some card)
    (hmatch : matchRow (existingRows (scannedSourcesOf R) sp D) t = some r0)
    (hst : r0.status = Status.inactive) :
    ((r0.content_hash = hashFn card.content) →
      ∀ (nows : List String),
        statusOf (syncSeq hashFn R sched sp (D, sst) nows).1 r0.id =
          some Status.inactive) ∧
    ((¬ r0.content_hash = hashFn card.content) →
      ∀ (now : String), ∃ i, D.next_id ≤ i ∧
        (existingRows (scannedSourcesOf R) sp
            (sync_cards hashFn now D R sched sst sp).1).filter
            (fun r => eKey r == t) =
          [⟨i, t.1, t.2.1, t.2.2, hashFn card.content, Status.inactive⟩] ∧
        statusOf (sync_cards hashFn now D R sched sst sp).1 i =
          some Status.inactive) := by
  have hkvmem : (t, card) ∈ scannedKeysOf R := mem_of_alLookup_eq_some hscan
  constructor
  · intro hhq nows
    have hinv : ∀ (nows2 : List String) (p : Catalog × σ),
        (p.1.cards.map CardRow.id).Nodup →
        (∀ c ∈ p.1.cards, c.id < p.1.next_id) →
        (∀ s ∈ p.1.card_state, s.card_id < p.1.next_id) →
        ((existingRows (scannedSourcesOf R) sp p.1).map eKey).Nodup →
        (existingRows (scannedSourcesOf R) sp p.1).filter (fun r => eKey r == t) =
          [r0] →
        ((((syncSeq hashFn R sched sp p nows2).1.cards.map CardRow.id).Nodup) ∧
         (∀ c ∈ (syncSeq hashFn R sched sp p nows2).1.cards,
            c.id < (syncSeq hashFn R sched sp p nows2).1.next_id) ∧
         (∀ s ∈ (syncSeq hashFn R sched sp p nows2).1.card_state,
            s.card_id < (syncSeq hashFn R sched sp p nows2).1.next_id) ∧
         (((existingRows (scannedSourcesOf R) sp
             (syncSeq hashFn R sched sp p nows2).1).map eKey).Nodup) ∧
         (existingRows (scannedSourcesOf R) sp
             (syncSeq hashFn R sched sp p nows2).1).filter
             (fun r => eKey r == t) = [r0]) := by
      intro nows2
      induction nows2 with
      | nil => intro p h1 h2 h3 h4 h5; exact ⟨h1, h2, h3, h4, h5⟩
      | cons now3 tl ih =>
        intro p h1 h2 h3 h4 h5
        show (((syncSeq hashFn R sched sp (syncStep hashFn R sched sp p now3) tl).1.cards.map
            CardRow.id).Nodup) ∧ _
        obtain ⟨⟨w1, w2, w4, wPS, _⟩, hout, _, _⟩ :=
          sync_cards_char hashFn now3 sched p.2 sp p.1 R h1 h2 h3 h4
        have hstep : (existingRows (scannedSourcesOf R) sp
            (syncStep hashFn R sched sp p now3).1).filter (fun r => eKey r == t) =
            [r0] := by
          have := hout (t, card) hkvmem
          have hmr : matchRow (existingRows (scannedSourcesOf R) sp p.1) t =
              some r0 := by
            unfold matchRow
            rw [h5]
            rfl
          rw [hmr] at this
          simp only at this
          rw [if_pos hhq] at this
          exact this
        exact ih (syncStep hashFn R sched sp p now3) w1 w2 w4 wPS hstep
    have hbase : (existingRows (scannedSourcesOf R) sp D).filter
        (fun r => eKey r == t) = [r0] := by
      apply filter_singleton_of_head? _ _ hmatch
      exact key_filter_len_le_one _ hPS t
    obtain ⟨_, _, _, _, hfin⟩ := hinv nows (D, sst) hW1 hW2 hW4 hPS hbase
    have hr0mem : r0 ∈ existingRows (scannedSourcesOf R) sp
        (syncSeq hashFn R sched sp (D, sst) nows).1 := by
      have : r0 ∈ (existingRows (scannedSourcesOf R) sp
          (syncSeq hashFn R sched sp (D, sst) nows).1).filter
          (fun r => eKey r == t) := by
        rw [hfin]
        exact List.mem_singleton.mpr rfl
      exact List.mem_of_mem_filter this
    obtain ⟨hstat, _, _, _⟩ := mem_existingRows hr0mem
    rw [hstat, hst]
  · intro hne now
    obtain ⟨_, hout, _, _⟩ :=
      sync_cards_char hashFn now sched sst sp D R hW1 hW2 hW4 hPS
    have := hout (t, card) hkvmem
    rw [hmatch] at this
    simp only at this
    rw [if_neg hne] at this
    obtain ⟨i, hi, hfil⟩ := this
    rw [hst] at hfil
    rw [show replStatus Status.inactive = Status.inactive from rfl] at hfil
    refine ⟨i, hi, hfil, ?_⟩
    have hmem : (⟨i, t.1, t.2.1, t.2.2, hashFn card.content, Status.inactive⟩ :
        ExistRow) ∈ existingRows (scannedSourcesOf R) sp
        (sync_cards hashFn now D R sched sst sp).1 := by
      have : (⟨i, t.1, t.2.1, t.2.2, hashFn card.content, Status.inactive⟩ :
          ExistRow) ∈ (existingRows (scannedSourcesOf R) sp
          (sync_cards hashFn now D R sched sst sp).1).filter
          (fun r => eKey r == t) := by
        rw [hfil]
        exact List.mem_singleton.mpr rfl
      exact List.mem_of_mem_filter this
    obtain ⟨hstat, _, _, _⟩ := mem_existingRows hmem
    exact hstat

namespace C2ex

def cardA1 : Card := ⟨"k", "v1", "v1", true, 1, [], []⟩

def cardA2 : Card := ⟨"k", "v2", "v2", true, 2, [], []⟩

def cardB : Card := ⟨"k2", "v3", "v3", true, 3, [], []⟩

/-- A scan result in which the same triple appears twice (adapter bug). -/
def Rdup : List ScanResult := [("/a.md", "qa", [cardA1, cardA2], ⟨false⟩)]

/-- A scan result with two distinct triples. -/
def R2 : List ScanResult := [("/a.md", "qa", [cardA1, cardB], ⟨false⟩)]

def D0 : Catalog := ⟨[], [], [], [], [], [], [], 1⟩

def run1 : Catalog × Stats × Unit :=
  sync_cards id "t1" D0 Rdup (none : Option (Scheduler Unit)) () []

def run2 : Catalog × Stats × Unit :=
  sync_cards id "t2" run1.1 Rdup (none : Option (Scheduler Unit)) () []

end C2ex

/-- C2 counterexample: the scan result `Rdup` lists two cards but they share
one triple, so the second sync's `unchanged` count is 1, not the scan
result's card count 2 — the claim's `unchanged = |R|'s card count` fails for
duplicated triples (the later occurrence wins in `scanned_keys`). -/
theorem c2_duplicate_triple_counterexample :
    (C2ex.Rdup.map (fun x => x.2.2.1.length)).sum = 2 ∧
    C2ex.run2.2.1 = ⟨0, 0, 0, 1⟩ ∧
    ¬ C2ex.run2.2.1.unchanged = 2 := by
  refine ⟨by decide, by decide, by decide⟩

/-- C2 witness: the amended idempotence at a concrete two-card scan over an
empty catalog. -/
theorem c2_second_sync_all_unchanged_witness :
    ((C2ex.D0.cards.map CardRow.id).Nodup ∧
     (∀ c ∈ C2ex.D0.cards, c.id < C2ex.D0.next_id) ∧
     (∀ s ∈ C2ex.D0.card_state, s.card_id < C2ex.D0.next_id) ∧
     ((existingRows (scannedSourcesOf C2ex.R2) [] C2ex.D0).map eKey).Nodup) ∧
    (sync_cards id "t2" (sync_cards id "t1" C2ex.D0 C2ex.R2
        (none : Option (Scheduler Unit)) () []).1 C2ex.R2
        (none : Option (Scheduler Unit)) () []).2.1 =
      ⟨0, 0, 0, (scannedKeysOf C2ex.R2).length⟩ :=
  ⟨⟨by decide, by decide, by decide, by decide⟩,
   c2_second_sync_all_unchanged id "t1" "t2" (none : Option (Scheduler Unit))
     (none : Option (Scheduler Unit)) () () [] C2ex.D0 C2ex.R2
     (by decide) (by decide) (by decide) (by decide)⟩

namespace C4ex

def cardRow1 : CardRow :=
  { id := 1, source_path := "/a.md", card_key := "k", adapter := "qa",
    content := "h1", content_hash := "h1", display_text := "d", gradable := true,
    source_line := 1, created_at := "t0" }

def D : Catalog :=
  { cards := [cardRow1], card_state := [⟨1, Status.inactive, "t0"⟩],
    card_tags := [], card_relations := [], recommendations := [],
    review_log := [], card_flags := [], next_id := 2 }

def R : List ScanResult := [("/a.md", "qa", [⟨"k", "h1", "d", true, 1, [], []⟩], ⟨false⟩)]

def r0 : ExistRow := ⟨1, "/a.md", "k", "qa", "h1", Status.inactive⟩

end C4ex

/-- C4 witness: the suspension preservation at a concrete inactive card whose
scanned content is unchanged. -/
theorem c4_suspension_preserved_witness :
    ((C4ex.D.cards.map CardRow.id).Nodup ∧
     (∀ c ∈ C4ex.D.cards, c.id < C4ex.D.next_id) ∧
     (∀ s ∈ C4ex.D.card_state, s.card_id < C4ex.D.next_id) ∧
     ((existingRows (scannedSourcesOf C4ex.R) [] C4ex.D).map eKey).Nodup ∧
     alLookup ("/a.md", "k", "qa") (scannedKeysOf C4ex.R) =
       some ⟨"k", "h1", "d", true, 1, [], []⟩ ∧
     matchRow (existingRows (scannedSourcesOf C4ex.R) [] C4ex.D)
       ("/a.md", "k", "qa") = some C4ex.r0 ∧
     C4ex.r0.status = Status.inactive) ∧
    (((C4ex.r0.content_hash = id "h1") →
      ∀ (nows : List String),
        statusOf (syncSeq id C4ex.R (none : Option (Scheduler Unit)) []
            (C4ex.D, ()) nows).1 C4ex.r0.id = some Status.inactive) ∧
     ((¬ C4ex.r0.content_hash = id "h1") →
      ∀ (now : String), ∃ i, C4ex.D.next_id ≤ i ∧
        (existingRows (scannedSourcesOf C4ex.R) []
            (sync_cards id now C4ex.D C4ex.R (none : Option (Scheduler Unit))
              () []).1).filter
            (fun r => eKey r == ("/a.md", "k", "qa")) =
          [⟨i, "/a.md", "k", "qa", id "h1", Status.inactive⟩] ∧
        statusOf (sync_cards id now C4ex.D C4ex.R (none : Option (Scheduler Unit))
            () []).1 i = some Status.inactive)) :=
  ⟨⟨by decide, by decide, by decide, by decide, by decide, by decide, by decide⟩,
   c4_suspension_preserved id (none : Option (Scheduler Unit)) () [] C4ex.D C4ex.R
     ("/a.md", "k", "qa") ⟨"k", "h1", "d", true, 1, [], []⟩ C4ex.r0
     (by decide) (by decide) (by decide) (by decide) (by decide) (by decide)
     (by decide)⟩

/-! ### Claim-side view of the next-card query

Claim C5 describes `get_next_card` as the minimum of a set of cards, each
card carrying at most one recommendation row. The following definitions
transcribe that card-level wording; the claim theorem relates them to the
embedded query under the schema-level assumption that each card holds at
most one recommendation row (one scheduler, as the `(card_id, scheduler_id)`
primary key provides in any single-scheduler catalog). -/

/-- The recommendation row of a card (unique under the hypothesis above). -/
def recRowOf (D : Catalog) (cid : Nat) : Option RecRow :=
  D.recommendations.find? (fun r => r.card_id == cid)

/-- The claim's eligible set: active, gradable, tag/path/flag filters, not
in the excluded (`reviewed_ids`) set, and no recommendation row or a
recommendation time ≤ now. -/
def claimEligible (now : String) (D : Catalog) (s : SessionRS) (c : CardRow) : Bool :=
  decide (statusOf D c.id = some Status.active) && c.gradable &&
  (match s.tag_filter with
   | some tg => D.card_tags.contains (c.id, tg)
   | none => true) &&
  (match s.path_filter with
   | some p => p.isPrefixOf c.source_path
   | none => true) &&
  (match s.flag_filter with
   | some f => D.card_flags.contains (c.id, f)
   | none => true) &&
  !(s.reviewed_ids.contains c.id) &&
  (match recRowOf D c.id with
   | none => true
   | some r => decide (r.time ≤ now))

/-- The claim's order on cards: a card with a recommendation before one
without, then ascending recommendation time, then ascending card id. -/
def claimLe (D : Catalog) (c d : CardRow) : Bool :=
  match recRowOf D c.id, recRowOf D d.id with
  | some x, some y =>
    if x.time = y.time then decide (c.id ≤ d.id) else decide (x.time < y.time)
  | some _, none => true
  | none, some _ => false
  | none, none => decide (c.id ≤ d.id)

theorem filter_eq_find_toList (cid : Nat) :
    ∀ (l : List RecRow), (l.map RecRow.card_id).Nodup →
      l.filter (fun r => r.card_id == cid) =
        (l.find? (fun r => r.card_id == cid)).toList := by
  intro l
  induction l with
  | nil => intro _; rfl
  | cons r t ih =>
    intro hnd
    rw [List.map_cons, List.nodup_cons] at hnd
    by_cases h : (r.card_id == cid) = true
    · rw [List.filter_cons, if_pos h, List.find?_cons, h]
      have ht : t.filter (fun x => x.card_id == cid) = [] := by
        rw [List.filter_eq_nil_iff]
        intro a ha hc
        apply hnd.1
        rw [List.mem_map]
        refine ⟨a, ha, ?_⟩
        have h1 : a.card_id = cid := by simpa using hc
        have h2 : r.card_id = cid := by simpa using h
        rw [h1, h2]
      rw [ht]
      rfl
    · rw [List.filter_cons, if_neg h, List.find?_cons,
        Bool.eq_false_iff.mpr h]
      exact ih hnd.2

theorem joinRows_eq_map (D : Catalog)
    (hnd : (D.recommendations.map RecRow.card_id).Nodup) :
    joinRows D = D.cards.map (fun c => (c, recRowOf D c.id)) := by
  unfold joinRows
  have hpt : ∀ cs : List CardRow,
      (cs.flatMap (fun c =>
        match D.recommendations.filter (fun r => r.card_id == c.id) with
        | [] => [(c, none)]
        | recs => recs.map (fun r => (c, some r)))) =
      cs.map (fun c => (c, recRowOf D c.id)) := by
    intro cs
    induction cs with
    | nil => rfl
    | cons c t ih =>
      rw [List.flatMap_cons, List.map_cons, ih]
      have hfe := filter_eq_find_toList c.id D.recommendations hnd
      unfold recRowOf
      cases hf : D.recommendations.find? (fun r => r.card_id == c.id) with
      | none => rw [hfe, hf]; rfl
      | some r => rw [hfe, hf]; rfl
  exact hpt D.cards

theorem eligibleRow_eq_claim (now : String) (D : Catalog) (s : SessionRS)
    (c : CardRow) :
    eligibleRow now D s (c, recRowOf D c.id) = claimEligible now D s c := by
  unfold eligibleRow claimEligible passesFilters
  apply Bool.eq_iff_iff.mpr
  simp only [Bool.and_eq_true]
  tauto

theorem rowLe_eq_claim (D : Catalog) (c d : CardRow) :
    rowLe (c, recRowOf D c.id) (d, recRowOf D d.id) = claimLe D c d := by
  unfold rowLe claimLe
  cases hc : recRowOf D c.id <;> cases hd : recRowOf D d.id <;> simp

theorem filtered_join_eq (now : String) (D : Catalog) (s : SessionRS)
    (hnd : (D.recommendations.map RecRow.card_id).Nodup) :
    (joinRows D).filter (eligibleRow now D s) =
      (D.cards.filter (claimEligible now D s)).map
        (fun c => (c, recRowOf D c.id)) := by
  rw [joinRows_eq_map D hnd, List.filter_map]
  congr 1
  apply List.filter_congr
  intro c _
  simp only [Function.comp]
  exact eligibleRow_eq_claim now D s c

theorem excludeFold_mem_preserved :
    ∀ (sibs : List Nat) (acc : SessionRS × List Nat) (i : Nat),
      i ∈ acc.1.reviewed_ids → i ∈ (sibs.foldl excludeStep acc).1.reviewed_ids := by
  intro sibs
  induction sibs with
  | nil => intro acc i h; simpa using h
  | cons sid t ih =>
    intro acc i h
    rw [List.foldl_cons]
    apply ih
    unfold excludeStep
    by_cases hc : acc.1.reviewed_ids.contains sid
    · rw [if_pos hc]; exact h
    · rw [if_neg hc]
      simp only
      exact List.mem_append_left _ h

theorem mem_addReviewedId (s : SessionRS) (i : Nat) :
    i ∈ (addReviewedId s i).reviewed_ids := by
  unfold addReviewedId
  by_cases hc : s.reviewed_ids.contains i
  · rw [if_pos hc]; simpa using hc
  · rw [if_neg hc]; simp

theorem grade_adds_reviewed {σ : Type} (sched : Option (Scheduler σ))
    (now : String) (t g : Nat) (fb resp : Option String) (D : Catalog)
    (s : SessionRS) (sst : σ) (r : Catalog × SessionRS × σ) (cc : CardRow)
    (hcur : s.current_card = some cc)
    (h : grade_current sched now t g fb resp D s sst = some r) :
    cc.id ∈ r.2.1.reviewed_ids := by
  unfold grade_current at h
  rw [hcur] at h
  simp only at h
  cases Option.some.inj h
  show cc.id ∈ (exclude_mutually_exclusive _ (addReviewedId s cc.id) cc.id).1.reviewed_ids
  unfold exclude_mutually_exclusive
  exact excludeFold_mem_preserved _ _ _ (mem_addReviewedId s cc.id)

theorem skip_adds_reviewed (D : Catalog) (s : SessionRS) (cc : CardRow)
    (hcur : s.current_card = some cc) :
    cc.id ∈ (skip_op D s).reviewed_ids := by
  unfold skip_op
  rw [hcur]
  simp only
  show cc.id ∈ (exclude_mutually_exclusive D (addReviewedId s cc.id) cc.id).1.reviewed_ids
  unfold exclude_mutually_exclusive
  exact excludeFold_mem_preserved _ _ _ (mem_addReviewedId s cc.id)

theorem suspend_adds_reviewed {σ : Type} (sched : Option (Scheduler σ))
    (now : String) (D : Catalog) (s : SessionRS) (sst : σ) (cc : CardRow)
    (hcur : s.current_card = some cc) :
    cc.id ∈ (suspend_op sched now D s sst).2.1.reviewed_ids := by
  unfold suspend_op
  rw [hcur]
  simp only
  apply excludeFold_mem_preserved
  exact mem_addReviewedId s cc.id

/-! ### Claim C5 -/

/-- C5: over a catalog whose recommendations hold at most one row per card,
`get_next_card` returns `none` exactly when no card is claim-eligible
(active, gradable, filters pass, not in `reviewed_ids`, due); a returned
card is a claim-eligible catalog card, is not in the excluded
(`reviewed_ids`) set, and is minimal under the claim's order
(recommendation before none, then time, then id) among all eligible cards;
and each of grade, skip and suspend puts the card it acts on into
`reviewed_ids`, the set the query excludes — so a card graded, skipped or
suspended in the session is not returned again. -/
theorem c5_next_card_minimum (now : String) (t : Nat) (D : Catalog) (s : SessionRS)
    (hnd : (D.recommendations.map RecRow.card_id).Nodup) :
    ((get_next_card now t D s).2 = none ↔
       ∀ c ∈ D.cards, claimEligible now D s c = false) ∧
    (∀ c, (get_next_card now t D s).2 = some c →
       c ∈ D.cards ∧ claimEligible now D s c = true ∧
       c.id ∉ s.reviewed_ids ∧
       ∀ d ∈ D.cards, claimEligible now D s d = true → claimLe D c d = true) ∧
    (∀ (σ2 : Type) (sched : Option (Scheduler σ2)) (now2 : String) (t2 g : Nat)
       (fb resp : Option String) (D0 : Catalog) (s0 : SessionRS) (sst : σ2)
       (r : Catalog × SessionRS × σ2) (cc : CardRow),
       s0.current_card = some cc →
       grade_current sched now2 t2 g fb resp D0 s0 sst = some r →
       cc.id ∈ r.2.1.reviewed_ids) ∧
    (∀ (D0 : Catalog) (s0 : SessionRS) (cc : CardRow),
       s0.current_card = some cc → cc.id ∈ (skip_op D0 s0).reviewed_ids) ∧
    (∀ (σ2 : Type) (sched : Option (Scheduler σ2)) (now2 : String) (D0 : Catalog)
       (s0 : SessionRS) (sst : σ2) (cc : CardRow),
       s0.current_card = some cc →
       cc.id ∈ (suspend_op sched now2 D0 s0 sst).2.1.reviewed_ids) := by
  have hjoin := filtered_join_eq now D s hnd
  refine ⟨?_, ?_, ?_, ?_, ?_⟩
  · unfold get_next_card
    cases hsel : selectFirst rowLe ((joinRows D).filter (eligibleRow now D s)) with
    | none =>
      simp only
      constructor
      · intro _
        have hl := (selectFirst_eq_none_iff rowLe _).mp hsel
        rw [hjoin, List.map_eq_nil_iff, List.filter_eq_nil_iff] at hl
        intro c hc
        have := hl c hc
        simpa using this
      · intro _; trivial
    | some p =>
      simp only
      constructor
      · intro h; exact Option.noConfusion h
      · intro hall
        have hl : (joinRows D).filter (eligibleRow now D s) = [] := by
          rw [hjoin, List.map_eq_nil_iff, List.filter_eq_nil_iff]
          intro c hc
          simp [hall c hc]
        rw [hl] at hsel
        exact Option.noConfusion hsel
  · intro c hret
    unfold get_next_card at hret
    cases hsel : selectFirst rowLe ((joinRows D).filter (eligibleRow now D s)) with
    | none => rw [hsel] at hret; exact Option.noConfusion hret
    | some p =>
      rw [hsel] at hret
      simp only at hret
      have hpc : p.1 = c := Option.some.inj hret
      obtain ⟨hmem, hmin, _⟩ :=
        selectFirst_min rowLe rowLe_total rowLe_trans _ none p hsel
      rcases hmem with hm | hm
      · rw [hjoin, List.mem_map] at hm
        obtain ⟨c0, hc0mem, hc0eq⟩ := hm
        rw [List.mem_filter] at hc0mem
        have hc0c : c0 = c := by rw [← hpc, ← hc0eq]
        subst hc0c
        have helig := hc0mem.2
        refine ⟨hc0mem.1, helig, ?_, ?_⟩
        · unfold claimEligible at helig
          simp only [Bool.and_eq_true, Bool.not_eq_true'] at helig
          have := helig.1.2
          simpa using this
        · intro d hd hde
          have hdm : (d, recRowOf D d.id) ∈ (joinRows D).filter (eligibleRow now D s) := by
            rw [hjoin, List.mem_map]
            exact ⟨d, List.mem_filter.mpr ⟨hd, hde⟩, rfl⟩
          have := hmin _ hdm
          rw [← hc0eq] at this
          rw [← rowLe_eq_claim D c0 d]
          exact this
      · exact Option.noConfusion hm
  · intro σ2 sched now2 t2 g fb resp D0 s0 sst r cc hcur h
    exact grade_adds_reviewed sched now2 t2 g fb resp D0 s0 sst r cc hcur h
  · intro D0 s0 cc hcur
    exact skip_adds_reviewed D0 s0 cc hcur
  · intro σ2 sched now2 D0 s0 sst cc hcur
    exact suspend_adds_reviewed sched now2 D0 s0 sst cc hcur

namespace C5ex

def card1 : CardRow :=
  { id := 1, source_path := "/a.md", card_key := "q1", adapter := "qa",
    content := "v1", content_hash := "v1", display_text := "v1", gradable := true,
    source_line := 1, created_at := "t0" }

def card2 : CardRow :=
  { id := 2, source_path := "/a.md", card_key := "q2", adapter := "qa",
    content := "v2", content_hash := "v2", display_text := "v2", gradable := true,
    source_line := 2, created_at := "t0" }

def D : Catalog :=
  { cards := [card1, card2],
    card_state := [⟨1, Status.active, "t0"⟩, ⟨2, Status.active, "t0"⟩],
    card_tags := [], card_relations := [],
    recommendations := [⟨2, "sm2", "2020", 60⟩],
    review_log := [], card_flags := [], next_id := 3 }

def s : SessionRS :=
  { session_id := "sess", tag_filter := none, path_filter := none,
    flag_filter := none, current_card := none, undo_stack := [],
    flip_time := none, serve_time := none, reviewed := 0, reviewed_ids := [] }

end C5ex

/-- C5 witness: the minimality characterization at a concrete two-card
catalog where card 2 carries a due recommendation. -/
theorem c5_next_card_minimum_witness :
    (C5ex.D.recommendations.map RecRow.card_id).Nodup ∧
    (((get_next_card "2021" 7 C5ex.D C5ex.s).2 = none ↔
       ∀ c ∈ C5ex.D.cards, claimEligible "2021" C5ex.D C5ex.s c = false) ∧
    (∀ c, (get_next_card "2021" 7 C5ex.D C5ex.s).2 = some c →
       c ∈ C5ex.D.cards ∧ claimEligible "2021" C5ex.D C5ex.s c = true ∧
       c.id ∉ C5ex.s.reviewed_ids ∧
       ∀ d ∈ C5ex.D.cards, claimEligible "2021" C5ex.D C5ex.s d = true →
         claimLe C5ex.D c d = true) ∧
    (∀ (σ2 : Type) (sched : Option (Scheduler σ2)) (now2 : String) (t2 g : Nat)
       (fb resp : Option String) (D0 : Catalog) (s0 : SessionRS) (sst : σ2)
       (r : Catalog × SessionRS × σ2) (cc : CardRow),
       s0.current_card = some cc →
       grade_current sched now2 t2 g fb resp D0 s0 sst = some r →
       cc.id ∈ r.2.1.reviewed_ids) ∧
    (∀ (D0 : Catalog) (s0 : SessionRS) (cc : CardRow),
       s0.current_card = some cc → cc.id ∈ (skip_op D0 s0).reviewed_ids) ∧
    (∀ (σ2 : Type) (sched : Option (Scheduler σ2)) (now2 : String) (D0 : Catalog)
       (s0 : SessionRS) (sst : σ2) (cc : CardRow),
       s0.current_card = some cc →
       cc.id ∈ (suspend_op sched now2 D0 s0 sst).2.1.reviewed_ids)) :=
  ⟨by decide, c5_next_card_minimum "2021" 7 C5ex.D C5ex.s (by decide)⟩

theorem excludeFold_mem_sib :
    ∀ (sibs : List Nat) (acc : SessionRS × List Nat) (i : Nat),
      i ∈ sibs → i ∈ (sibs.foldl excludeStep acc).1.reviewed_ids := by
  intro sibs
  induction sibs with
  | nil => intro acc i h; exact absurd h (List.not_mem_nil i)
  | cons sid t ih =>
    intro acc i h
    rw [List.foldl_cons]
    rcases List.mem_cons.mp h with rfl | hmem
    · apply excludeFold_mem_preserved
      unfold excludeStep
      by_cases hc : acc.1.reviewed_ids.contains i
      · rw [if_pos hc]; simpa using hc
      · rw [if_neg hc]; simp
    · exact ih _ i hmem

theorem mem_siblingsOf (D : Catalog) (X yid : Nat)
    (hrel : (⟨X, yid, "mutually_exclusive"⟩ : RelRow) ∈ D.card_relations ∨
            (⟨yid, X, "mutually_exclusive"⟩ : RelRow) ∈ D.card_relations) :
    yid ∈ siblingsOf D X := by
  unfold siblingsOf
  rcases hrel with h | h
  · apply List.mem_append_left
    rw [List.mem_map]
    refine ⟨⟨X, yid, "mutually_exclusive"⟩, ?_, rfl⟩
    rw [List.mem_filter]
    exact ⟨h, by simp⟩
  · apply List.mem_append_right
    rw [List.mem_map]
    refine ⟨⟨yid, X, "mutually_exclusive"⟩, ?_, rfl⟩
    rw [List.mem_filter]
    exact ⟨h, by simp⟩

theorem siblingsOf_congr {A B : Catalog} (h : A.card_relations = B.card_relations)
    (i : Nat) : siblingsOf A i = siblingsOf B i := by
  unfold siblingsOf
  rw [h]

theorem addReviewedId_mem_preserved (s : SessionRS) (j i : Nat)
    (h : i ∈ s.reviewed_ids) : i ∈ (addReviewedId s j).reviewed_ids := by
  unfold addReviewedId
  by_cases hc : s.reviewed_ids.contains j
  · rw [if_pos hc]; exact h
  · rw [if_neg hc]; exact List.mem_append_left _ h

theorem get_next_reviewed_ids (now : String) (t : Nat) (D : Catalog) (s : SessionRS) :
    ((get_next_card now t D s).1).reviewed_ids = s.reviewed_ids := by
  unfold get_next_card
  cases hsel : selectFirst rowLe ((joinRows D).filter (eligibleRow now D s)) with
  | none => rfl
  | some p => rfl

theorem grade_reviewed_mono {σ : Type} (sched : Option (Scheduler σ))
    (now : String) (t g : Nat) (fb resp : Option String) (D : Catalog)
    (s : SessionRS) (sst : σ) (r : Catalog × SessionRS × σ)
    (h : grade_current sched now t g fb resp D s sst = some r)
    (i : Nat) (hi : i ∈ s.reviewed_ids) : i ∈ r.2.1.reviewed_ids := by
  unfold grade_current at h
  cases hcur : s.current_card with
  | none => rw [hcur] at h; exact Option.noConfusion h
  | some card =>
    rw [hcur] at h
    simp only at h
    cases Option.some.inj h
    show i ∈ (exclude_mutually_exclusive _ (addReviewedId s card.id) card.id).1.reviewed_ids
    unfold exclude_mutually_exclusive
    exact excludeFold_mem_preserved _ _ _ (addReviewedId_mem_preserved s card.id i hi)

theorem skip_reviewed_mono (D : Catalog) (s : SessionRS) (i : Nat)
    (hi : i ∈ s.reviewed_ids) : i ∈ (skip_op D s).reviewed_ids := by
  unfold skip_op
  cases hcur : s.current_card with
  | none => exact hi
  | some card =>
    simp only
    show i ∈ (exclude_mutually_exclusive D (addReviewedId s card.id) card.id).1.reviewed_ids
    unfold exclude_mutually_exclusive
    exact excludeFold_mem_preserved _ _ _ (addReviewedId_mem_preserved s card.id i hi)

theorem suspend_reviewed_mono {σ : Type} (sched : Option (Scheduler σ))
    (now : String) (D : Catalog) (s : SessionRS) (sst : σ) (i : Nat)
    (hi : i ∈ s.reviewed_ids) :
    i ∈ (suspend_op sched now D s sst).2.1.reviewed_ids := by
  unfold suspend_op
  cases hcur : s.current_card with
  | none => exact hi
  | some card =>
    simp only
    apply excludeFold_mem_preserved
    exact addReviewedId_mem_preserved s card.id i hi

/-- `reviewed_ids` only grows under any endpoint other than undo. -/
theorem stepOp_reviewed_mono {σ : Type} (sched : Option (Scheduler σ))
    (st : SysSt σ) (op : SOp) (hop : ∀ t0, op ≠ SOp.undo t0) (i : Nat)
    (hi : i ∈ st.sess.reviewed_ids) :
    i ∈ (stepOp sched st op).sess.reviewed_ids := by
  cases op with
  | getNext now t =>
    show i ∈ ((get_next_card now t st.db st.sess).1).reviewed_ids
    rw [get_next_reviewed_ids]
    exact hi
  | grade g fb resp now t =>
    have hred : stepOp sched st (SOp.grade g fb resp now t) =
        (match grade_current sched now t g fb resp st.db st.sess st.sched_st with
         | none => st
         | some r => ({ db := r.1, sess := r.2.1, sched_st := r.2.2 } : SysSt σ)) := rfl
    rw [hred]
    cases hg : grade_current sched now t g fb resp st.db st.sess st.sched_st with
    | none => exact hi
    | some r =>
      exact grade_reviewed_mono sched now t g fb resp st.db st.sess st.sched_st r hg i hi
  | skip => exact skip_reviewed_mono st.db st.sess i hi
  | suspend now => exact suspend_reviewed_mono sched now st.db st.sess st.sched_st i hi
  | undo t => exact absurd rfl (hop t)

theorem runOps_reviewed_mono {σ : Type} (sched : Option (Scheduler σ)) :
    ∀ (ops : List SOp) (st : SysSt σ),
      (∀ t0, SOp.undo t0 ∉ ops) → ∀ i ∈ st.sess.reviewed_ids,
      i ∈ (runOps sched st ops).sess.reviewed_ids := by
  intro ops
  induction ops with
  | nil => intro st _ i hi; exact hi
  | cons op t ih =>
    intro st hno i hi
    show i ∈ (runOps sched (stepOp sched st op) t).sess.reviewed_ids
    apply ih
    · intro t0 ht0
      exact hno t0 (List.mem_cons_of_mem _ ht0)
    · apply stepOp_reviewed_mono sched st op ?_ i hi
      intro t0 heq
      exact hno t0 (heq ▸ List.mem_cons_self _ _)

/-- The next-card query never returns a card in the excluded set. -/
theorem get_next_not_excluded (now : String) (t : Nat) (D : Catalog)
    (s : SessionRS) (c : CardRow)
    (h : (get_next_card now t D s).2 = some c) : c.id ∉ s.reviewed_ids := by
  unfold get_next_card at h
  cases hsel : selectFirst rowLe ((joinRows D).filter (eligibleRow now D s)) with
  | none => rw [hsel] at h; exact Option.noConfusion h
  | some p =>
    rw [hsel] at h
    simp only at h
    have hpc : p.1 = c := Option.some.inj h
    obtain ⟨hmem, _, _⟩ :=
      selectFirst_min rowLe rowLe_total rowLe_trans _ none p hsel
    rcases hmem with hm | hm
    · rw [List.mem_filter] at hm
      have helig := hm.2
      unfold eligibleRow at helig
      simp only [Bool.and_eq_true] at helig
      have hpf := helig.2
      unfold passesFilters at hpf
      simp only [Bool.and_eq_true, Bool.not_eq_true'] at hpf
      intro hcon
      rw [hpc] at hpf
      have h2 := hpf.2
      simp at h2
      exact h2 hcon
    · exact Option.noConfusion hm

/-! ### Claim C6 -/

namespace C6ex

def cardX : CardRow :=
  { id := 1, source_path := "/a.md", card_key := "q1", adapter := "qa",
    content := "v1", content_hash := "v1", display_text := "v1", gradable := false,
    source_line := 1, created_at := "t0" }

def cardY : CardRow :=
  { id := 2, source_path := "/a.md", card_key := "q2", adapter := "qa",
    content := "v2", content_hash := "v2", display_text := "v2", gradable := true,
    source_line := 2, created_at := "t0" }

def D : Catalog :=
  { cards := [cardX, cardY],
    card_state := [⟨1, Status.active, "t0"⟩, ⟨2, Status.active, "t0"⟩],
    card_tags := [], card_relations := [⟨1, 2, "mutually_exclusive"⟩],
    recommendations := [], review_log := [], card_flags := [], next_id := 3 }

/-- A session that has just served card 1 (card 2 is its sibling). -/
def s0 : SessionRS :=
  { session_id := "sess", tag_filter := none, path_filter := none,
    flag_filter := none, current_card := some cardX, undo_stack := [],
    flip_time := some 3, serve_time := some 2, reviewed := 0, reviewed_ids := [] }

def st0 : SysSt Unit := ⟨D, s0, ()⟩

/-- The state after grading card 1. -/
def r1 : Catalog × SessionRS × Unit :=
  (grade_current (none : Option (Scheduler Unit)) "n1" 5 1 none none D s0 ()).getD
    (D, s0, ())

end C6ex

/-- C6 counterexample: cards 1 and 2 are `mutually_exclusive` siblings; after
`grade_current` on card 1 the sibling card 2 is in the session's excluded
set, as the claim says — but the claim's "no subsequent get_next_card call
in that session ever returns Y" fails: the undo endpoint removes the sibling
exclusions the grade contributed, and the following `get_next_card` call of
the same session returns card 2. -/
theorem c6_sibling_returned_after_undo :
    2 ∈ (runOps (none : Option (Scheduler Unit)) C6ex.st0
        [SOp.grade 1 none none "n1" 5]).sess.reviewed_ids ∧
    ((get_next_card "2021" 7
        (runOps (none : Option (Scheduler Unit)) C6ex.st0
          [SOp.grade 1 none none "n1" 5, SOp.undo 6]).db
        (runOps (none : Option (Scheduler Unit)) C6ex.st0
          [SOp.grade 1 none none "n1" 5, SOp.undo 6]).sess).2).map CardRow.id =
      some 2 := by
  constructor <;> decide

/-- C6 (amended): if the graded card X is linked to card id `yid` by a
`mutually_exclusive` relation in either direction, then after `grade_current`
the sibling is in the session's excluded set, and no `get_next_card` call
after any further undo-free sequence of session operations returns it. (The
frozen claim's unrestricted "ever" fails because undo removes the sibling
exclusions the grade contributed; see the counterexample.) -/
theorem c6_sibling_suppression_undo_free {σ : Type} (sched : Option (Scheduler σ))
    (now : String) (t g : Nat) (fb resp : Option String) (D : Catalog)
    (s : SessionRS) (sst : σ) (r : Catalog × SessionRS × σ) (X : CardRow) (yid : Nat)
    (hcur : s.current_card = some X)
    (hrel : (⟨X.id, yid, "mutually_exclusive"⟩ : RelRow) ∈ D.card_relations ∨
            (⟨yid, X.id, "mutually_exclusive"⟩ : RelRow) ∈ D.card_relations)
    (hg : grade_current sched now t g fb resp D s sst = some r) :
    yid ∈ r.2.1.reviewed_ids ∧
    ∀ (ops : List SOp), (∀ t0, SOp.undo t0 ∉ ops) →
      ∀ (now2 : String) (t2 : Nat) (c : CardRow),
        (get_next_card now2 t2 (runOps sched ⟨r.1, r.2.1, r.2.2⟩ ops).db
          (runOps sched ⟨r.1, r.2.1, r.2.2⟩ ops).sess).2 = some c →
        c.id ≠ yid := by
  have hy : yid ∈ r.2.1.reviewed_ids := by
    unfold grade_current at hg
    rw [hcur] at hg
    simp only at hg
    cases Option.some.inj hg
    show yid ∈ (exclude_mutually_exclusive _ (addReviewedId s X.id) X.id).1.reviewed_ids
    unfold exclude_mutually_exclusive
    apply excludeFold_mem_sib
    have hcongr : ∀ (ev : ReviewEvent) (DD : Catalog),
        siblingsOf (applyOnReview sched sst X.id ev DD).1 X.id =
          siblingsOf DD X.id := fun ev DD =>
      siblingsOf_congr ((applyOnReview_eqExceptRecs sched sst X.id ev DD).card_relations)
        X.id
    rw [hcongr]
    exact mem_siblingsOf _ X.id yid hrel
  refine ⟨hy, ?_⟩
  intro ops hno now2 t2 c hret heq
  have hmono := runOps_reviewed_mono sched ops ⟨r.1, r.2.1, r.2.2⟩ hno yid hy
  have hnot := get_next_not_excluded now2 t2 _ _ c hret
  rw [← heq] at hmono
  exact hnot hmono

/-- C6 witness: the amended suppression at the concrete sibling pair. -/
theorem c6_sibling_suppression_undo_free_witness :
    C6ex.s0.current_card = some C6ex.cardX ∧
    ((⟨C6ex.cardX.id, 2, "mutually_exclusive"⟩ : RelRow) ∈ C6ex.D.card_relations ∨
     (⟨2, C6ex.cardX.id, "mutually_exclusive"⟩ : RelRow) ∈ C6ex.D.card_relations) ∧
    grade_current (none : Option (Scheduler Unit)) "n1" 5 1 none none
      C6ex.D C6ex.s0 () = some C6ex.r1 ∧
    (2 ∈ C6ex.r1.2.1.reviewed_ids ∧
     ∀ (ops : List SOp), (∀ t0, SOp.undo t0 ∉ ops) →
       ∀ (now2 : String) (t2 : Nat) (c : CardRow),
         (get_next_card now2 t2
             (runOps (none : Option (Scheduler Unit))
               ⟨C6ex.r1.1, C6ex.r1.2.1, C6ex.r1.2.2⟩ ops).db
             (runOps (none : Option (Scheduler Unit))
               ⟨C6ex.r1.1, C6ex.r1.2.1, C6ex.r1.2.2⟩ ops).sess).2 = some c →
         c.id ≠ 2) :=
  ⟨by decide, by decide, by decide,
   c6_sibling_suppression_undo_free (none : Option (Scheduler Unit)) "n1" 5 1 none none
     C6ex.D C6ex.s0 () C6ex.r1 C6ex.cardX 2 (by decide) (by decide) (by decide)⟩

/-! ### Claim C8 -/

/-- C8: scheduler hook failure containment. With a scheduler whose hooks all
raise, `sync_cards` still completes and commits exactly the catalog and stats
a scheduler-less sync would (no exception propagates — the functions are
total and their results are as stated); against any other scheduler the
failing run differs at most in the recommendations table, with identical
stats. Likewise `grade_current` with the failing scheduler completes,
commits the same catalog (review-log write included) and session as without
a scheduler, and against any other scheduler it differs at most in
recommendations. -/
theorem c8_hook_failure_containment {σ : Type} (hashFn : String → String)
    (now : String) (D : Catalog) (R : List ScanResult) (sp : List (String × Bool))
    (S : Scheduler σ) (sst : σ) (t : Nat) (g : Nat) (fb resp : Option String)
    (s : SessionRS) (card : CardRow)
    (hfail : AlwaysFails S) (hcur : s.current_card = some card) :
    ((sync_cards hashFn now D R (some S) sst sp).1 =
        (sync_cards hashFn now D R (none : Option (Scheduler σ)) sst sp).1 ∧
      (sync_cards hashFn now D R (some S) sst sp).2.1 =
        (sync_cards hashFn now D R (none : Option (Scheduler σ)) sst sp).2.1) ∧
    (∀ S2 : Scheduler σ,
      EqExceptRecs (sync_cards hashFn now D R (some S2) sst sp).1
        (sync_cards hashFn now D R (some S) sst sp).1 ∧
      (sync_cards hashFn now D R (some S2) sst sp).2.1 =
        (sync_cards hashFn now D R (some S) sst sp).2.1) ∧
    (∃ outS outN,
      grade_current (some S) now t g fb resp D s sst = some outS ∧
      grade_current (none : Option (Scheduler σ)) now t g fb resp D s sst = some outN ∧
      outS.1 = outN.1 ∧ outS.2.1 = outN.2.1) ∧
    (∀ S2 : Scheduler σ, ∃ outS2 outS,
      grade_current (some S2) now t g fb resp D s sst = some outS2 ∧
      grade_current (some S) now t g fb resp D s sst = some outS ∧
      outS2.2.1 = outS.2.1 ∧ EqExceptRecs outS2.1 outS.1) := by
  have hsyncF := sync_cards_fail_eq_none hashFn now D R S sst sp hfail
  refine ⟨hsyncF, ?_, ?_, ?_⟩
  · intro S2
    have h2 := sync_cards_scheduler_indep hashFn now D R S2 sst sp
    constructor
    · rw [hsyncF.1]
      exact h2.1
    · rw [hsyncF.2]
      exact h2.2
  · obtain ⟨outS, outN, e1, e2, hsess, _hER, himp⟩ :=
      grade_current_scheduler_indep S sst now t g fb resp D s card hcur
    exact ⟨outS, outN, e1, e2, himp hfail.2.2.2, hsess⟩
  · intro S2
    obtain ⟨out2, outN, e1, e2, hsess2, hER2, _⟩ :=
      grade_current_scheduler_indep S2 sst now t g fb resp D s card hcur
    obtain ⟨outS, outN2, e1s, e2s, hsessS, _hERS, himpS⟩ :=
      grade_current_scheduler_indep S sst now t g fb resp D s card hcur
    have hNN : outN = outN2 := by
      rw [e2] at e2s
      exact Option.some.inj e2s
    refine ⟨out2, outS, e1, e1s, ?_, ?_⟩
    · rw [hsess2, hsessS, hNN]
    · rw [himpS hfail.2.2.2, ← hNN]
      exact hER2

namespace C8ex

/-- A scheduler whose every hook raises. -/
def Sfail : Scheduler Unit :=
  { scheduler_id := "fail",
    on_card_created := fun s _ => (s, Except.error "boom"),
    on_card_replaced := fun s _ _ => (s, Except.error "boom"),
    on_card_status_changed := fun s _ _ => (s, Except.error "boom"),
    on_review := fun s _ _ => (s, Except.error "boom") }

theorem sfail_fails : AlwaysFails Sfail :=
  ⟨fun _ _ => ⟨"boom", rfl⟩, fun _ _ _ => ⟨"boom", rfl⟩,
   fun _ _ _ => ⟨"boom", rfl⟩, fun _ _ _ => ⟨"boom", rfl⟩⟩

def card1 : CardRow :=
  { id := 1, source_path := "/a.md", card_key := "q1", adapter := "qa",
    content := "v1", content_hash := "v1", display_text := "v1", gradable := true,
    source_line := 1, created_at := "t0" }

def D : Catalog :=
  { cards := [card1], card_state := [⟨1, Status.active, "t0"⟩],
    card_tags := [], card_relations := [], recommendations := [],
    review_log := [], card_flags := [], next_id := 2 }

/-- A scan with changed content plus a fresh card, exercising the replace
and insert hooks; the absent second triple also exercises nothing else. -/
def R : List ScanResult :=
  [("/a.md", "qa",
    [{ key := "q1", content := "v2", display_text := "v2", gradable := true,
       source_line := 1, tags := [], relations := [] },
     { key := "q9", content := "w", display_text := "w", gradable := true,
       source_line := 9, tags := [], relations := [] }], ⟨false⟩)]

def s : SessionRS :=
  { session_id := "sess", tag_filter := none, path_filter := none,
    flag_filter := none, current_card := some card1, undo_stack := [],
    flip_time := some 3, serve_time := some 2, reviewed := 0, reviewed_ids := [] }

end C8ex

/-- C8 witness: hook-failure containment at a concrete catalog, scan and
session, with a concrete scheduler whose every hook raises. -/
theorem c8_hook_failure_containment_witness :
    ((sync_cards id "n" C8ex.D C8ex.R (some C8ex.Sfail) () []).1 =
        (sync_cards id "n" C8ex.D C8ex.R (none : Option (Scheduler Unit)) () []).1 ∧
      (sync_cards id "n" C8ex.D C8ex.R (some C8ex.Sfail) () []).2.1 =
        (sync_cards id "n" C8ex.D C8ex.R (none : Option (Scheduler Unit)) () []).2.1) ∧
    (∃ outS outN,
      grade_current (some C8ex.Sfail) "n" 9 1 none none C8ex.D C8ex.s () = some outS ∧
      grade_current (none : Option (Scheduler Unit)) "n" 9 1 none none C8ex.D C8ex.s ()
        = some outN ∧
      outS.1 = outN.1 ∧ outS.2.1 = outN.2.1) :=
  have h := c8_hook_failure_containment id "n" C8ex.D C8ex.R [] C8ex.Sfail () 9 1
    none none C8ex.s C8ex.card1 C8ex.sfail_fails (by decide)
  ⟨h.1, h.2.2.1⟩

/-! ### Claim C7 -/

/-- C7 (amended): in the `server_review.py` session, a grade of a served card
followed immediately by undo restores the excluded set (`reviewed_ids`) to
its pre-grade value, restores the served card as current with flip and serve
times set and `previous_card` cleared, and the review log retains the
grade's event — but the `reviewed` counter is NOT restored: it remains
incremented by one, because the undo handler never decrements it. (The
original claim also asserted the reviewed counter returns to its pre-grade
value; the counterexample shows it does not. Sibling exclusions do not arise:
this session variant's `grade_current` performs no sibling exclusion.) -/
theorem c7_grade_undo_srv {σ : Type} (sched : Option (Scheduler σ)) (sst : σ)
    (now : String) (t t2 : Nat) (g : Nat) (fb : Option String) (resp : Option String)
    (D : Catalog) (s : SessionSRV) (card : CardRow)
    (hcur : s.current_card = some card)
    (hnotin : card.id ∉ s.reviewed_ids) :
    ∃ out, grade_srv sched now t g fb resp D s sst = some out ∧
      ∃ s2, undo_srv t2 out.2.1 = some s2 ∧
        s2.reviewed_ids = s.reviewed_ids ∧
        s2.current_card = some card ∧
        s2.flip_time = some t2 ∧
        s2.serve_time = some t2 ∧
        s2.previous_card = none ∧
        (∃ ev : ReviewRow, out.1.review_log = D.review_log ++ [ev] ∧
          ev.card_id = card.id ∧ ev.grade = g) ∧
        s2.reviewed = s.reviewed + 1 := by
  have hcont : s.reviewed_ids.contains card.id = false := by
    simpa using hnotin
  have hfilt : (s.reviewed_ids ++ [card.id]).filter (fun i => !(i == card.id)) =
      s.reviewed_ids := by
    rw [List.filter_append]
    have h1 : List.filter (fun i => !(i == card.id)) [card.id] = [] := by simp
    have h2 : List.filter (fun i => !(i == card.id)) s.reviewed_ids = s.reviewed_ids := by
      rw [List.filter_eq_self]
      intro x hx
      simp only [Bool.not_eq_true']
      exact beq_eq_false_iff_ne.mpr (fun h => hnotin (h ▸ hx))
    rw [h1, h2, List.append_nil]
  unfold grade_srv
  rw [hcur]
  simp only [hcont, Bool.false_eq_true, if_false]
  refine ⟨_, rfl, ?_⟩
  unfold undo_srv
  simp only
  refine ⟨_, rfl, hfilt, rfl, rfl, rfl, rfl, ?_, rfl⟩
  refine ⟨⟨card.id, s.session_id, now, g,
      (match s.flip_time, s.serve_time with
        | some ft, some sv => some ((Int.ofNat ft - Int.ofNat sv) * 1000)
        | _, _ => none),
      (match s.serve_time with
        | some sv => some ((Int.ofNat t - Int.ofNat sv) * 1000)
        | none => none), fb, resp⟩, ?_, rfl, rfl⟩
  rw [(applyOnReview_eqExceptRecs sched sst card.id _ _).review_log]

namespace C7ex

def card1 : CardRow :=
  { id := 1, source_path := "/a.md", card_key := "q1", adapter := "qa",
    content := "v1", content_hash := "v1", display_text := "v1", gradable := true,
    source_line := 1, created_at := "t0" }

def D : Catalog :=
  { cards := [card1], card_state := [⟨1, Status.active, "t0"⟩],
    card_tags := [], card_relations := [], recommendations := [],
    review_log := [], card_flags := [], next_id := 2 }

/-- A session that has just served card 1 and shown its back. -/
def s : SessionSRV :=
  { session_id := "sess", current_card := some card1, previous_card := none,
    flip_time := some 3, serve_time := some 2, reviewed := 0, reviewed_ids := [] }

/-- Grade card 1, then undo. -/
def after : Option SessionSRV :=
  (grade_srv (none : Option (Scheduler Unit)) "now" 5 1 none none D s ()).bind
    (fun r => undo_srv 6 r.2.1)

end C7ex

/-- C7 counterexample: the claim says the `reviewed` counter equals its
pre-grade value after a grade+undo pair; in the cited `server_review.py`
session it does not — the pre-grade counter is 0, and after grading card 1
and undoing, the counter is 1 (the `/api/undo` handler never decrements it). -/
theorem c7_undo_reviewed_counterexample :
    C7ex.s.reviewed = 0 ∧
    C7ex.after.map SessionSRV.reviewed = some 1 ∧
    C7ex.after.map SessionSRV.current_card = some (some C7ex.card1) := by
  refine ⟨rfl, ?_, ?_⟩ <;> decide

/-- C7 witness: the amended grade+undo symmetry at a concrete session. -/
theorem c7_grade_undo_srv_witness :
    ∃ out, grade_srv (none : Option (Scheduler Unit)) "now" 5 1 none none
        C7ex.D C7ex.s () = some out ∧
      ∃ s2, undo_srv 6 out.2.1 = some s2 ∧
        s2.reviewed_ids = C7ex.s.reviewed_ids ∧
        s2.current_card = some C7ex.card1 ∧
        s2.flip_time = some 6 ∧
        s2.serve_time = some 6 ∧
        s2.previous_card = none ∧
        (∃ ev : ReviewRow, out.1.review_log = C7ex.D.review_log ++ [ev] ∧
          ev.card_id = C7ex.card1.id ∧ ev.grade = 1) ∧
        s2.reviewed = C7ex.s.reviewed + 1 :=
  c7_grade_undo_srv none () "now" 5 6 1 none none C7ex.D C7ex.s C7ex.card1
    (by decide) (by decide)

/-! ### Claim C1 -/

/-- C1: for a scanned card whose triple is held in the in-scope existing map
with a different content fingerprint, the per-card decision of `sync_cards`
performs the replacement protocol: the old row's state becomes `deleted`, the
old row's key is rewritten to `{key}__replaced_{id}` using the old row's id,
a new card row is inserted with the same source path, card key and adapter as
the prior (with the scanned content and its fingerprint), exactly one
`(old_id, new_id, is_replaced_by)` relation is appended, and the card is
counted as `updated`. Hypotheses: the map entry reflects an actual catalog
row with that id and triple, and the row has a state row. -/
theorem c1_replacement_protocol {σ : Type} (hashFn : String → String) (now : String)
    (sched : Option (Scheduler σ)) (susp : List (String × Bool)) (st : SyncSt σ)
    (t : Triple) (card : Card) (row : ExistRow) (c0 : CardRow)
    (hmap : alLookup t st.emap = some row)
    (hne : ¬ row.content_hash = hashFn card.content)
    (hc0 : c0 ∈ st.db.cards) (hc0id : c0.id = row.id) (hc0trip : tripleOf c0 = t)
    (hstat : (statusOf st.db row.id).isSome = true) :
    statusOf (processCard hashFn now sched susp st (t, card)).db row.id =
      some Status.deleted ∧
    ({ c0 with card_key := t.2.1 ++ "__replaced_" ++ toString row.id } : CardRow) ∈
      (processCard hashFn now sched susp st (t, card)).db.cards ∧
    newCardRow now st.db.next_id t card (hashFn card.content) ∈
      (processCard hashFn now sched susp st (t, card)).db.cards ∧
    (processCard hashFn now sched susp st (t, card)).db.card_relations =
      st.db.card_relations ++ [⟨row.id, st.db.next_id, "is_replaced_by"⟩] ∧
    (processCard hashFn now sched susp st (t, card)).stats =
      { st.stats with updated := st.stats.updated + 1 } := by
  rw [processCard_replace_eq hashFn now sched susp st card hmap hne]
  obtain ⟨hcards, hstate, _htags, hrels, _hlog, _hflags, _hnext, hstats, _hemap⟩ :=
    processReplace_spec now sched st t card (hashFn card.content) row
  refine ⟨?_, ?_, ?_, hrels, hstats⟩
  · rw [statusOf_eq_list, hstate]
    have h1 := statusOfList_set_self st.db.card_state row.id Status.deleted now
    rw [statusOf_eq_list] at hstat
    obtain ⟨v, hv⟩ := Option.isSome_iff_exists.mp hstat
    rw [statusOfList_append_of_isSome]
    · rw [h1, hv]
      rfl
    · rw [h1, hv]
      rfl
  · rw [hcards]
    refine List.mem_append_left _ (List.mem_map.mpr ⟨c0, hc0, ?_⟩)
    rw [if_pos hc0id]
    have hk : c0.card_key = t.2.1 := by rw [← hc0trip]; rfl
    rw [hk, hc0id]
  · rw [hcards]
    exact List.mem_append_right _ (List.mem_singleton.mpr rfl)

namespace C1ex

def c0 : CardRow :=
  { id := 1, source_path := "/a.md", card_key := "q1", adapter := "qa",
    content := "v1", content_hash := "v1", display_text := "v1",
    gradable := true, source_line := 1, created_at := "t0" }

def row : ExistRow :=
  { id := 1, source_path := "/a.md", card_key := "q1", adapter := "qa",
    content_hash := "v1", status := Status.active }

def t : Triple := ("/a.md", "q1", "qa")

def card : Card :=
  { key := "q1", content := "v2", display_text := "v2", gradable := true,
    source_line := 2, tags := [], relations := [] }

def st : SyncSt Unit :=
  { db := { cards := [c0],
            card_state := [⟨1, Status.active, "t0"⟩],
            card_tags := [], card_relations := [], recommendations := [],
            review_log := [], card_flags := [], next_id := 2 },
    stats := ⟨0, 0, 0, 0⟩,
    emap := [(t, row)],
    sched_st := () }

end C1ex

/-- C1 witness: the replacement protocol at a concrete catalog. -/
theorem c1_replacement_protocol_witness :
    statusOf (processCard id "t1" (none : Option (Scheduler Unit)) [] C1ex.st
        (C1ex.t, C1ex.card)).db C1ex.row.id = some Status.deleted ∧
    ({ C1ex.c0 with card_key := C1ex.t.2.1 ++ "__replaced_" ++ toString C1ex.row.id } :
        CardRow) ∈
      (processCard id "t1" (none : Option (Scheduler Unit)) [] C1ex.st
        (C1ex.t, C1ex.card)).db.cards ∧
    newCardRow "t1" C1ex.st.db.next_id C1ex.t C1ex.card (id C1ex.card.content) ∈
      (processCard id "t1" (none : Option (Scheduler Unit)) [] C1ex.st
        (C1ex.t, C1ex.card)).db.cards ∧
    (processCard id "t1" (none : Option (Scheduler Unit)) [] C1ex.st
        (C1ex.t, C1ex.card)).db.card_relations =
      C1ex.st.db.card_relations ++
        [⟨C1ex.row.id, C1ex.st.db.next_id, "is_replaced_by"⟩] ∧
    (processCard id "t1" (none : Option (Scheduler Unit)) [] C1ex.st
        (C1ex.t, C1ex.card)).stats =
      { C1ex.st.stats with updated := C1ex.st.stats.updated + 1 } :=
  c1_replacement_protocol id "t1" none [] C1ex.st C1ex.t C1ex.card C1ex.row C1ex.c0
    (by decide) (by decide) (by decide) (by decide) (by decide) (by decide)

/-! ### Claim C10 -/

/-- C10: on the unchanged path (matched triple with equal fingerprint) the
per-card decision mutates only the matched row's `display_text` and
`source_line` and the card's tag set: the cards table is exactly the
identity map except for those two columns on the matched id, every other
card row is untouched, and `card_state`, `recommendations`,
`card_relations`, `review_log`, the id counter and other cards' tag rows are
all unchanged; the card's resulting tag set is exactly the scanned tag
list, and the card counts as `unchanged`. -/
theorem c10_unchanged_frame {σ : Type} (hashFn : String → String) (now : String)
    (sched : Option (Scheduler σ)) (susp : List (String × Bool)) (st : SyncSt σ)
    (t : Triple) (card : Card) (row : ExistRow) (c0 : CardRow)
    (hmap : alLookup t st.emap = some row)
    (heq : row.content_hash = hashFn card.content)
    (hc0 : c0 ∈ st.db.cards) (hc0id : c0.id = row.id) :
    (processCard hashFn now sched susp st (t, card)).db.cards =
      st.db.cards.map (fun c =>
        if c.id = row.id then
          { c with display_text := card.display_text, source_line := card.source_line }
        else c) ∧
    ({ c0 with display_text := card.display_text, source_line := card.source_line } :
        CardRow) ∈ (processCard hashFn now sched susp st (t, card)).db.cards ∧
    (∀ c ∈ st.db.cards, c.id ≠ row.id →
      c ∈ (processCard hashFn now sched susp st (t, card)).db.cards) ∧
    (processCard hashFn now sched susp st (t, card)).db.card_state =
      st.db.card_state ∧
    (processCard hashFn now sched susp st (t, card)).db.recommendations =
      st.db.recommendations ∧
    (processCard hashFn now sched susp st (t, card)).db.card_relations =
      st.db.card_relations ∧
    (processCard hashFn now sched susp st (t, card)).db.review_log =
      st.db.review_log ∧
    (processCard hashFn now sched susp st (t, card)).db.next_id = st.db.next_id ∧
    (∀ (j : Nat) (tg : String), j ≠ row.id →
      ((j, tg) ∈ (processCard hashFn now sched susp st (t, card)).db.card_tags ↔
        (j, tg) ∈ st.db.card_tags)) ∧
    (∀ tg : String,
      ((row.id, tg) ∈ (processCard hashFn now sched susp st (t, card)).db.card_tags ↔
        tg ∈ card.tags)) ∧
    (processCard hashFn now sched susp st (t, card)).stats =
      { st.stats with unchanged := st.stats.unchanged + 1 } := by
  rw [processCard_unchanged_eq hashFn now sched susp st card hmap heq,
      processUnchanged_spec]
  refine ⟨rfl, ?_, ?_, rfl, rfl, rfl, rfl, rfl, ?_, ?_, rfl⟩
  · exact List.mem_map.mpr ⟨c0, hc0, by rw [if_pos hc0id]⟩
  · intro c hc hne
    exact List.mem_map.mpr ⟨c, hc, by rw [if_neg hne]⟩
  · intro j tg hj
    exact mem_syncTagsList_ne st.db.card_tags row.id card.tags tg hj
  · intro tg
    exact mem_syncTagsList_self st.db.card_tags row.id card.tags tg

namespace C10ex

def c0 : CardRow :=
  { id := 1, source_path := "/a.md", card_key := "q1", adapter := "qa",
    content := "v1", content_hash := "v1", display_text := "old", gradable := true,
    source_line := 1, created_at := "t0" }

def other : CardRow :=
  { id := 2, source_path := "/b.md", card_key := "q2", adapter := "qa",
    content := "w1", content_hash := "w1", display_text := "w", gradable := true,
    source_line := 5, created_at := "t0" }

def row : ExistRow :=
  { id := 1, source_path := "/a.md", card_key := "q1", adapter := "qa",
    content_hash := "v1", status := Status.active }

def t : Triple := ("/a.md", "q1", "qa")

/-- The same content but different display text, line number and tags. -/
def card : Card :=
  { key := "q1", content := "v1", display_text := "new", gradable := true,
    source_line := 7, tags := ["t2"], relations := [] }

def st : SyncSt Unit :=
  { db := { cards := [c0, other],
            card_state := [⟨1, Status.active, "t0"⟩, ⟨2, Status.active, "t0"⟩],
            card_tags := [(1, "t1"), (2, "u1")],
            card_relations := [],
            recommendations := [⟨1, "sm2", "soon", 60⟩],
            review_log := [], card_flags := [], next_id := 3 },
    stats := ⟨0, 0, 0, 0⟩,
    emap := [(t, row)],
    sched_st := () }

end C10ex

/-- C10 witness: the unchanged-path frame condition at a concrete catalog. -/
theorem c10_unchanged_frame_witness :
    (processCard id "t1" (none : Option (Scheduler Unit)) [] C10ex.st
        (C10ex.t, C10ex.card)).db.cards =
      C10ex.st.db.cards.map (fun c =>
        if c.id = C10ex.row.id then
          { c with display_text := C10ex.card.display_text,
                   source_line := C10ex.card.source_line }
        else c) ∧
    ({ C10ex.c0 with display_text := C10ex.card.display_text,
                     source_line := C10ex.card.source_line } : CardRow) ∈
      (processCard id "t1" (none : Option (Scheduler Unit)) [] C10ex.st
        (C10ex.t, C10ex.card)).db.cards ∧
    (∀ c ∈ C10ex.st.db.cards, c.id ≠ C10ex.row.id →
      c ∈ (processCard id "t1" (none : Option (Scheduler Unit)) [] C10ex.st
        (C10ex.t, C10ex.card)).db.cards) ∧
    (processCard id "t1" (none : Option (Scheduler Unit)) [] C10ex.st
        (C10ex.t, C10ex.card)).db.card_state = C10ex.st.db.card_state ∧
    (processCard id "t1" (none : Option (Scheduler Unit)) [] C10ex.st
        (C10ex.t, C10ex.card)).db.recommendations = C10ex.st.db.recommendations ∧
    (processCard id "t1" (none : Option (Scheduler Unit)) [] C10ex.st
        (C10ex.t, C10ex.card)).db.card_relations = C10ex.st.db.card_relations ∧
    (processCard id "t1" (none : Option (Scheduler Unit)) [] C10ex.st
        (C10ex.t, C10ex.card)).db.review_log = C10ex.st.db.review_log ∧
    (processCard id "t1" (none : Option (Scheduler Unit)) [] C10ex.st
        (C10ex.t, C10ex.card)).db.next_id = C10ex.st.db.next_id ∧
    (∀ (j : Nat) (tg : String), j ≠ C10ex.row.id →
      ((j, tg) ∈ (processCard id "t1" (none : Option (Scheduler Unit)) [] C10ex.st
        (C10ex.t, C10ex.card)).db.card_tags ↔ (j, tg) ∈ C10ex.st.db.card_tags)) ∧
    (∀ tg : String,
      ((C10ex.row.id, tg) ∈ (processCard id "t1" (none : Option (Scheduler Unit)) []
        C10ex.st (C10ex.t, C10ex.card)).db.card_tags ↔ tg ∈ C10ex.card.tags)) ∧
    (processCard id "t1" (none : Option (Scheduler Unit)) [] C10ex.st
        (C10ex.t, C10ex.card)).stats =
      { C10ex.st.stats with unchanged := C10ex.st.stats.unchanged + 1 } :=
  c10_unchanged_frame id "t1" none [] C10ex.st C10ex.t C10ex.card C10ex.row C10ex.c0
    (by decide) (by decide) (by decide) (by decide)

end SR
